import Mathlib

/-!
# A verification development for the `ray` path tracer

The Go package `ray` (file `ray.go`) is embedded shallowly.

* The definitions are written once, over a type `F` that stands for
  `float64` and carries the operations the code uses (`+`, `-`, `*`, `/`,
  unary `-`, `<`, `<=`, the numeric literals and the conversions from
  integers).  They are used at two kinds of `F`:
  - a linearly ordered field, which is exact arithmetic (no rounding, no
    overflow or underflow, no NaN or infinities; `x / 0` is `0` there).  The
    general theorems are proved for every such `F`;
  - the type `float64` defined below, which is IEEE 754 binary64 as Go
    computes it.  The definitions are evaluated on it at concrete inputs,
    where rounding, overflow, underflow or a division by zero make the code
    leave what exact arithmetic gives.
* The functions of Go's `math` package are parameters: `sqrt` (for
  `math.Sqrt`), `tan` and `pi` (for `math.Tan`, `math.Pi`).  Theorems that
  depend on what a square root is assume `IsSqrt sqrt`; on `float64` the
  square root is `float64.sqrt`.
* `math.Pow(x, 5)` is `x ^ 5`.
* The bodies of the scatter closures and `GetRay` receive the value they
  draw as an argument (`draw` for `rr.Float64()`, `sample` for the value
  returned by `randomInUnitSphere()` and `randomInUnitDisk()`); the callers
  `ScatterFunc.call`, `ComputeColor` and `Render` draw from the state of the
  pseudo random generator `rr`, which they pass along.
* A pointer argument that the Go code writes through (`rec *HitRecord`,
  `scattered *Ray`) is passed in by value and the written value is returned.
-/

namespace ray

section

variable {F : Type} [Zero F] [One F] [NatCast F] [OfScientific F] [HAdd F F F] [HSub F F F]
  [HMul F F F] [HDiv F F F] [Neg F] [HPow F Nat F] [LT F] [LE F]
  [∀ a b : F, Decidable (a < b)] [∀ a b : F, Decidable (a ≤ b)]

/-- The contract of `math.Sqrt` on non-negative arguments. -/
def IsSqrt (sqrt : F → F) : Prop :=
  ∀ x : F, 0 ≤ x → 0 ≤ sqrt x ∧ sqrt x * sqrt x = x

/-- Go: `type Vec3 struct { X, Y, Z float64 }`. -/
@[ext]
structure Vec3 (F : Type) where
  X : F
  Y : F
  Z : F

/-- Go: `type Ray struct { Origin, Direction Vec3 }`. -/
@[ext]
structure Ray (F : Type) where
  Origin : Vec3 F
  Direction : Vec3 F

/-- Go: `func (v Vec3) Add(o Vec3) Vec3`. -/
def Vec3.Add (v o : Vec3 F) : Vec3 F :=
  { X := v.X + o.X, Y := v.Y + o.Y, Z := v.Z + o.Z }

/-- Go: `func (v Vec3) Sub(o Vec3) Vec3`. -/
def Vec3.Sub (v o : Vec3 F) : Vec3 F :=
  { X := v.X - o.X, Y := v.Y - o.Y, Z := v.Z - o.Z }

/-- Go: `func (v Vec3) Mul(n float64) Vec3`. -/
def Vec3.Mul (v : Vec3 F) (n : F) : Vec3 F :=
  { X := v.X * n, Y := v.Y * n, Z := v.Z * n }

/-- Go: `func (v Vec3) Div(n float64) Vec3`. -/
def Vec3.Div (v : Vec3 F) (n : F) : Vec3 F :=
  { X := v.X / n, Y := v.Y / n, Z := v.Z / n }

/-- Go: `func (r Ray) PointAt(t float64) Vec3`. -/
def Ray.PointAt (r : Ray F) (t : F) : Vec3 F :=
  r.Origin.Add (r.Direction.Mul t)

/-- Go: `func Dot(v1, v2 Vec3) float64`. -/
def Dot (v1 v2 : Vec3 F) : F :=
  v1.X * v2.X + v1.Y * v2.Y + v1.Z * v2.Z

/-- Go: `func Cross(v1, v2 Vec3) Vec3`. -/
def Cross (v1 v2 : Vec3 F) : Vec3 F :=
  { X := v1.Y * v2.Z - v1.Z * v2.Y
    Y := -(v1.X * v2.Z - v1.Z * v2.X)
    Z := v1.X * v2.Y - v1.Y * v2.X }

/-- Go: `func (v Vec3) SquaredLength() float64`. -/
def Vec3.SquaredLength (v : Vec3 F) : F :=
  v.X * v.X + v.Y * v.Y + v.Z * v.Z

/-- Go: `func (v Vec3) Length() float64`. -/
def Vec3.Length (sqrt : F → F) (v : Vec3 F) : F :=
  sqrt v.SquaredLength

/-- Go: `func (v Vec3) Unit() Vec3`. -/
def Vec3.Unit (sqrt : F → F) (v : Vec3 F) : Vec3 F :=
  let l := v.Length sqrt
  { X := v.X / l, Y := v.Y / l, Z := v.Z / l }

/-- Go: `type Color struct { R, G, B float64 }`. -/
@[ext]
structure Color (F : Type) where
  R : F
  G : F
  B : F

/-- Go: `func (c Color) Mul(n float64) Color`. -/
def Color.Mul (c : Color F) (n : F) : Color F :=
  { R := c.R * n, G := c.G * n, B := c.B * n }

/-- Go: `func (c Color) MulColor(o Color) Color`. -/
def Color.MulColor (c o : Color F) : Color F :=
  { R := c.R * o.R, G := c.G * o.G, B := c.B * o.B }

/-- Go: `func (c Color) Div(n float64) Color`. -/
def Color.Div (c : Color F) (n : F) : Color F :=
  { R := c.R / n, G := c.G / n, B := c.B / n }

/-- Go: `func (c Color) Add(o Color) Color`. -/
def Color.Add (c o : Color F) : Color F :=
  { R := c.R + o.R, G := c.G + o.G, B := c.B + o.B }

/-- Go: `type ScatterFunc func(in Ray, rec *HitRecord, scattered *Ray) (*Color, bool)`.
A value of this type is one of the closures built by the three constructors
of the package; it is represented by the constructor that built it and the
variables the closure captured. -/
inductive ScatterFunc (F : Type) where
  | Lambertian (albedo : Color F)
  | Metal (albedo : Color F) (fuzz : F)
  | Dialectric (refIndex : F)

/-- Go: `type HitRecord struct { T float64; P, Normal Vec3; ScatterFn ScatterFunc }`.
`ScatterFn = none` is the nil function value. -/
structure HitRecord (F : Type) where
  T : F
  P : Vec3 F
  Normal : Vec3 F
  ScatterFn : Option (ScatterFunc F)

/-- Go: `type Hitter interface { Hit(r Ray, tMin, tMax float64, rec *HitRecord) bool }`.
The method returns its boolean together with the record `rec` points to
after the call. -/
structure Hitter (F : Type) where
  Hit : Ray F → F → F → HitRecord F → Bool × HitRecord F

/-- Go: `type HitterList struct { l []Hitter; tempRec *HitRecord }`. -/
structure HitterList (F : Type) where
  l : List (Hitter F)
  tempRec : HitRecord F

/-- Go: `type Sphere struct { Center Vec3; Radius float64; ScatterFn ScatterFunc }`. -/
structure Sphere (F : Type) where
  Center : Vec3 F
  Radius : F
  ScatterFn : Option (ScatterFunc F)

/-- Go: `func (s Sphere) Hit(r Ray, tMin, tMax float64, rec *HitRecord) bool`.
Returns the boolean and the record after the call. -/
def Sphere.Hit (sqrt : F → F) (s : Sphere F) (r : Ray F) (tMin tMax : F)
    (rec : HitRecord F) : Bool × HitRecord F :=
  let oc := r.Origin.Sub s.Center
  let a := Dot r.Direction r.Direction
  let b := Dot oc r.Direction
  let c := Dot oc oc - s.Radius * s.Radius
  let discriminant := b * b - a * c
  if discriminant < 0 then
    (false, rec)
  else
    let temp := (-b - sqrt (b * b - a * c)) / a
    if temp < tMax ∧ temp > tMin then
      let rec1 := { rec with T := temp }
      let rec2 := { rec1 with P := r.PointAt temp }
      let rec3 := { rec2 with ScatterFn := s.ScatterFn }
      let rec4 := { rec3 with Normal := (rec3.P.Sub s.Center).Div s.Radius }
      (true, rec4)
    else
      let temp := (-b + sqrt (b * b - a * c)) / a
      if temp < tMax ∧ temp > tMin then
        let rec1 := { rec with T := temp }
        let rec2 := { rec1 with P := r.PointAt temp }
        let rec3 := { rec2 with ScatterFn := s.ScatterFn }
        let rec4 := { rec3 with Normal := (rec3.P.Sub s.Center).Div s.Radius }
        (true, rec4)
      else
        (false, rec)

/-- A `Sphere` seen through the `Hitter` interface. -/
def Sphere.toHitter (sqrt : F → F) (s : Sphere F) : Hitter F :=
  { Hit := fun r tMin tMax rec => s.Hit sqrt r tMin tMax rec }

/-- The variables the loop of `HitterList.Hit` updates: the locals
`hitAnything` and `closest`, the scratch record `*hl.tempRec` and the
caller's record `*rec`. -/
structure HitLoopState (F : Type) where
  hitAnything : Bool
  closest : F
  tempRec : HitRecord F
  callerRec : HitRecord F

/-- The `for i := 0; i < len(hl.l); i++` loop of `HitterList.Hit`, run over
the members that are still to be visited. -/
def HitterList.hitLoop (r : Ray F) (tMin : F) :
    List (Hitter F) → HitLoopState F → HitLoopState F
  | [], st => st
  | h :: rest, st =>
    let res := h.Hit r tMin st.closest st.tempRec
    if !res.1 then
      HitterList.hitLoop r tMin rest { st with tempRec := res.2 }
    else
      HitterList.hitLoop r tMin rest
        { hitAnything := true, closest := res.2.T, tempRec := res.2, callerRec := res.2 }

/-- Go: `func (hl *HitterList) Hit(r Ray, tMin, tMax float64, rec *HitRecord) bool`.
Returns the boolean, the caller's record after the call and the list with
its scratch record after the call. -/
def HitterList.Hit (hl : HitterList F) (r : Ray F) (tMin tMax : F)
    (rec : HitRecord F) : Bool × HitRecord F × HitterList F :=
  let st := HitterList.hitLoop r tMin hl.l
    { hitAnything := false, closest := tMax, tempRec := hl.tempRec, callerRec := rec }
  if !st.hitAnything then
    (false, st.callerRec, { hl with tempRec := st.tempRec })
  else
    (true, st.callerRec, { hl with tempRec := st.tempRec })

/-- Go: `func reflect(v, n Vec3) Vec3`. -/
def reflect (v n : Vec3 F) : Vec3 F :=
  v.Sub (n.Mul (Dot v n * 2))

/-- Go: `func refract(v, n Vec3, niOverNt float64) (*Vec3, bool)`.
`some x` is `(&globalRefracted, true)` with `globalRefracted = x`, `none` is
`(nil, false)`. -/
def refract (sqrt : F → F) (v n : Vec3 F) (niOverNt : F) : Option (Vec3 F) :=
  let uv := v.Unit sqrt
  let dt := Dot uv n
  let discriminant := 1 - niOverNt * niOverNt * (1 - dt * dt)
  if discriminant > 0 then
    some ((((uv.Sub (n.Mul dt)).Mul niOverNt)).Sub (n.Mul (sqrt discriminant)))
  else
    none

/-- Go: `func schlick(cosine, refIndex float64) float64`. -/
def schlick (cosine refIndex : F) : F :=
  let r0 := (1 - refIndex) / (1 + refIndex)
  let r0 := r0 * r0
  r0 + (1 - r0) * (1 - cosine) ^ 5

/-- Go: `var colorWhite = Color{R: 1, G: 1, B: 1}`. -/
def colorWhite : Color F := { R := 1, G := 1, B := 1 }

/-- What a call of a `ScatterFunc` leaves behind: the returned attenuation
and `ok`, and the ray `scattered` points to after the call. -/
structure ScatterResult (F : Type) where
  attenuation : Color F
  ok : Bool
  scattered : Ray F

/-- Go: the closure returned by `NewMaterialLambertian(albedo)`, applied to
`(in, rec, scattered)`; `sample` is the value of `randomInUnitSphere()`. -/
def NewMaterialLambertian (albedo : Color F) (sample : Vec3 F)
    (_rin : Ray F) (rec : HitRecord F) (scattered : Ray F) : ScatterResult F :=
  let target := (rec.P.Add rec.Normal).Add sample
  let scattered := { scattered with Origin := rec.P }
  let scattered := { scattered with Direction := target.Sub rec.P }
  { attenuation := albedo, ok := true, scattered := scattered }

/-- Go: the closure returned by `NewMaterialMetal(albedo, fuzz)`, applied to
`(in, rec, scattered)`; `sample` is the value of `randomInUnitSphere()`.
The closure assigns the clamped value to its captured `fuzz`; clamping a
clamped value changes nothing, so later calls see the same `fuzz`. -/
def NewMaterialMetal (sqrt : F → F) (albedo : Color F) (fuzz : F) (sample : Vec3 F)
    (rin : Ray F) (rec : HitRecord F) (scattered : Ray F) : ScatterResult F :=
  let fuzz := if fuzz > 1 then 1 else fuzz
  let fuzz := if fuzz < 0 then 0 else fuzz
  let reflected := reflect (rin.Direction.Unit sqrt) rec.Normal
  let scattered := { scattered with Origin := rec.P }
  let scattered := { scattered with Direction := reflected.Add (sample.Mul fuzz) }
  let attenuation := albedo
  let ok := decide (Dot scattered.Direction rec.Normal > 0)
  { attenuation := attenuation, ok := ok, scattered := scattered }

/-- Go: the closure returned by `NewMaterialDialectric(refIndex)`, applied to
`(in, rec, scattered)`; `draw` is the value of `rr.Float64()`.  The result
is `none` when the Go code dereferences the nil pointer `refracted`.  The
three variables assigned in the `if`/`else` (`outwardNormal`, `niOverNt`,
`cosine`) form the triple `branch`; `refractOK` is `refracted.isSome`. -/
def NewMaterialDialectric (sqrt : F → F) (refIndex : F) (draw : F)
    (rin : Ray F) (rec : HitRecord F) (scattered : Ray F) : Option (ScatterResult F) :=
  let reflected := reflect rin.Direction rec.Normal
  let branch : Vec3 F × F × F :=
    if Dot rin.Direction rec.Normal > 0 then
      (rec.Normal.Mul (-1), refIndex,
        refIndex * Dot rin.Direction rec.Normal / rin.Direction.Length sqrt)
    else
      (rec.Normal, 1 / refIndex,
        -1 * Dot rin.Direction rec.Normal / rin.Direction.Length sqrt)
  let outwardNormal := branch.1
  let niOverNt := branch.2.1
  let cosine := branch.2.2
  let refracted := refract sqrt rin.Direction outwardNormal niOverNt
  let reflectProb := if refracted.isSome then schlick cosine refIndex else 1
  if draw < reflectProb then
    let scattered := { scattered with Origin := rec.P }
    let scattered := { scattered with Direction := reflected }
    some { attenuation := colorWhite, ok := true, scattered := scattered }
  else
    match refracted with
    | none => none
    | some x =>
      let scattered := { scattered with Origin := rec.P }
      let scattered := { scattered with Direction := x }
      some { attenuation := colorWhite, ok := true, scattered := scattered }

/-- Go: `type Camera struct { Origin, LowerLeft, Horizontal, Vertical Vec3;
lensRadius float64; w, u, v Vec3 }`. -/
structure Camera (F : Type) where
  Origin : Vec3 F
  LowerLeft : Vec3 F
  Horizontal : Vec3 F
  Vertical : Vec3 F
  lensRadius : F
  w : Vec3 F
  u : Vec3 F
  v : Vec3 F

/-- Go: `func NewCamera(lookFrom, lookAt, vUp Vec3, vFOV, aspect, aperture,
focusDist float64) Camera`. -/
def NewCamera (sqrt tan : F → F) (pi : F) (lookFrom lookAt vUp : Vec3 F)
    (vFOV aspect aperture focusDist : F) : Camera F :=
  let theta := vFOV * pi / 180
  let halfHeight := tan (theta / 2)
  let halfWidth := aspect * halfHeight
  let w := (lookFrom.Sub lookAt).Unit sqrt
  let u := (Cross vUp w).Unit sqrt
  let v := Cross w u
  { LowerLeft := ((lookFrom.Sub (u.Mul (halfWidth * focusDist))).Sub
      (v.Mul (halfHeight * focusDist))).Sub (w.Mul focusDist)
    Horizontal := u.Mul (2 * halfWidth * focusDist)
    Vertical := v.Mul (2 * halfHeight * focusDist)
    Origin := lookFrom
    lensRadius := aperture / 2
    w := w
    u := u
    v := v }

/-- Go: `func (c Camera) GetRay(s, t float64) Ray`; `sample` is the value of
`randomInUnitDisk()`. -/
def Camera.GetRay (c : Camera F) (s t : F) (sample : Vec3 F) : Ray F :=
  let rd := sample.Mul c.lensRadius
  let offset := (c.u.Mul rd.X).Add (c.v.Mul rd.Y)
  { Origin := c.Origin.Add offset
    Direction := (((c.LowerLeft.Add (c.Horizontal.Mul s)).Add (c.Vertical.Mul t)).Sub
      c.Origin).Sub offset }

/-- The left-hand side of the intersection equation `a*t^2 + 2*b*t + c = 0`
of the specification, with `a = dot(d,d)`, `b = dot(oc,d)`,
`c = dot(oc,oc) - r^2` and `oc = origin - center`. -/
def hitQuadratic (s : Sphere F) (r : Ray F) (t : F) : F :=
  Dot r.Direction r.Direction * t ^ 2
    + 2 * Dot (r.Origin.Sub s.Center) r.Direction * t
    + (Dot (r.Origin.Sub s.Center) (r.Origin.Sub s.Center) - s.Radius * s.Radius)

/-- The value `t` is the smallest root of the intersection quadratic of `s`
and `r` in the open interval `(tMin, tMax)`. -/
def IsLeastRoot (s : Sphere F) (r : Ray F) (tMin tMax t : F) : Prop :=
  hitQuadratic s r t = 0 ∧ tMin < t ∧ t < tMax ∧
    ∀ u, hitQuadratic s r u = 0 → tMin < u → u < tMax → t ≤ u

/-- The record `Sphere.Hit` writes when it accepts the root `t`. -/
def Sphere.recordAt (s : Sphere F) (r : Ray F) (t : F) : HitRecord F :=
  { T := t
    P := r.PointAt t
    Normal := ((r.PointAt t).Sub s.Center).Div s.Radius
    ScatterFn := s.ScatterFn }

/-- The zero vector. -/
def Vec3.zero : Vec3 F := { X := 0, Y := 0, Z := 0 }

/-- A `HitterList` whose members are the spheres `ss`, in this order, with
scratch record `tmp` (what `NewHitterList` followed by `Add` calls builds). -/
def HitterList.ofSpheres (sqrt : F → F) (ss : List (Sphere F)) (tmp : HitRecord F) :
    HitterList F :=
  { l := ss.map (Sphere.toHitter sqrt), tempRec := tmp }

/-! ## The random generator, the path tracer and the render loop

The remaining functions draw from the generator `rr` themselves.  The state
of `rr` is the sequence of values its future calls of `Float64()` return; a
function that draws receives the state and returns the state it leaves.
The `for { ... }` loops of rejection sampling are cut off after `fuel`
iterations and the recursion of `ComputeColor` is given a budget of nested
calls; a call that does not return a value reports a `Fault`. -/

/-- Why a modelled call does not return a value. -/
inductive Fault where
  /-- A rejection sampling loop was cut off after `fuel` iterations. -/
  | loop
  /-- A nil pointer was dereferenced or a nil function was called. -/
  | nilDeref
  /-- More nested recursive calls were needed than the budget allows. -/
  | calls
deriving DecidableEq

/-- The state of the generator `rr`: value number `n` is what the `n`-th
call of `rr.Float64()` from now on returns. -/
abbrev Rand (F : Type) : Type := Nat → F

/-- Go: `rr.Float64()`, the value drawn and the state left. -/
def Rand.Float64 (rr : Rand F) : F × Rand F :=
  (rr 0, fun n => rr (n + 1))

/-- The state of `rr` after `k` more draws. -/
def Rand.drop (rr : Rand F) (k : Nat) : Rand F :=
  fun n => rr (n + k)

/-- The contract of `Float64()`: every value drawn lies in `[0, 1)`. -/
def Rand.InUnit (rr : Rand F) : Prop :=
  ∀ n, 0 ≤ rr n ∧ rr n < 1

/-- Go: `func randomInUnitSphere() Vec3`, cut off after `fuel` iterations. -/
def randomInUnitSphere : Nat → Rand F → Except Fault (Vec3 F × Rand F)
  | 0, _ => .error .loop
  | fuel + 1, rr =>
    let x := rr.Float64
    let y := x.2.Float64
    let z := y.2.Float64
    let p := (({ X := x.1, Y := y.1, Z := z.1 } : Vec3 F).Mul 2).Sub { X := 1, Y := 1, Z := 1 }
    if p.SquaredLength ≥ 1 then
      randomInUnitSphere fuel z.2
    else
      .ok (p, z.2)

/-- Go: `func randomInUnitDisk() Vec3`, cut off after `fuel` iterations. -/
def randomInUnitDisk : Nat → Rand F → Except Fault (Vec3 F × Rand F)
  | 0, _ => .error .loop
  | fuel + 1, rr =>
    let x := rr.Float64
    let y := x.2.Float64
    let p := (({ X := x.1, Y := y.1, Z := 0 } : Vec3 F).Mul 2).Sub { X := 1, Y := 1, Z := 0 }
    if Dot p p ≥ 1 then
      randomInUnitDisk fuel y.2
    else
      .ok (p, y.2)

/-- Go: a call `fn(in, rec, scattered)` of a `ScatterFunc`.  The closure
draws from `rr` what its body needs and runs the body. -/
def ScatterFunc.call (sqrt : F → F) (fuel : Nat) (fn : ScatterFunc F)
    (rin : Ray F) (rec : HitRecord F) (scattered : Ray F) (rr : Rand F) :
    Except Fault (ScatterResult F × Rand F) :=
  match fn with
  | .Lambertian albedo =>
    match randomInUnitSphere fuel rr with
    | .error e => .error e
    | .ok (sample, rr1) => .ok (NewMaterialLambertian albedo sample rin rec scattered, rr1)
  | .Metal albedo fuzz =>
    match randomInUnitSphere fuel rr with
    | .error e => .error e
    | .ok (sample, rr1) => .ok (NewMaterialMetal sqrt albedo fuzz sample rin rec scattered, rr1)
  | .Dialectric refIndex =>
    let d := rr.Float64
    match NewMaterialDialectric sqrt refIndex d.1 rin rec scattered with
    | none => .error .nilDeref
    | some res => .ok (res, d.2)

/-- What a call of `ComputeColor` leaves behind: the returned colour, the ray
`scatterRay` points to, the record `rec` points to and the state of `rr`. -/
structure ColorResult (F : Type) where
  color : Color F
  scatterRay : Ray F
  hitRec : HitRecord F
  rr : Rand F

/-- Go: `func ComputeColor(r Ray, h Hitter, depth int, scatterRay *Ray,
rec *HitRecord) Color`.  `maxFloat64` is `math.MaxFloat64`; `calls` is the
number of nested recursive calls the call may make. -/
def ComputeColor (sqrt : F → F) (maxFloat64 : F) (fuel : Nat) (calls : Nat)
    (r : Ray F) (h : Hitter F) (depth : Int) (scatterRay : Ray F) (rec : HitRecord F)
    (rr : Rand F) : Except Fault (ColorResult F) :=
  let hit := h.Hit r 0.001 maxFloat64 rec
  if hit.1 then
    match hit.2.ScatterFn with
    | none => .error .nilDeref
    | some fn =>
      match fn.call sqrt fuel r hit.2 scatterRay rr with
      | .error e => .error e
      | .ok (sc, rr1) =>
        if depth < 50 ∧ sc.ok then
          match calls with
          | 0 => .error .calls
          | calls1 + 1 =>
            match ComputeColor sqrt maxFloat64 fuel calls1 sc.scattered h (depth + 1)
                sc.scattered hit.2 rr1 with
            | .error e => .error e
            | .ok res => .ok { res with color := res.color.MulColor sc.attenuation }
        else
          .ok { color := { R := 0, G := 0, B := 0 }, scatterRay := sc.scattered,
                hitRec := hit.2, rr := rr1 }
  else
    let unitDirection := r.Direction.Unit sqrt
    let t := 0.5 * (unitDirection.Y + 1.0)
    let white : Color F := { R := 1, G := 1, B := 1 }
    let blueish : Color F := { R := 0.5, G := 0.7, B := 1.0 }
    .ok { color := (white.Mul (1 - t)).Add (blueish.Mul t), scatterRay := scatterRay,
          hitRec := hit.2, rr := rr }

/-- A `*HitterList` seen through the `Hitter` interface.  The scratch record
a call leaves in `hl.tempRec` is not kept: for a list of spheres it has no
influence on later calls (`HitterList.Hit_tempRec_irrelevant`). -/
def HitterList.toHitter (hl : HitterList F) : Hitter F :=
  { Hit := fun r tMin tMax rec =>
      ((hl.Hit r tMin tMax rec).1, (hl.Hit r tMin tMax rec).2.1) }

end

section

variable {F : Type} [LinearOrderedField F]

/-- Go: `color.RGBA`, four `uint8` channels. -/
structure RGBA where
  R : Nat
  G : Nat
  B : Nat
  A : Nat
deriving DecidableEq

/-- Go: the conversion `uint8(x)` of a `float64`.  The fraction is discarded
(truncation towards zero); when the truncated value is not in `0..255` the
result depends on the implementation and is given by `wrap`. -/
def uint8 [FloorRing F] (wrap : F → Nat) (x : F) : Nat :=
  if -1 < x ∧ x < 256 then ⌊x⌋.toNat else wrap x % 256

/-- One call `img.Set(x, y, clr)`. -/
structure SetCall where
  x : Nat
  y : Nat
  clr : RGBA
deriving DecidableEq

/-- The variables of `Render` that live across loop iterations: the image,
as the calls of `img.Set` made on the fresh `image.NewRGBA` so far (oldest
first), `*scatterRay`, `*rec` and the generator. -/
structure RenderState (F : Type) where
  img : List SetCall
  scatterRay : Ray F
  hitRec : HitRecord F
  rr : Rand F

/-- A counting `for` loop: `body k` is run for each `k` of the list in turn. -/
def forEach {σ : Type} (body : Nat → σ → Except Fault σ) : List Nat → σ → Except Fault σ
  | [], st => .ok st
  | k :: ks, st =>
    match body k st with
    | .error e => .error e
    | .ok st1 => forEach body ks st1

/-- Go: the two assignments `u := (float64(j) + rr.Float64()) / float64(width)`
and `v := (float64(i) + rr.Float64()) / float64(height)` of `Render`. -/
def Render.sampleUV (width height i j : Nat) (rr : Rand F) : (F × F) × Rand F :=
  let d1 := rr.Float64
  let u := ((j : F) + d1.1) / (width : F)
  let d2 := d1.2.Float64
  let v := ((i : F) + d2.1) / (height : F)
  ((u, v), d2.2)

/-- Go: the body of the loop over `s` in `Render`; the first component of
the state is the local `c`. -/
def Render.sample (sqrt : F → F) (maxFloat64 : F) (fuel calls : Nat) (width height : Nat)
    (camera : Camera F) (world : Hitter F) (i j : Nat) (_s : Nat)
    (st : Color F × RenderState F) : Except Fault (Color F × RenderState F) :=
  let uv := Render.sampleUV width height i j st.2.rr
  match randomInUnitDisk fuel uv.2 with
  | .error e => .error e
  | .ok (rd, rr1) =>
    let r := camera.GetRay uv.1.1 uv.1.2 rd
    match ComputeColor sqrt maxFloat64 fuel calls r world 0 st.2.scatterRay st.2.hitRec rr1 with
    | .error e => .error e
    | .ok res =>
      .ok (st.1.Add res.color,
        { st.2 with scatterRay := res.scatterRay, hitRec := res.hitRec, rr := res.rr })

/-- Go: the conversion of the averaged colour `c` to `color.RGBA` in `Render`. -/
def Render.toRGBA [FloorRing F] (wrap : F → Nat) (c : Color F) : RGBA :=
  { R := uint8 wrap (255.99 * c.R)
    G := uint8 wrap (255.99 * c.G)
    B := uint8 wrap (255.99 * c.B)
    A := 1 }

/-- Go: the body of the loop over `j` in `Render`. -/
def Render.pixel [FloorRing F] (sqrt : F → F) (maxFloat64 : F) (wrap : F → Nat)
    (fuel calls : Nat) (width height : Nat) (samples : Int)
    (camera : Camera F) (world : Hitter F) (i j : Nat) (st : RenderState F) :
    Except Fault (RenderState F) :=
  match forEach (Render.sample sqrt maxFloat64 fuel calls width height camera world i j)
      (List.range samples.toNat) ({ R := 0, G := 0, B := 0 }, st) with
  | .error e => .error e
  | .ok (c, st1) =>
    let c := c.Div (samples : F)
    let clr := Render.toRGBA wrap c
    let x := j
    let y := (height - 1) - i
    .ok { st1 with img := st1.img ++ [{ x := x, y := y, clr := clr }] }

/-- Go: `func Render(width, height, samples int, camera Camera, world Hitter)
image.Image`, for non-negative `width` and `height`.  The result holds the
image and the state the generator is left in. -/
def Render [FloorRing F] (sqrt : F → F) (maxFloat64 : F) (wrap : F → Nat)
    (fuel calls : Nat) (width height : Nat) (samples : Int)
    (camera : Camera F) (world : Hitter F) (rr : Rand F) : Except Fault (RenderState F) :=
  forEach
    (fun i st =>
      forEach (Render.pixel sqrt maxFloat64 wrap fuel calls width height samples camera world i)
        (List.range width) st)
    (List.range height).reverse
    { img := []
      scatterRay := { Origin := { X := 0, Y := 0, Z := 0 }, Direction := { X := 0, Y := 0, Z := 0 } }
      hitRec := { T := 0, P := { X := 0, Y := 0, Z := 0 }, Normal := { X := 0, Y := 0, Z := 0 },
                  ScatterFn := none }
      rr := rr }

/-- Go: `img.At(x, y)` on the image `Render` returns: the colour of the last
`Set` on `(x, y)`, the zero colour when there was none. -/
def imageAt (img : List SetCall) (x y : Nat) : RGBA :=
  match img.reverse.find? (fun c => c.x = x ∧ c.y = y) with
  | some c => c.clr
  | none => { R := 0, G := 0, B := 0, A := 0 }

/-- The 8-bit value the specification gives for a channel `c`:
`round(255.999 * clamp(c, 0, 1))`. -/
def specChannel [FloorRing F] (c : F) : Int :=
  round (255.999 * max 0 (min 1 c))

end

section

variable {F : Type} [Zero F] [One F] [NatCast F] [OfScientific F] [HAdd F F F] [HSub F F F]
  [HMul F F F] [HDiv F F F] [Neg F] [HPow F Nat F] [LT F] [LE F]
  [∀ a b : F, Decidable (a < b)] [∀ a b : F, Decidable (a ≤ b)]

/-- Every channel of the colour lies in `[0, 1]`. -/
def Color.InUnit (c : Color F) : Prop :=
  0 ≤ c.R ∧ c.R ≤ 1 ∧ 0 ≤ c.G ∧ c.G ≤ 1 ∧ 0 ≤ c.B ∧ c.B ≤ 1

/-- The material is Lambertian or Metal with every albedo channel in
`[0, 1]`, or Dielectric. -/
def GoodMaterial : Option (ScatterFunc F) → Prop
  | some (.Lambertian albedo) => albedo.InUnit
  | some (.Metal albedo _) => albedo.InUnit
  | some (.Dialectric _) => True
  | none => False

/-! ## Concrete inputs used to instantiate the theorems -/

/-- The record `new(HitRecord)` allocates. -/
def exRec : HitRecord F :=
  { T := 0, P := { X := 0, Y := 0, Z := 0 }, Normal := { X := 0, Y := 0, Z := 0 },
    ScatterFn := none }

/-- The unit sphere at the origin, diffuse grey. -/
def exSphere : Sphere F :=
  { Center := { X := 0, Y := 0, Z := 0 }, Radius := 1,
    ScatterFn := some (ScatterFunc.Lambertian { R := 1 / 2, G := 1 / 2, B := 1 / 2 }) }

/-- A sphere of radius 1 centred at `(0, 0, 2)`, glass. -/
def exSphereBehind : Sphere F :=
  { Center := { X := 0, Y := 0, Z := 2 }, Radius := 1,
    ScatterFn := some (ScatterFunc.Dialectric (3 / 2)) }

/-- A sphere of radius 1 centred at `(0, 5, 0)`. -/
def exSphereAside : Sphere F :=
  { Center := { X := 0, Y := 5, Z := 0 }, Radius := 1, ScatterFn := none }

/-- The ray from `(0, 0, -3)` along `+Z`. -/
def exRay : Ray F :=
  { Origin := { X := 0, Y := 0, Z := -3 }, Direction := { X := 0, Y := 0, Z := 1 } }

/-- A record of a hit at the origin with normal `+Y`. -/
def exFlatRec : HitRecord F :=
  { T := 1, P := { X := 0, Y := 0, Z := 0 }, Normal := { X := 0, Y := 1, Z := 0 },
    ScatterFn := none }

/-- An incoming ray with direction `(3, -4, 0)`, of length 5. -/
def exRayDown : Ray F :=
  { Origin := { X := -3, Y := 4, Z := 0 }, Direction := { X := 3, Y := -4, Z := 0 } }

/-- An incoming ray with direction `(0, -2, 0)`, of length 2. -/
def exRayTwo : Ray F :=
  { Origin := { X := 0, Y := 2, Z := 0 }, Direction := { X := 0, Y := -2, Z := 0 } }

/-- An incoming ray with direction `(4, 3, 0)`, of length 5, leaving through `+Y`. -/
def exRayUp : Ray F :=
  { Origin := { X := -4, Y := -3, Z := 0 }, Direction := { X := 4, Y := 3, Z := 0 } }

/-- The ray `new(Ray)` allocates. -/
def exScattered : Ray F :=
  { Origin := { X := 0, Y := 0, Z := 0 }, Direction := { X := 0, Y := 0, Z := 0 } }

/-- The generator state in which every draw is `1/2`. -/
def exHalf : Rand F := fun _ => 1 / 2

/-- The scene without members. -/
def exEmptyWorld : Hitter F :=
  HitterList.toHitter { l := [], tempRec := exRec }

/-- A camera at the origin with zero aperture whose rays all have direction
`(0, 0, -1)`. -/
def exCamera : Camera F :=
  { Origin := { X := 0, Y := 0, Z := 0 }
    LowerLeft := { X := 0, Y := 0, Z := -1 }
    Horizontal := { X := 0, Y := 0, Z := 0 }
    Vertical := { X := 0, Y := 0, Z := 0 }
    lensRadius := 0
    w := { X := 0, Y := 0, Z := 1 }
    u := { X := 1, Y := 0, Z := 0 }
    v := { X := 0, Y := 1, Z := 0 } }

/-- The ray from `(0, 0, 3)` along `+Z`, pointing away from the unit sphere. -/
def exRayAway : Ray F :=
  { Origin := { X := 0, Y := 0, Z := 3 }, Direction := { X := 0, Y := 0, Z := 1 } }

/-- A sphere of radius `ρ` centred at the origin, without a material. -/
def exSphereOf (ρ : F) : Sphere F :=
  { Center := { X := 0, Y := 0, Z := 0 }, Radius := ρ, ScatterFn := none }

/-- The ray from `(ρ, 0, -1/2)` along `+Z`; its line touches the sphere
`exSphereOf ρ` in the point `(ρ, 0, 0)`. -/
def exRayTangent (ρ : F) : Ray F :=
  { Origin := { X := ρ, Y := 0, Z := -1 / 2 }, Direction := { X := 0, Y := 0, Z := 1 } }

/-- The ray from `(2, 3, -10)` along `+Z`. -/
def exRaySkew : Ray F :=
  { Origin := { X := 2, Y := 3, Z := -10 }, Direction := { X := 0, Y := 0, Z := 1 } }

/-- The ray from `(1, 0, -3)` along `+Z`; its line passes the origin at
distance 1. -/
def exRayOffset : Ray F :=
  { Origin := { X := 1, Y := 0, Z := -3 }, Direction := { X := 0, Y := 0, Z := 1 } }

/-- The ray from `(0, 0, -3)` with direction `(0, 0, 2^600)`. -/
def exRayFast : Ray F :=
  { Origin := { X := 0, Y := 0, Z := -3 },
    Direction := { X := 0, Y := 0, Z := ((2 ^ 600 : Nat) : F) } }

/-- The ray from the origin with direction `(0, 1, 0)`. -/
def exRayVertical : Ray F :=
  { Origin := { X := 0, Y := 0, Z := 0 }, Direction := { X := 0, Y := 1, Z := 0 } }

/-- The ray from the origin with direction `(0, 2^-600, 0)`. -/
def exRayFaint : Ray F :=
  { Origin := { X := 0, Y := 0, Z := 0 },
    Direction := { X := 0, Y := 1 / ((2 ^ 600 : Nat) : F), Z := 0 } }

/-- A sphere of radius 0 at the origin, diffuse grey. -/
def exSpherePoint : Sphere F :=
  { Center := { X := 0, Y := 0, Z := 0 }, Radius := 0,
    ScatterFn := some (ScatterFunc.Lambertian { R := 1 / 2, G := 1 / 2, B := 1 / 2 }) }

/-- The vector `(0.1, 0.2, 0.3)`. -/
def exV : Vec3 F := { X := 0.1, Y := 0.2, Z := 0.3 }

/-- The vector `(0.4, 0.5, 0.7)`. -/
def exW : Vec3 F := { X := 0.4, Y := 0.5, Z := 0.7 }

end

/-! ## The arithmetic of `float64`

Go's `float64` is IEEE 754 binary64 with rounding to nearest, ties to even.
The type below holds its values and the operations the package uses; every
finite result is the exact result rounded once, as the standard prescribes
for `+`, `-`, `*`, `/` and `math.Sqrt`. -/

/-- Go: `float64`.  A value is not-a-number, an infinity with its sign, or
the finite number `(-1)^neg * m * 2^e`; zero is `m = 0` and keeps its sign.
The operations return finite values in canonical form: `m < 2^53`,
`-1074 ≤ e ≤ 971`, and `2^52 ≤ m` unless `e = -1074` (subnormal numbers and
zero). -/
inductive float64 where
  | nan : float64
  | inf (neg : Bool) : float64
  | fin (neg : Bool) (m : Nat) (e : Int) : float64
deriving DecidableEq

/-- The number of halvings that bring `n` below 2, at most `fuel` of them. -/
def float64.log2Aux : Nat → Nat → Nat
  | 0, _ => 0
  | fuel + 1, n => if n < 2 then 0 else float64.log2Aux fuel (n / 2) + 1

/-- Floor of the binary logarithm of `n` (0 for `n = 0`). -/
def float64.log2 (n : Nat) : Nat := float64.log2Aux n n

/-- The number `n * 2^s` for `s ≥ 0`, and `n` for `s < 0`. -/
def float64.scale (n : Nat) (s : Int) : Nat := if 0 ≤ s then n * 2 ^ s.toNat else n

/-- Rounding to nearest, ties to even, of the positive number
`(n / d) * 2^e` with the sign `neg` attached; `n = 0` gives the zero of
that sign.  With `q` the exponent of the spacing of `float64` values around
the number (`-1074` in the subnormal range), the quotient
`(n / d) * 2^(e - q)` is rounded to the nearest integer `m`; the result is
`m * 2^q`, or the infinity when that is `2^1024` or more. -/
def float64.round (neg : Bool) (n d : Nat) (e : Int) : float64 :=
  if n = 0 then .fin neg 0 (-1074) else
  let k : Int := (float64.log2 n : Int) - (float64.log2 d : Int)
  let l : Int := if float64.scale d k ≤ float64.scale n (-k) then k else k - 1
  let q : Int := max (l + e - 52) (-1074)
  let num := float64.scale n (e - q)
  let den := float64.scale d (q - e)
  let f := num / den
  let r := num % den
  let m := if 2 * r < den then f else if den < 2 * r then f + 1
    else if f % 2 = 0 then f else f + 1
  if m = 2 ^ 53 then (if 971 < q + 1 then .inf neg else .fin neg (2 ^ 52) (q + 1))
  else if 971 < q then .inf neg
  else if m = 0 then .fin neg 0 (-1074)
  else .fin neg m q

/-- The integer `(-1)^neg * m * 2^s` (for `s ≥ 0`). -/
def float64.toInt (neg : Bool) (m : Nat) (s : Int) : Int :=
  if neg then -((float64.scale m s : Nat) : Int) else ((float64.scale m s : Nat) : Int)

/-- Go: unary `-x`. -/
def float64.neg : float64 → float64
  | .fin s a e => .fin (!s) a e
  | .inf s => .inf (!s)
  | .nan => .nan

/-- Go: `x + y`.  An exact sum of zero is `-0` when both operands are
negative (two negative zeros) and `+0` otherwise. -/
def float64.add : float64 → float64 → float64
  | .fin s a e, .fin t b f =>
    let x : Int := float64.toInt s a (e - min e f) + float64.toInt t b (f - min e f)
    if x = 0 then .fin (s && t) 0 (-1074)
    else float64.round (decide (x < 0)) x.natAbs 1 (min e f)
  | .fin _ _ _, .inf t => .inf t
  | .inf s, .fin _ _ _ => .inf s
  | .inf s, .inf t => if s = t then .inf s else .nan
  | _, _ => .nan

/-- Go: `x - y`, which IEEE 754 defines as `x + (-y)`. -/
def float64.sub (x y : float64) : float64 := float64.add x (float64.neg y)

/-- Go: `x * y`. -/
def float64.mul : float64 → float64 → float64
  | .fin s a e, .fin t b f => float64.round (xor s t) (a * b) 1 (e + f)
  | .fin s a _, .inf t => if a = 0 then .nan else .inf (xor s t)
  | .inf s, .fin t b _ => if b = 0 then .nan else .inf (xor s t)
  | .inf s, .inf t => .inf (xor s t)
  | _, _ => .nan

/-- Go: `x / y`. -/
def float64.div : float64 → float64 → float64
  | .fin s a e, .fin t b f =>
    if b = 0 then (if a = 0 then .nan else .inf (xor s t))
    else float64.round (xor s t) a b (e - f)
  | .fin s _ _, .inf t => .fin (xor s t) 0 (-1074)
  | .inf s, .fin t _ _ => .inf (xor s t)
  | _, _ => .nan

/-- The largest `r` below `2^b` above the start value with `r * r ≤ n`,
found bit by bit from bit `b - 1` down. -/
def float64.isqrtAux (n : Nat) : Nat → Nat → Nat
  | 0, r => r
  | b + 1, r =>
    if (r + 2 ^ b) * (r + 2 ^ b) ≤ n then float64.isqrtAux n b (r + 2 ^ b)
    else float64.isqrtAux n b r

/-- Floor of the square root of `n`. -/
def float64.isqrt (n : Nat) : Nat := float64.isqrtAux n (float64.log2 n / 2 + 1) 0

/-- Go: `math.Sqrt(x)`.  A positive `m * 2^e` is rewritten as `M * 2^E` with
`E` even and `M ≥ 2^112`; with `f` the floor of the square root of `M`, the
root is `f * 2^(E/2)` when `f * f = M`, and otherwise lies strictly between
`f` and `f + 1` times `2^(E/2)`, where it rounds as `f + 1/2` does (`f` has
more than 55 bits). -/
def float64.sqrt : float64 → float64
  | .fin s m e =>
    if m = 0 then .fin s 0 (-1074) else if s then .nan else
    let k : Nat := if e % 2 = 0 then 112 else 113
    let f := float64.isqrt (m * 2 ^ k)
    if f * f = m * 2 ^ k then float64.round false f 1 ((e - k) / 2)
    else float64.round false (2 * f + 1) 2 ((e - k) / 2)
  | .inf s => if s then .nan else .inf false
  | .nan => .nan

/-- Go: `x < y`; false when an operand is not a number. -/
def float64.lt : float64 → float64 → Bool
  | .fin s a e, .fin t b f =>
    decide (float64.toInt s a (e - min e f) < float64.toInt t b (f - min e f))
  | .fin _ _ _, .inf t => !t
  | .inf s, .fin _ _ _ => s
  | .inf s, .inf t => s && !t
  | _, _ => false

/-- Go: `x <= y`; false when an operand is not a number. -/
def float64.le : float64 → float64 → Bool
  | .fin s a e, .fin t b f =>
    decide (float64.toInt s a (e - min e f) ≤ float64.toInt t b (f - min e f))
  | .fin _ _ _, .inf t => !t
  | .inf s, .fin _ _ _ => s
  | .inf s, .inf t => s || !t
  | _, _ => false

/-- Repeated multiplication, standing for `math.Pow(x, n)` with a natural
exponent.  It makes `schlick` meaningful on `float64`; no statement of this
file evaluates it. -/
def float64.pow (x : float64) : Nat → float64
  | 0 => .fin false (2 ^ 52) (-52)
  | n + 1 => float64.mul (float64.pow x n) x

/-- Go: `math.MaxFloat64`, which is `(2^53 - 1) * 2^971`. -/
def float64.maxFloat64 : float64 := .fin false (2 ^ 53 - 1) 971

/-- The largest `float64` below 1, `(2^53 - 1) * 2^-53 = 1 - 2^-53`. -/
def exThinRadius : float64 := .fin false (2 ^ 53 - 1) (-53)

/-- The rational number a finite value stands for (0 for the others). -/
def float64.toRat : float64 → ℚ
  | .fin s m e => (if s then -(m : ℚ) else (m : ℚ)) * 2 ^ e
  | _ => 0

instance : Zero float64 := ⟨.fin false 0 (-1074)⟩
instance : One float64 := ⟨.fin false (2 ^ 52) (-52)⟩
instance : NatCast float64 := ⟨fun n => float64.round false n 1 0⟩
instance : OfScientific float64 :=
  ⟨fun m s e => if s then float64.round false m (10 ^ e) 0 else float64.round false (m * 10 ^ e) 1 0⟩
instance : Add float64 := ⟨float64.add⟩
instance : Sub float64 := ⟨float64.sub⟩
instance : Mul float64 := ⟨float64.mul⟩
instance : Div float64 := ⟨float64.div⟩
instance : Neg float64 := ⟨float64.neg⟩
instance : Pow float64 Nat := ⟨float64.pow⟩
instance : LT float64 := ⟨fun x y => float64.lt x y = true⟩
instance : LE float64 := ⟨fun x y => float64.le x y = true⟩
instance (x y : float64) : Decidable (x < y) := inferInstanceAs (Decidable (float64.lt x y = true))
instance (x y : float64) : Decidable (x ≤ y) := inferInstanceAs (Decidable (float64.le x y = true))

/-! ## Auxiliary facts -/

variable {F : Type} [LinearOrderedField F]

theorem dot_self_pos (v : Vec3 F) (h : v ≠ Vec3.zero) : 0 < Dot v v := by
  rcases v with ⟨x, y, z⟩
  by_contra hn
  have h0 : x * x + y * y + z * z ≤ 0 := by simpa [Dot] using hn
  have hx : x = 0 := by nlinarith [mul_self_nonneg x, mul_self_nonneg y, mul_self_nonneg z]
  have hy : y = 0 := by nlinarith [mul_self_nonneg x, mul_self_nonneg y, mul_self_nonneg z]
  have hz : z = 0 := by nlinarith [mul_self_nonneg x, mul_self_nonneg y, mul_self_nonneg z]
  exact h (by simp [Vec3.zero, hx, hy, hz])

theorem IsSqrt.sqrt_unique {sqrt : F → F} (hs : IsSqrt sqrt) {x y : F} (hy : 0 ≤ y)
    (h : y * y = x) : sqrt x = y := by
  have hx : 0 ≤ x := by rw [← h]; exact mul_self_nonneg y
  obtain ⟨h1, h2⟩ := hs x hx
  have h3 : sqrt x * sqrt x = y * y := by rw [h2, h]
  rcases mul_self_eq_mul_self_iff.mp h3 with h4 | h4
  · exact h4
  · have : sqrt x = 0 := by linarith
    have : y = 0 := by linarith
    linarith

/-- The two candidate values of `Sphere.Hit` are the roots of the quadratic. -/
theorem quadratic_factor (a b c sD t : F) (ha : a ≠ 0) (hD : sD * sD = b * b - a * c) :
    a * t ^ 2 + 2 * b * t + c = a * (t - (-b - sD) / a) * (t - (-b + sD) / a) := by
  have hc : c = (b * b - sD * sD) / a := by
    rw [hD]; field_simp
  rw [hc]
  field_simp
  ring

/-- The body of `Sphere.Hit` with the record updates collected. -/
theorem Sphere.Hit_eq (sqrt : F → F) (s : Sphere F) (r : Ray F) (tMin tMax : F)
    (rec : HitRecord F) :
    s.Hit sqrt r tMin tMax rec =
      let a := Dot r.Direction r.Direction
      let b := Dot (r.Origin.Sub s.Center) r.Direction
      let c := Dot (r.Origin.Sub s.Center) (r.Origin.Sub s.Center) - s.Radius * s.Radius
      if b * b - a * c < 0 then (false, rec)
      else if (-b - sqrt (b * b - a * c)) / a < tMax ∧ (-b - sqrt (b * b - a * c)) / a > tMin then
        (true, s.recordAt r ((-b - sqrt (b * b - a * c)) / a))
      else if (-b + sqrt (b * b - a * c)) / a < tMax ∧ (-b + sqrt (b * b - a * c)) / a > tMin then
        (true, s.recordAt r ((-b + sqrt (b * b - a * c)) / a))
      else (false, rec) := by
  rfl

theorem IsLeastRoot.least_unique {s : Sphere F} {r : Ray F} {tMin tMax t u : F}
    (h1 : IsLeastRoot s r tMin tMax t) (h2 : IsLeastRoot s r tMin tMax u) : t = u :=
  le_antisymm (h1.2.2.2 u h2.1 h2.2.1 h2.2.2.1) (h2.2.2.2 t h1.1 h1.2.1 h1.2.2.1)

/-- What `Sphere.Hit` computes: either it misses, leaves the record alone and
the quadratic has no root in `(tMin, tMax)`, or it writes the record of the
smallest root in `(tMin, tMax)`. -/
theorem Sphere.Hit_cases (sqrt : F → F) (hs : IsSqrt sqrt) (s : Sphere F) (r : Ray F)
    (hd : r.Direction ≠ Vec3.zero) (tMin tMax : F) (rec : HitRecord F) :
    (s.Hit sqrt r tMin tMax rec = (false, rec) ∧
        ∀ t, hitQuadratic s r t = 0 → tMin < t → t < tMax → False) ∨
    (∃ t, s.Hit sqrt r tMin tMax rec = (true, s.recordAt r t) ∧
        IsLeastRoot s r tMin tMax t) := by
  have ha : 0 < Dot r.Direction r.Direction := dot_self_pos _ hd
  rw [Sphere.Hit_eq]
  simp only [IsLeastRoot, hitQuadratic]
  generalize Dot r.Direction r.Direction = a at ha ⊢
  generalize Dot (r.Origin.Sub s.Center) r.Direction = b
  generalize Dot (r.Origin.Sub s.Center) (r.Origin.Sub s.Center) - s.Radius * s.Radius = c
  by_cases hD : b * b - a * c < 0
  · left
    simp only [hD, if_true, true_and]
    intro t ht _ _
    nlinarith [mul_self_nonneg (a * t + b)]
  · simp only [hD, if_false]
    obtain ⟨h0, hsq⟩ := hs (b * b - a * c) (not_lt.mp hD)
    generalize sqrt (b * b - a * c) = sD at h0 hsq ⊢
    have hfac := fun t => quadratic_factor a b c sD t ha.ne' hsq
    have h12 : (-b - sD) / a ≤ (-b + sD) / a := by
      apply div_le_div_of_nonneg_right _ ha.le
      linarith
    have hroot : ∀ t, a * t ^ 2 + 2 * b * t + c = 0 → t = (-b - sD) / a ∨ t = (-b + sD) / a := by
      intro t ht
      rw [hfac t] at ht
      rcases mul_eq_zero.mp ht with h | h
      · rcases mul_eq_zero.mp h with h | h
        · exact absurd h ha.ne'
        · left; linarith
      · right; linarith
    have hz1 : a * ((-b - sD) / a) ^ 2 + 2 * b * ((-b - sD) / a) + c = 0 := by
      rw [hfac]; simp
    have hz2 : a * ((-b + sD) / a) ^ 2 + 2 * b * ((-b + sD) / a) + c = 0 := by
      rw [hfac]; simp
    by_cases h1 : (-b - sD) / a < tMax ∧ (-b - sD) / a > tMin
    · right
      refine ⟨(-b - sD) / a, by simp only [h1, and_self, if_true], hz1, h1.2, h1.1, ?_⟩
      intro u hu _ _
      rcases hroot u hu with h | h <;> rw [h]
      exact h12
    · by_cases h2 : (-b + sD) / a < tMax ∧ (-b + sD) / a > tMin
      · right
        refine ⟨(-b + sD) / a, by simp only [h1, h2, and_self, if_true, if_false],
          hz2, h2.2, h2.1, ?_⟩
        intro u hu hu1 hu2
        rcases hroot u hu with h | h
        · exact absurd ⟨h ▸ hu2, h ▸ hu1⟩ h1
        · rw [h]
      · left
        refine ⟨by simp only [h1, h2, if_false], ?_⟩
        intro u hu hu1 hu2
        rcases hroot u hu with h | h
        · exact h1 ⟨h ▸ hu2, h ▸ hu1⟩
        · exact h2 ⟨h ▸ hu2, h ▸ hu1⟩

/-- The real square root meets the contract of `math.Sqrt`. -/
theorem isSqrt_real : IsSqrt Real.sqrt :=
  fun x hx => ⟨Real.sqrt_nonneg x, Real.mul_self_sqrt hx⟩

/-! ## The sphere primitive -/

/-- C1 (amended): in exact arithmetic (`F` a linearly ordered field, `sqrt`
an exact square root), for a ray with non-zero direction, `Sphere.Hit`
returns true exactly when the quadratic `a*t^2 + 2*b*t + c = 0` has a root
`t` with `tMin < t < tMax`; when it returns true, `rec.T` is the smallest
such root, `rec.P = ray.PointAt(rec.T)` and `rec.ScatterFn` is the sphere's
material. -/
theorem Sphere_Hit_iff_root (sqrt : F → F) (hs : IsSqrt sqrt) (s : Sphere F) (r : Ray F)
    (hd : r.Direction ≠ Vec3.zero) (tMin tMax : F) (rec : HitRecord F) :
    ((s.Hit sqrt r tMin tMax rec).1 = true ↔
        ∃ t, hitQuadratic s r t = 0 ∧ tMin < t ∧ t < tMax) ∧
    ((s.Hit sqrt r tMin tMax rec).1 = true →
        IsLeastRoot s r tMin tMax (s.Hit sqrt r tMin tMax rec).2.T ∧
        (s.Hit sqrt r tMin tMax rec).2.P = r.PointAt (s.Hit sqrt r tMin tMax rec).2.T ∧
        (s.Hit sqrt r tMin tMax rec).2.ScatterFn = s.ScatterFn) := by
  rcases Sphere.Hit_cases sqrt hs s r hd tMin tMax rec with ⟨h, hno⟩ | ⟨t, h, hl⟩
  · rw [h]
    refine ⟨⟨fun hf => by simp at hf, fun ⟨t, h0, h1, h2⟩ => (hno t h0 h1 h2).elim⟩, ?_⟩
    intro hf
    simp at hf
  · rw [h]
    refine ⟨⟨fun _ => ⟨t, hl.1, hl.2.1, hl.2.2.1⟩, fun _ => rfl⟩, fun _ => ⟨hl, rfl, rfl⟩⟩

/-- The point of the ray at a root of the quadratic lies on the sphere. -/
theorem pointAt_root_on_sphere (s : Sphere F) (r : Ray F) (t : F)
    (h : hitQuadratic s r t = 0) :
    ((r.PointAt t).Sub s.Center).SquaredLength = s.Radius * s.Radius := by
  simp only [hitQuadratic, Dot, Vec3.Sub] at h
  simp only [Ray.PointAt, Vec3.SquaredLength, Vec3.Sub, Vec3.Add, Vec3.Mul]
  linear_combination h

/-- C3 (amended): in exact arithmetic (`F` a linearly ordered field, `sqrt`
an exact square root), for a sphere with non-zero radius and a ray with
non-zero direction, whenever `Sphere.Hit` returns true the recorded normal is
`(rec.P - center)/radius`, it has length exactly 1, the hit point lies on the
sphere surface, and for a positive radius the normal is a positive multiple
of `rec.P - center`, which is not the zero vector. -/
theorem Sphere_Hit_normal_unit (sqrt : F → F) (hs : IsSqrt sqrt) (s : Sphere F) (r : Ray F)
    (hd : r.Direction ≠ Vec3.zero) (hr : s.Radius ≠ 0) (tMin tMax : F) (rec : HitRecord F)
    (hit : (s.Hit sqrt r tMin tMax rec).1 = true) :
    (s.Hit sqrt r tMin tMax rec).2.Normal =
        ((s.Hit sqrt r tMin tMax rec).2.P.Sub s.Center).Div s.Radius ∧
    (s.Hit sqrt r tMin tMax rec).2.Normal.Length sqrt = 1 ∧
    ((s.Hit sqrt r tMin tMax rec).2.P.Sub s.Center).SquaredLength = s.Radius * s.Radius ∧
    (0 < s.Radius →
      (s.Hit sqrt r tMin tMax rec).2.P.Sub s.Center ≠ Vec3.zero ∧
      ∃ k, 0 < k ∧ (s.Hit sqrt r tMin tMax rec).2.Normal =
        ((s.Hit sqrt r tMin tMax rec).2.P.Sub s.Center).Mul k) := by
  rcases Sphere.Hit_cases sqrt hs s r hd tMin tMax rec with ⟨h, _⟩ | ⟨t, h, hl⟩
  · rw [h] at hit; simp at hit
  · rw [h]
    have hon := pointAt_root_on_sphere s r t hl.1
    simp only [Sphere.recordAt]
    refine ⟨trivial, ?_, hon, ?_⟩
    · apply hs.sqrt_unique zero_le_one
      simp only [Vec3.SquaredLength, Vec3.Div] at hon ⊢
      field_simp
      linear_combination -hon
    · intro hpos
      refine ⟨?_, 1 / s.Radius, by positivity, ?_⟩
      · intro hz
        rw [hz] at hon
        simp only [Vec3.SquaredLength, Vec3.zero] at hon
        nlinarith
      · simp only [Vec3.Div, Vec3.Mul]
        ext <;> simp [div_eq_mul_inv]

/-- C4 (amended): in exact arithmetic (`F` a linearly ordered field), when
the squared distance of the ray's line to the centre,
`dot(oc,oc) - dot(oc,d)^2/dot(d,d)`, exceeds `r^2` and the direction is
non-zero, `Sphere.Hit` returns false for every `tMin`, `tMax` and leaves the
record as it was (for every radius, so in particular for `r >= 0`). -/
theorem Sphere_Hit_miss_of_far (sqrt : F → F) (s : Sphere F) (r : Ray F)
    (hd : r.Direction ≠ Vec3.zero)
    (hfar : Dot (r.Origin.Sub s.Center) (r.Origin.Sub s.Center)
        - Dot (r.Origin.Sub s.Center) r.Direction ^ 2 / Dot r.Direction r.Direction
        > s.Radius ^ 2)
    (tMin tMax : F) (rec : HitRecord F) :
    (s.Hit sqrt r tMin tMax rec).1 = false ∧ (s.Hit sqrt r tMin tMax rec).2 = rec := by
  have ha : 0 < Dot r.Direction r.Direction := dot_self_pos _ hd
  have hD : Dot (r.Origin.Sub s.Center) r.Direction * Dot (r.Origin.Sub s.Center) r.Direction
      - Dot r.Direction r.Direction *
        (Dot (r.Origin.Sub s.Center) (r.Origin.Sub s.Center) - s.Radius * s.Radius) < 0 := by
    have h1 : Dot (r.Origin.Sub s.Center) r.Direction ^ 2 / Dot r.Direction r.Direction
        < Dot (r.Origin.Sub s.Center) (r.Origin.Sub s.Center) - s.Radius ^ 2 := by linarith
    have h2 := (div_lt_iff₀ ha).mp h1
    nlinarith
  rw [Sphere.Hit_eq]
  simp only [hD, if_true, and_self]

/-- C5 (amended): in exact arithmetic (`F` a linearly ordered field, `sqrt`
an exact square root), for a sphere of radius `r > 0`, a ray whose origin
`O` is outside the sphere and whose direction is a positive multiple of
`center - O`: the roots of the intersection quadratic are exactly
`(|O - center| - r)/|d|` and `(|O - center| + r)/|d|`, the first is strictly
smaller than the second, and whenever
`tMin < (|O - center| - r)/|d| < tMax`, `Sphere.Hit` returns true with
`rec.T` equal to that near root. -/
theorem Sphere_Hit_through_center (sqrt : F → F) (hs : IsSqrt sqrt) (s : Sphere F) (r : Ray F)
    (k : F) (hr : 0 < s.Radius) (hout : (r.Origin.Sub s.Center).Length sqrt > s.Radius)
    (hk : 0 < k) (hdir : r.Direction = (s.Center.Sub r.Origin).Mul k) :
    (∀ t, hitQuadratic s r t = 0 ↔
        (t = ((r.Origin.Sub s.Center).Length sqrt - s.Radius) / r.Direction.Length sqrt ∨
         t = ((r.Origin.Sub s.Center).Length sqrt + s.Radius) / r.Direction.Length sqrt)) ∧
    ((r.Origin.Sub s.Center).Length sqrt - s.Radius) / r.Direction.Length sqrt
      < ((r.Origin.Sub s.Center).Length sqrt + s.Radius) / r.Direction.Length sqrt ∧
    (∀ (tMin tMax : F) (rec : HitRecord F),
      tMin < ((r.Origin.Sub s.Center).Length sqrt - s.Radius) / r.Direction.Length sqrt →
      ((r.Origin.Sub s.Center).Length sqrt - s.Radius) / r.Direction.Length sqrt < tMax →
      (s.Hit sqrt r tMin tMax rec).1 = true ∧
      (s.Hit sqrt r tMin tMax rec).2.T =
        ((r.Origin.Sub s.Center).Length sqrt - s.Radius) / r.Direction.Length sqrt) := by
  -- the length `L` of `oc` and the length `k * L` of the direction
  have hsq0 : 0 ≤ (r.Origin.Sub s.Center).SquaredLength := by
    simp only [Vec3.SquaredLength]
    nlinarith [mul_self_nonneg (r.Origin.Sub s.Center).X,
      mul_self_nonneg (r.Origin.Sub s.Center).Y, mul_self_nonneg (r.Origin.Sub s.Center).Z]
  obtain ⟨hL0, hLL⟩ := hs _ hsq0
  have e : r.Direction.SquaredLength = k * k * (r.Origin.Sub s.Center).SquaredLength := by
    rw [hdir]
    simp only [Vec3.SquaredLength, Vec3.Sub, Vec3.Mul]
    ring
  have hn : r.Direction.Length sqrt = k * (r.Origin.Sub s.Center).Length sqrt := by
    apply hs.sqrt_unique (mul_nonneg hk.le hL0)
    rw [e]
    linear_combination (k * k) * hLL
  have hd : r.Direction ≠ Vec3.zero := by
    intro hz
    rw [hz, ← hLL] at e
    simp only [Vec3.Length] at hout
    have h3 : 0 < sqrt (r.Origin.Sub s.Center).SquaredLength := lt_trans hr hout
    have h4 : (Vec3.zero : Vec3 F).SquaredLength = 0 := by simp [Vec3.SquaredLength, Vec3.zero]
    rw [h4] at e
    nlinarith [mul_pos (mul_pos hk hk) (mul_pos h3 h3)]
  have hquad : ∀ t, hitQuadratic s r t =
      (k * (r.Origin.Sub s.Center).Length sqrt * t
          - ((r.Origin.Sub s.Center).Length sqrt - s.Radius)) *
      (k * (r.Origin.Sub s.Center).Length sqrt * t
          - ((r.Origin.Sub s.Center).Length sqrt + s.Radius)) := by
    intro t
    simp only [Vec3.Length]
    simp only [hitQuadratic, hdir]
    simp only [Vec3.SquaredLength, Vec3.Sub, Vec3.Mul, Dot] at hLL ⊢
    linear_combination (-(k * t - 1) ^ 2) * hLL
  rw [hn]
  simp only [Vec3.Length] at hL0 hout hquad ⊢
  generalize sqrt (r.Origin.Sub s.Center).SquaredLength = L at hL0 hout hquad
  have hLpos : 0 < L := lt_trans hr hout
  have hkL : 0 < k * L := mul_pos hk hLpos
  have hroots : ∀ t, hitQuadratic s r t = 0 ↔
      (t = (L - s.Radius) / (k * L) ∨ t = (L + s.Radius) / (k * L)) := by
    intro t
    rw [hquad t, mul_eq_zero, eq_div_iff hkL.ne', eq_div_iff hkL.ne']
    constructor
    · rintro (h | h)
      · left; linear_combination h
      · right; linear_combination h
    · rintro (h | h)
      · left; linear_combination h
      · right; linear_combination h
  have hlt : (L - s.Radius) / (k * L) < (L + s.Radius) / (k * L) :=
    div_lt_div_of_pos_right (by linarith) hkL
  refine ⟨hroots, hlt, ?_⟩
  intro tMin tMax rec h1 h2
  rcases Sphere.Hit_cases sqrt hs s r hd tMin tMax rec with ⟨_, hno⟩ | ⟨t, h, hl⟩
  · exact (hno _ ((hroots _).mpr (Or.inl rfl)) h1 h2).elim
  · rw [h]
    refine ⟨rfl, ?_⟩
    simp only [Sphere.recordAt]
    rcases (hroots t).mp hl.1 with e | e
    · exact e
    · have := hl.2.2.2 _ ((hroots _).mpr (Or.inl rfl)) h1 h2
      rw [e] at this
      exact absurd hlt (not_lt.mpr this)

/-! ## The aggregate -/

theorem Sphere.Hit_true_iff (sqrt : F → F) (hs : IsSqrt sqrt) (s : Sphere F) (r : Ray F)
    (hd : r.Direction ≠ Vec3.zero) (tMin tMax : F) (rec : HitRecord F) :
    (s.Hit sqrt r tMin tMax rec).1 = true ↔
      ∃ t, hitQuadratic s r t = 0 ∧ tMin < t ∧ t < tMax := by
  rcases Sphere.Hit_cases sqrt hs s r hd tMin tMax rec with ⟨h, hno⟩ | ⟨t, h, hl⟩
  · rw [h]
    exact ⟨fun hf => by simp at hf, fun ⟨t, h0, h1, h2⟩ => (hno t h0 h1 h2).elim⟩
  · rw [h]
    exact ⟨fun _ => ⟨t, hl.1, hl.2.1, hl.2.2.1⟩, fun _ => rfl⟩

/-- A sphere with a smallest root `t` in the interval writes the record of `t`. -/
theorem Sphere.Hit_of_least (sqrt : F → F) (hs : IsSqrt sqrt) (s : Sphere F) (r : Ray F)
    (hd : r.Direction ≠ Vec3.zero) (tMin tMax : F) (rec : HitRecord F) (t : F)
    (ht : IsLeastRoot s r tMin tMax t) :
    s.Hit sqrt r tMin tMax rec = (true, s.recordAt r t) := by
  rcases Sphere.Hit_cases sqrt hs s r hd tMin tMax rec with ⟨_, hno⟩ | ⟨u, h, hl⟩
  · exact (hno t ht.1 ht.2.1 ht.2.2.1).elim
  · rw [h, hl.least_unique ht]

/-- The loop of `HitterList.Hit` over spheres: started with `closest = cl`,
either no sphere has a root in `(tMin, cl)` and the state is unchanged, or
the state holds the record of the least root of all spheres in `(tMin, cl)`. -/
theorem HitterList.hitLoop_spheres (sqrt : F → F) (hs : IsSqrt sqrt) (r : Ray F)
    (hd : r.Direction ≠ Vec3.zero) (tMin : F) :
    ∀ (ss : List (Sphere F)) (st : HitLoopState F),
      ((∀ s ∈ ss, ∀ t, hitQuadratic s r t = 0 → tMin < t → t < st.closest → False) ∧
        HitterList.hitLoop r tMin (ss.map (Sphere.toHitter sqrt)) st = st) ∨
      (∃ s ∈ ss, ∃ t, IsLeastRoot s r tMin st.closest t ∧
        (∀ s2 ∈ ss, ∀ u, hitQuadratic s2 r u = 0 → tMin < u → u < st.closest → t ≤ u) ∧
        HitterList.hitLoop r tMin (ss.map (Sphere.toHitter sqrt)) st =
          { hitAnything := true, closest := t,
            tempRec := s.recordAt r t, callerRec := s.recordAt r t }) := by
  intro ss
  induction ss with
  | nil =>
    intro st
    left
    exact ⟨fun s hmem => by simp at hmem, rfl⟩
  | cons s rest ih =>
    intro st
    simp only [List.map, HitterList.hitLoop, Sphere.toHitter]
    rcases Sphere.Hit_cases sqrt hs s r hd tMin st.closest st.tempRec with ⟨h, hno⟩ | ⟨t, h, hl⟩
    · -- the head misses: the state is unchanged
      rw [h]
      simp only [Bool.not_false, if_true]
      rcases ih st with ⟨hrest, he⟩ | ⟨s1, hs1, t1, hl1, hmin1, he⟩
      · left
        refine ⟨?_, he⟩
        intro s2 hs2
        rcases List.mem_cons.mp hs2 with e | e
        · rw [e]; exact hno
        · exact hrest s2 e
      · right
        refine ⟨s1, List.mem_cons_of_mem _ hs1, t1, hl1, ?_, he⟩
        intro s2 hs2 u hu0 hu1 hu2
        rcases List.mem_cons.mp hs2 with e | e
        · rw [e] at hu0; exact (hno u hu0 hu1 hu2).elim
        · exact hmin1 s2 e u hu0 hu1 hu2
    · -- the head hits at `t`: the rest is searched in `(tMin, t)`
      rw [h]
      simp only [Bool.not_true, Bool.false_eq_true, if_false]
      right
      rcases ih { hitAnything := true, closest := (s.recordAt r t).T,
                  tempRec := s.recordAt r t, callerRec := s.recordAt r t }
        with ⟨hrest, he⟩ | ⟨s1, hs1, t1, hl1, hmin1, he⟩
      · refine ⟨s, List.mem_cons_self _ _, t, hl, ?_, he⟩
        intro s2 hs2 u hu0 hu1 hu2
        rcases List.mem_cons.mp hs2 with e | e
        · rw [e] at hu0; exact hl.2.2.2 u hu0 hu1 hu2
        · by_contra hlt
          exact hrest s2 e u hu0 hu1 (not_le.mp hlt)
      · have ht1 : t1 < t := hl1.2.2.1
        refine ⟨s1, List.mem_cons_of_mem _ hs1, t1,
          ⟨hl1.1, hl1.2.1, lt_trans ht1 hl.2.2.1, ?_⟩, ?_, he⟩
        · intro u hu0 hu1 _
          rcases lt_or_le u t with hut | hut
          · exact hl1.2.2.2 u hu0 hu1 hut
          · exact le_trans ht1.le hut
        · intro s2 hs2 u hu0 hu1 hu2
          rcases lt_or_le u t with hut | hut
          · rcases List.mem_cons.mp hs2 with e | e
            · rw [e] at hu0
              exact absurd (hl.2.2.2 u hu0 hu1 hu2) (not_le.mpr hut)
            · exact hmin1 s2 e u hu0 hu1 hut
          · exact le_trans ht1.le hut

/-- What `HitterList.Hit` computes on a list of spheres. -/
theorem HitterList.Hit_spheres_cases (sqrt : F → F) (hs : IsSqrt sqrt) (ss : List (Sphere F))
    (tmp : HitRecord F) (r : Ray F) (hd : r.Direction ≠ Vec3.zero) (tMin tMax : F)
    (rec : HitRecord F) :
    ((∀ s ∈ ss, ∀ t, hitQuadratic s r t = 0 → tMin < t → t < tMax → False) ∧
      ((HitterList.ofSpheres sqrt ss tmp).Hit r tMin tMax rec).1 = false ∧
      ((HitterList.ofSpheres sqrt ss tmp).Hit r tMin tMax rec).2.1 = rec) ∨
    (∃ s ∈ ss, ∃ t, IsLeastRoot s r tMin tMax t ∧
      (∀ s2 ∈ ss, ∀ u, hitQuadratic s2 r u = 0 → tMin < u → u < tMax → t ≤ u) ∧
      ((HitterList.ofSpheres sqrt ss tmp).Hit r tMin tMax rec).1 = true ∧
      ((HitterList.ofSpheres sqrt ss tmp).Hit r tMin tMax rec).2.1 = s.recordAt r t) := by
  simp only [HitterList.Hit, HitterList.ofSpheres]
  rcases HitterList.hitLoop_spheres sqrt hs r hd tMin ss
      { hitAnything := false, closest := tMax, tempRec := tmp, callerRec := rec }
    with ⟨hno, he⟩ | ⟨s, hmem, t, hl, hmin, he⟩
  · left
    rw [he]
    exact ⟨hno, rfl, rfl⟩
  · right
    rw [he]
    exact ⟨s, hmem, t, hl, hmin, rfl, rfl⟩

/-- C2: for a `HitterList` of spheres `ss` and a ray with non-zero
direction, `HitterList.Hit` returns true exactly when some member sphere has
a hit in `(tMin, tMax)`; when it returns true the record written is the
record some member writes on its own, and its `T` is at most the `T` of every
member that hits (so it is the minimum of the members' hit parameters);
the boolean and the returned `T` are the same for every permutation of the
list. -/
theorem HitterList_Hit_closest (sqrt : F → F) (hs : IsSqrt sqrt) (ss : List (Sphere F))
    (tmp : HitRecord F) (r : Ray F) (hd : r.Direction ≠ Vec3.zero) (tMin tMax : F)
    (rec : HitRecord F) :
    (((HitterList.ofSpheres sqrt ss tmp).Hit r tMin tMax rec).1 = true ↔
        ∃ s ∈ ss, (s.Hit sqrt r tMin tMax rec).1 = true) ∧
    (((HitterList.ofSpheres sqrt ss tmp).Hit r tMin tMax rec).1 = true →
        (∃ s ∈ ss, s.Hit sqrt r tMin tMax rec =
            (true, ((HitterList.ofSpheres sqrt ss tmp).Hit r tMin tMax rec).2.1)) ∧
        (∀ s ∈ ss, (s.Hit sqrt r tMin tMax rec).1 = true →
            ((HitterList.ofSpheres sqrt ss tmp).Hit r tMin tMax rec).2.1.T
              ≤ (s.Hit sqrt r tMin tMax rec).2.T)) ∧
    (∀ (ss2 : List (Sphere F)) (tmp2 : HitRecord F), ss2.Perm ss →
        ((HitterList.ofSpheres sqrt ss2 tmp2).Hit r tMin tMax rec).1
          = ((HitterList.ofSpheres sqrt ss tmp).Hit r tMin tMax rec).1 ∧
        ((HitterList.ofSpheres sqrt ss2 tmp2).Hit r tMin tMax rec).2.1.T
          = ((HitterList.ofSpheres sqrt ss tmp).Hit r tMin tMax rec).2.1.T) := by
  rcases HitterList.Hit_spheres_cases sqrt hs ss tmp r hd tMin tMax rec
    with ⟨hno, hb, hrec⟩ | ⟨s, hmem, t, hl, hmin, hb, hrec⟩
  · -- no member has a root in the interval
    rw [hb, hrec]
    refine ⟨⟨fun hf => by simp at hf, ?_⟩, fun hf => by simp at hf, ?_⟩
    · rintro ⟨s, hmem, hit⟩
      obtain ⟨t, h0, h1, h2⟩ := (Sphere.Hit_true_iff sqrt hs s r hd tMin tMax rec).mp hit
      exact (hno s hmem t h0 h1 h2).elim
    · intro ss2 tmp2 hperm
      rcases HitterList.Hit_spheres_cases sqrt hs ss2 tmp2 r hd tMin tMax rec
        with ⟨_, hb2, hrec2⟩ | ⟨s2, hmem2, t2, hl2, _, _, _⟩
      · rw [hb2, hrec2]
        exact ⟨rfl, rfl⟩
      · exact (hno s2 (hperm.mem_iff.mp hmem2) t2 hl2.1 hl2.2.1 hl2.2.2.1).elim
  · rw [hb, hrec]
    refine ⟨⟨fun _ => ⟨s, hmem, ?_⟩, fun _ => rfl⟩, fun _ => ⟨⟨s, hmem, ?_⟩, ?_⟩, ?_⟩
    · rw [Sphere.Hit_of_least sqrt hs s r hd tMin tMax rec t hl]
    · exact Sphere.Hit_of_least sqrt hs s r hd tMin tMax rec t hl
    · intro s1 hmem1 hit1
      rcases Sphere.Hit_cases sqrt hs s1 r hd tMin tMax rec with ⟨h, _⟩ | ⟨u, h, hlu⟩
      · rw [h] at hit1; simp at hit1
      · rw [h]
        exact hmin s1 hmem1 u hlu.1 hlu.2.1 hlu.2.2.1
    · intro ss2 tmp2 hperm
      rcases HitterList.Hit_spheres_cases sqrt hs ss2 tmp2 r hd tMin tMax rec
        with ⟨hno2, _, _⟩ | ⟨s2, hmem2, t2, hl2, hmin2, hb2, hrec2⟩
      · exact (hno2 s (hperm.mem_iff.mpr hmem) t hl.1 hl.2.1 hl.2.2.1).elim
      · rw [hb2, hrec2]
        refine ⟨rfl, ?_⟩
        simp only [Sphere.recordAt]
        exact le_antisymm
          (hmin2 s (hperm.mem_iff.mpr hmem) t hl.1 hl.2.1 hl.2.2.1)
          (hmin s2 (hperm.mem_iff.mp hmem2) t2 hl2.1 hl2.2.1 hl2.2.2.1)

/-! ## Materials -/

/-- C8: for every albedo, fuzz, incoming ray with non-zero direction, hit
record and unit-sphere sample `s`, the Metal scatter function sets the
scattered origin to the hit point and the scattered direction to
`reflect(unit(in.Direction), normal) + s*f` with `f = min(1, max(0, fuzz))`,
returns the albedo as attenuation and reports `ok = false` exactly when
`dot(scattered.Direction, normal) <= 0`; a fuzz above 1 behaves like 1 and a
fuzz below 0 like 0. -/
theorem Metal_scatter_spec (sqrt : F → F) (albedo : Color F) (fuzz : F) (sample : Vec3 F)
    (rin : Ray F) (_hd : rin.Direction ≠ Vec3.zero) (rec : HitRecord F) (scattered : Ray F) :
    (NewMaterialMetal sqrt albedo fuzz sample rin rec scattered).scattered.Origin = rec.P ∧
    (NewMaterialMetal sqrt albedo fuzz sample rin rec scattered).scattered.Direction =
      (reflect (rin.Direction.Unit sqrt) rec.Normal).Add (sample.Mul (min 1 (max 0 fuzz))) ∧
    (NewMaterialMetal sqrt albedo fuzz sample rin rec scattered).attenuation = albedo ∧
    ((NewMaterialMetal sqrt albedo fuzz sample rin rec scattered).ok = false ↔
      Dot (NewMaterialMetal sqrt albedo fuzz sample rin rec scattered).scattered.Direction
        rec.Normal ≤ 0) ∧
    (1 < fuzz → NewMaterialMetal sqrt albedo fuzz sample rin rec scattered =
      NewMaterialMetal sqrt albedo 1 sample rin rec scattered) ∧
    (fuzz < 0 → NewMaterialMetal sqrt albedo fuzz sample rin rec scattered =
      NewMaterialMetal sqrt albedo 0 sample rin rec scattered) := by
  have hf : (if (if fuzz > 1 then 1 else fuzz) < 0 then 0 else (if fuzz > 1 then 1 else fuzz))
      = min 1 (max 0 fuzz) := by
    rcases lt_trichotomy fuzz 0 with h | h | h
    · have h1 : ¬ fuzz > 1 := by intro h2; linarith
      rw [if_neg h1, if_pos h, max_eq_left h.le, min_eq_right zero_le_one]
    · subst h; simp
    · by_cases h1 : fuzz > 1
      · rw [if_pos h1, if_neg (by norm_num), max_eq_right h.le, min_eq_left h1.le]
      · rw [if_neg h1, if_neg (not_lt.mpr h.le), max_eq_right h.le, min_eq_right (not_lt.mp h1)]
  refine ⟨rfl, ?_, rfl, ?_, ?_, ?_⟩
  · simp only [NewMaterialMetal]
    rw [hf]
  · simp only [NewMaterialMetal, decide_eq_false_iff_not, not_lt]
  · intro h
    have h1 : ¬ (1 : F) > 1 := lt_irrefl 1
    simp only [NewMaterialMetal, if_pos h, if_neg h1]
  · intro h
    have h1 : ¬ fuzz > 1 := by intro h2; linarith
    have h2 : ¬ (0 : F) > 1 := by norm_num
    have h3 : ¬ (0 : F) < 0 := lt_irrefl 0
    simp only [NewMaterialMetal, if_neg h1, if_pos h, if_neg h2, if_neg h3]

/-- When `refract` reports failure. -/
theorem refract_eq_none_iff (sqrt : F → F) (v n : Vec3 F) (niOverNt : F) :
    refract sqrt v n niOverNt = none ↔
      1 - niOverNt * niOverNt * (1 - Dot (v.Unit sqrt) n * Dot (v.Unit sqrt) n) ≤ 0 := by
  simp only [refract]
  split_ifs with h
  · simp only [reduceCtorEq, false_iff, not_le]; exact h
  · simp only [true_iff]; exact not_lt.mp h

/-- When `refract` fails for the branch the closure takes and the draw is
below 1, the Dielectric closure reflects. -/
theorem dialectric_reflects_of_none (sqrt : F → F) (refIndex draw : F) (h1 : draw < 1)
    (rin : Ray F) (rec : HitRecord F) (scattered : Ray F)
    (hnone : refract sqrt rin.Direction
        (if Dot rin.Direction rec.Normal > 0 then rec.Normal.Mul (-1) else rec.Normal)
        (if Dot rin.Direction rec.Normal > 0 then refIndex else 1 / refIndex) = none) :
    NewMaterialDialectric sqrt refIndex draw rin rec scattered =
      some { attenuation := colorWhite
             ok := true
             scattered := { Origin := rec.P
                            Direction := reflect rin.Direction rec.Normal } } := by
  simp only [NewMaterialDialectric]
  by_cases hpos : Dot rin.Direction rec.Normal > 0
  · simp only [hpos, if_true] at hnone ⊢
    simp only [hnone, Option.isSome_none, Bool.false_eq_true, if_false, h1, if_true]
  · simp only [hpos, if_false] at hnone ⊢
    simp only [hnone, Option.isSome_none, Bool.false_eq_true, if_false, h1, if_true]

/-- C9: for every refractive index, incoming ray and hit record for which
refraction is impossible, `1 - niOverNt^2*(1 - dot(unit(in.Direction),
outwardNormal)^2) <= 0` (which is when `refract` reports failure), and every
draw in `[0,1)`, the Dielectric scatter function returns `ok = true` with
attenuation `(1,1,1)`, origin the hit point and direction
`reflect(in.Direction, normal)`. -/
theorem Dialectric_total_internal_reflection (sqrt : F → F) (refIndex draw : F)
    (_h0 : 0 ≤ draw) (h1 : draw < 1) (rin : Ray F) (rec : HitRecord F) (scattered : Ray F)
    (hfail : 1 - (if Dot rin.Direction rec.Normal > 0 then refIndex else 1 / refIndex)
        * (if Dot rin.Direction rec.Normal > 0 then refIndex else 1 / refIndex)
        * (1 - Dot (rin.Direction.Unit sqrt)
              (if Dot rin.Direction rec.Normal > 0 then rec.Normal.Mul (-1) else rec.Normal)
            * Dot (rin.Direction.Unit sqrt)
              (if Dot rin.Direction rec.Normal > 0 then rec.Normal.Mul (-1) else rec.Normal))
        ≤ 0) :
    refract sqrt rin.Direction
        (if Dot rin.Direction rec.Normal > 0 then rec.Normal.Mul (-1) else rec.Normal)
        (if Dot rin.Direction rec.Normal > 0 then refIndex else 1 / refIndex) = none ∧
    NewMaterialDialectric sqrt refIndex draw rin rec scattered =
      some { attenuation := { R := 1, G := 1, B := 1 }
             ok := true
             scattered := { Origin := rec.P
                            Direction := reflect rin.Direction rec.Normal } } := by
  have hnone := (refract_eq_none_iff sqrt _ _ _).mpr hfail
  exact ⟨hnone, dialectric_reflects_of_none sqrt refIndex draw h1 rin rec scattered hnone⟩

/-! ## The camera -/

/-- C10: for the camera built by `NewCamera`, every `(s, t)` and every lens
sample `rd`, the ray returned by `GetRay` has
`Origin = lookFrom + (rd.X*u + rd.Y*v)*(aperture/2)` and
`Origin + Direction = LowerLeft + s*Horizontal + t*Vertical`, which is also
`ray.PointAt(1)`; with aperture 0 the origin is exactly `lookFrom`. -/
theorem Camera_GetRay_focus (sqrt tan : F → F) (pi : F) (lookFrom lookAt vUp : Vec3 F)
    (vFOV aspect aperture focusDist s t : F) (rd : Vec3 F) :
    let c := NewCamera sqrt tan pi lookFrom lookAt vUp vFOV aspect aperture focusDist
    let c0 := NewCamera sqrt tan pi lookFrom lookAt vUp vFOV aspect 0 focusDist
    (c.GetRay s t rd).Origin
      = lookFrom.Add (((c.u.Mul rd.X).Add (c.v.Mul rd.Y)).Mul (aperture / 2)) ∧
    (c.GetRay s t rd).Origin.Add (c.GetRay s t rd).Direction
      = (c.LowerLeft.Add (c.Horizontal.Mul s)).Add (c.Vertical.Mul t) ∧
    (c.GetRay s t rd).PointAt 1
      = (c.LowerLeft.Add (c.Horizontal.Mul s)).Add (c.Vertical.Mul t) ∧
    (c0.GetRay s t rd).Origin = lookFrom := by
  intro c c0
  refine ⟨?_, ?_, ?_, ?_⟩
  · simp only [c, NewCamera, Camera.GetRay, Vec3.Add, Vec3.Mul]
    ext <;> simp only <;> ring
  · simp only [Camera.GetRay, Vec3.Add, Vec3.Mul, Vec3.Sub]
    ext <;> simp only <;> ring
  · simp only [Camera.GetRay, Ray.PointAt, Vec3.Add, Vec3.Mul, Vec3.Sub]
    ext <;> simp only <;> ring
  · simp only [c0, NewCamera, Camera.GetRay, Vec3.Add, Vec3.Mul]
    ext <;> simp

/-! ## Dielectric with refractive index 1 -/

theorem dot_unit (sqrt : F → F) (v n : Vec3 F) :
    Dot (v.Unit sqrt) n = Dot v n / v.Length sqrt := by
  simp only [Dot, Vec3.Unit]
  ring

theorem dot_unit_neg (sqrt : F → F) (v n : Vec3 F) :
    Dot (v.Unit sqrt) (n.Mul (-1)) = -(Dot v n / v.Length sqrt) := by
  simp only [Dot, Vec3.Unit, Vec3.Mul]
  ring

theorem length_pos_of_dot_ne_zero (sqrt : F → F) (hs : IsSqrt sqrt) (v n : Vec3 F)
    (h : Dot v n ≠ 0) : 0 < v.Length sqrt := by
  have hv : v ≠ Vec3.zero := by
    intro hz
    apply h
    rw [hz]
    simp [Dot, Vec3.zero]
  have hpos : 0 < v.SquaredLength := dot_self_pos v hv
  obtain ⟨h1, h2⟩ := hs _ hpos.le
  rcases h1.lt_or_eq with h3 | h3
  · exact h3
  · rw [← h3] at h2
    simp only [mul_zero] at h2
    rw [← h2] at hpos
    exact absurd hpos (lt_irrefl 0)

/-- With `niOverNt = 1` and the ray entering against `n`, `refract` returns the
unit vector of the incoming direction. -/
theorem refract_index_one (sqrt : F → F) (hs : IsSqrt sqrt) (v n : Vec3 F)
    (hneg : Dot (v.Unit sqrt) n < 0) :
    refract sqrt v n 1 = some (v.Unit sqrt) := by
  have hdisc : 1 - 1 * 1 * (1 - Dot (v.Unit sqrt) n * Dot (v.Unit sqrt) n)
      = (-Dot (v.Unit sqrt) n) * (-Dot (v.Unit sqrt) n) := by ring
  have hpos : 1 - 1 * 1 * (1 - Dot (v.Unit sqrt) n * Dot (v.Unit sqrt) n) > 0 := by
    rw [hdisc]; nlinarith
  have hsq : sqrt (1 - 1 * 1 * (1 - Dot (v.Unit sqrt) n * Dot (v.Unit sqrt) n))
      = -Dot (v.Unit sqrt) n :=
    hs.sqrt_unique (by linarith) hdisc.symm
  simp only [refract, if_pos hpos, hsq]
  congr 1
  simp only [Vec3.Sub, Vec3.Mul]
  ext <;> simp only <;> ring

/-- The Dielectric closure for `refIndex = 1` when the ray is not tangent. -/
theorem dialectric_one_eq (sqrt : F → F) (hs : IsSqrt sqrt) (draw : F)
    (rin : Ray F) (rec : HitRecord F) (scattered : Ray F)
    (hx : Dot rin.Direction rec.Normal ≠ 0) :
    NewMaterialDialectric sqrt 1 draw rin rec scattered =
      if draw < (1 - |Dot rin.Direction rec.Normal| / rin.Direction.Length sqrt) ^ 5 then
        some { attenuation := colorWhite, ok := true
               scattered := { Origin := rec.P
                              Direction := reflect rin.Direction rec.Normal } }
      else
        some { attenuation := colorWhite, ok := true
               scattered := { Origin := rec.P, Direction := rin.Direction.Unit sqrt } } := by
  have hL := length_pos_of_dot_ne_zero sqrt hs _ _ hx
  have hschlick : ∀ c : F, schlick c 1 = (1 - c) ^ 5 := by
    intro c
    simp [schlick]
  by_cases hpos : Dot rin.Direction rec.Normal > 0
  · have href := refract_index_one sqrt hs rin.Direction (rec.Normal.Mul (-1))
      (by rw [dot_unit_neg]; exact neg_neg_of_pos (div_pos hpos hL))
    simp only [NewMaterialDialectric, if_pos hpos, href, Option.isSome_some, if_true,
      hschlick, one_mul, abs_of_pos hpos]
  · have hneg : Dot rin.Direction rec.Normal < 0 :=
      lt_of_le_of_ne (not_lt.mp hpos) hx
    have href := refract_index_one sqrt hs rin.Direction rec.Normal
      (by rw [dot_unit]; exact div_neg_of_neg_of_pos hneg hL)
    simp only [NewMaterialDialectric, if_neg hpos, div_one, href, Option.isSome_some, if_true,
      hschlick, neg_one_mul, abs_of_neg hneg]

/-- C6 (amended): for every incoming ray, hit record and draw in `[0,1)`,
the scatter function built by `NewMaterialDialectric(1.0)` produces a
direction that is a positive multiple of the incoming direction whenever the
ray is tangent (`dot(in.Direction, normal) = 0`) or the draw is not below the
Schlick reflectance `(1 - cosine)^5`, `cosine = |dot(in.Direction, normal)| /
|in.Direction|`; when the ray is not tangent and the draw is below that
reflectance, the direction is `reflect(in.Direction, normal)`. -/
theorem Dialectric_one_collinear (sqrt : F → F) (hs : IsSqrt sqrt) (draw : F)
    (_h0 : 0 ≤ draw) (h1 : draw < 1) (rin : Ray F) (rec : HitRecord F) (scattered : Ray F) :
    ((Dot rin.Direction rec.Normal = 0 ∨
        ¬ draw < (1 - |Dot rin.Direction rec.Normal| / rin.Direction.Length sqrt) ^ 5) →
      ∃ k, 0 < k ∧ NewMaterialDialectric sqrt 1 draw rin rec scattered =
        some { attenuation := { R := 1, G := 1, B := 1 }
               ok := true
               scattered := { Origin := rec.P, Direction := rin.Direction.Mul k } }) ∧
    (Dot rin.Direction rec.Normal ≠ 0 →
      draw < (1 - |Dot rin.Direction rec.Normal| / rin.Direction.Length sqrt) ^ 5 →
      NewMaterialDialectric sqrt 1 draw rin rec scattered =
        some { attenuation := { R := 1, G := 1, B := 1 }
               ok := true
               scattered := { Origin := rec.P
                              Direction := reflect rin.Direction rec.Normal } }) := by
  constructor
  · intro h
    by_cases hx : Dot rin.Direction rec.Normal = 0
    · -- tangent ray: refraction fails and the reflection is the direction itself
      refine ⟨1, zero_lt_one, ?_⟩
      have hneg : ¬ Dot rin.Direction rec.Normal > 0 := by rw [hx]; exact lt_irrefl 0
      have hnone : refract sqrt rin.Direction
          (if Dot rin.Direction rec.Normal > 0 then rec.Normal.Mul (-1) else rec.Normal)
          (if Dot rin.Direction rec.Normal > 0 then (1 : F) else 1 / 1) = none := by
        rw [refract_eq_none_iff, if_neg hneg, if_neg hneg, dot_unit, hx]
        simp
      rw [dialectric_reflects_of_none sqrt 1 draw h1 rin rec scattered hnone]
      have hr : reflect rin.Direction rec.Normal = rin.Direction.Mul 1 := by
        simp only [reflect, hx, Vec3.Sub, Vec3.Mul]
        ext <;> simp
      rw [hr]
      rfl
    · have hdraw : ¬ draw < (1 - |Dot rin.Direction rec.Normal| / rin.Direction.Length sqrt) ^ 5 :=
        h.resolve_left hx
      have hL := length_pos_of_dot_ne_zero sqrt hs _ _ hx
      refine ⟨1 / rin.Direction.Length sqrt, by positivity, ?_⟩
      rw [dialectric_one_eq sqrt hs draw rin rec scattered hx, if_neg hdraw]
      have hu : rin.Direction.Unit sqrt = rin.Direction.Mul (1 / rin.Direction.Length sqrt) := by
        simp only [Vec3.Unit, Vec3.Mul]
        ext <;> simp [div_eq_mul_inv]
      rw [hu]
      rfl
  · intro hx hdraw
    rw [dialectric_one_eq sqrt hs draw rin rec scattered hx, if_pos hdraw]
    rfl

/-- C7 (amended): for a ray with non-zero direction and a hit record with
unit-length normal, the direction produced by `NewMaterialMetal(albedo, 0)`
has `dot(reflected, normal) = dot(-unit(in.Direction), normal)`; in
magnitude this is `|dot(-in.Direction, normal)| / |in.Direction|`. -/
theorem Metal_mirror_unit (sqrt : F → F) (hs : IsSqrt sqrt) (albedo : Color F)
    (sample : Vec3 F) (rin : Ray F) (_hd : rin.Direction ≠ Vec3.zero) (rec : HitRecord F)
    (hn : rec.Normal.Length sqrt = 1) (scattered : Ray F) :
    Dot (NewMaterialMetal sqrt albedo 0 sample rin rec scattered).scattered.Direction rec.Normal
      = Dot ((rin.Direction.Unit sqrt).Mul (-1)) rec.Normal ∧
    |Dot (NewMaterialMetal sqrt albedo 0 sample rin rec scattered).scattered.Direction rec.Normal|
      = |Dot (rin.Direction.Mul (-1)) rec.Normal| / rin.Direction.Length sqrt := by
  have hn0 : 0 ≤ rec.Normal.SquaredLength := by
    simp only [Vec3.SquaredLength]
    nlinarith [mul_self_nonneg rec.Normal.X, mul_self_nonneg rec.Normal.Y,
      mul_self_nonneg rec.Normal.Z]
  have hn1 : rec.Normal.SquaredLength = 1 := by
    have h := (hs _ hn0).2
    simp only [Vec3.Length] at hn
    rw [hn] at h
    linarith
  have hL0 : 0 ≤ rin.Direction.Length sqrt := by
    have hd0 : 0 ≤ rin.Direction.SquaredLength := by
      simp only [Vec3.SquaredLength]
      nlinarith [mul_self_nonneg rin.Direction.X, mul_self_nonneg rin.Direction.Y,
        mul_self_nonneg rin.Direction.Z]
    exact (hs _ hd0).1
  have hf1 : ¬ (0 : F) > 1 := by norm_num
  have hf2 : ¬ (0 : F) < 0 := lt_irrefl 0
  have key : Dot (NewMaterialMetal sqrt albedo 0 sample rin rec scattered).scattered.Direction
      rec.Normal = -(Dot rin.Direction rec.Normal / rin.Direction.Length sqrt) := by
    rw [← dot_unit]
    simp only [NewMaterialMetal, if_neg hf1, if_neg hf2, reflect, Dot, Vec3.Add, Vec3.Sub,
      Vec3.Mul]
    simp only [Vec3.SquaredLength] at hn1
    linear_combination
      (-2 * ((rin.Direction.Unit sqrt).X * rec.Normal.X + (rin.Direction.Unit sqrt).Y * rec.Normal.Y
        + (rin.Direction.Unit sqrt).Z * rec.Normal.Z)) * hn1
  constructor
  · rw [key, ← dot_unit]
    simp only [Dot, Vec3.Mul]
    ring
  · rw [key, abs_neg, abs_div, abs_of_nonneg hL0]
    congr 1
    have : Dot (rin.Direction.Mul (-1)) rec.Normal = -Dot rin.Direction rec.Normal := by
      simp only [Dot, Vec3.Mul]
      ring
    rw [this, abs_neg]

/-! ## Instances over the reals -/

theorem real_sqrt_eq {x y : ℝ} (hy : 0 ≤ y) (h : y * y = x) : Real.sqrt x = y :=
  isSqrt_real.sqrt_unique hy h

theorem exRay_direction_ne_zero : (exRay : Ray ℝ).Direction ≠ Vec3.zero := by
  intro h
  have h1 := congrArg Vec3.Z h
  simp [exRay, Vec3.zero] at h1

theorem exRay_root_two : hitQuadratic (exSphere : Sphere ℝ) exRay 2 = 0 := by
  simp only [hitQuadratic, exSphere, exRay, Dot, Vec3.Sub]
  norm_num

/-- Instance of C1: the ray from `(0,0,-3)` along `+Z` hits the unit sphere
within `(0, 10)`. -/
theorem Sphere_Hit_iff_root_witness :
    IsSqrt Real.sqrt ∧ (exRay : Ray ℝ).Direction ≠ Vec3.zero ∧
    (Sphere.Hit Real.sqrt exSphere exRay 0 10 exRec).1 = true :=
  ⟨isSqrt_real, exRay_direction_ne_zero,
    (Sphere_Hit_iff_root Real.sqrt isSqrt_real exSphere exRay exRay_direction_ne_zero
      0 10 exRec).1.mpr ⟨2, exRay_root_two, by norm_num, by norm_num⟩⟩

/-- Instance of C2: the list of the unit sphere and the sphere behind it. -/
theorem HitterList_Hit_closest_witness :
    IsSqrt Real.sqrt ∧ (exRay : Ray ℝ).Direction ≠ Vec3.zero ∧
    ((HitterList.ofSpheres Real.sqrt [exSphereBehind, exSphere] exRec).Hit exRay 0 10 exRec).1
      = true :=
  ⟨isSqrt_real, exRay_direction_ne_zero,
    (HitterList_Hit_closest Real.sqrt isSqrt_real [exSphereBehind, exSphere] exRec exRay
      exRay_direction_ne_zero 0 10 exRec).1.mpr
      ⟨exSphere, by simp,
        (Sphere.Hit_true_iff Real.sqrt isSqrt_real exSphere exRay exRay_direction_ne_zero
          0 10 exRec).mpr ⟨2, exRay_root_two, by norm_num, by norm_num⟩⟩⟩

/-- Instance of C3: the normal recorded for the unit sphere has length 1. -/
theorem Sphere_Hit_normal_unit_witness :
    IsSqrt Real.sqrt ∧ (exRay : Ray ℝ).Direction ≠ Vec3.zero ∧
    (exSphere : Sphere ℝ).Radius ≠ 0 ∧
    (Sphere.Hit Real.sqrt exSphere exRay 0 10 exRec).1 = true ∧
    (Sphere.Hit Real.sqrt exSphere exRay 0 10 exRec).2.Normal.Length Real.sqrt = 1 :=
  have hit : (Sphere.Hit Real.sqrt exSphere exRay 0 10 exRec).1 = true :=
    (Sphere.Hit_true_iff Real.sqrt isSqrt_real exSphere exRay exRay_direction_ne_zero
      0 10 exRec).mpr ⟨2, exRay_root_two, by norm_num, by norm_num⟩
  have hr : (exSphere : Sphere ℝ).Radius ≠ 0 := by simp [exSphere]
  ⟨isSqrt_real, exRay_direction_ne_zero, hr, hit,
    (Sphere_Hit_normal_unit Real.sqrt isSqrt_real exSphere exRay exRay_direction_ne_zero hr
      0 10 exRec hit).2.1⟩

/-- Instance of C4: the ray along the `Z` axis passes the sphere at `(0,5,0)`
at distance 5. -/
theorem Sphere_Hit_miss_of_far_witness :
    (exRay : Ray ℝ).Direction ≠ Vec3.zero ∧
    (Sphere.Hit Real.sqrt exSphereAside exRay 0 10 exRec).1 = false :=
  ⟨exRay_direction_ne_zero,
    (Sphere_Hit_miss_of_far Real.sqrt exSphereAside exRay exRay_direction_ne_zero
      (by simp only [exSphereAside, exRay, Dot, Vec3.Sub]; norm_num) 0 10 exRec).1⟩

theorem exRay_oc_length :
    ((exRay : Ray ℝ).Origin.Sub (exSphere : Sphere ℝ).Center).Length Real.sqrt = 3 := by
  unfold Vec3.Length
  exact real_sqrt_eq (by norm_num)
    (by simp only [Vec3.SquaredLength, Vec3.Sub, exRay, exSphere]; norm_num)

theorem exRay_length : (exRay : Ray ℝ).Direction.Length Real.sqrt = 1 := by
  unfold Vec3.Length
  exact real_sqrt_eq (by norm_num) (by simp only [Vec3.SquaredLength, exRay]; norm_num)

theorem exRayDown_length : (exRayDown : Ray ℝ).Direction.Length Real.sqrt = 5 := by
  unfold Vec3.Length
  exact real_sqrt_eq (by norm_num) (by simp only [Vec3.SquaredLength, exRayDown]; norm_num)

theorem exRayUp_length : (exRayUp : Ray ℝ).Direction.Length Real.sqrt = 5 := by
  unfold Vec3.Length
  exact real_sqrt_eq (by norm_num) (by simp only [Vec3.SquaredLength, exRayUp]; norm_num)

theorem exRayTwo_length : (exRayTwo : Ray ℝ).Direction.Length Real.sqrt = 2 := by
  unfold Vec3.Length
  exact real_sqrt_eq (by norm_num) (by simp only [Vec3.SquaredLength, exRayTwo]; norm_num)

theorem exFlatRec_normal_length : (exFlatRec : HitRecord ℝ).Normal.Length Real.sqrt = 1 := by
  unfold Vec3.Length
  exact real_sqrt_eq (by norm_num) (by simp only [Vec3.SquaredLength, exFlatRec]; norm_num)

theorem exRayTwo_direction_ne_zero : (exRayTwo : Ray ℝ).Direction ≠ Vec3.zero := by
  intro h
  have h1 := congrArg Vec3.Y h
  simp [exRayTwo, Vec3.zero] at h1

/-- Instance of C5: the ray from `(0,0,-3)` towards the centre of the unit
sphere hits it at the near root `(3 - 1)/1`. -/
theorem Sphere_Hit_through_center_witness :
    IsSqrt Real.sqrt ∧ 0 < (exSphere : Sphere ℝ).Radius ∧
    ((exRay : Ray ℝ).Origin.Sub (exSphere : Sphere ℝ).Center).Length Real.sqrt
      > (exSphere : Sphere ℝ).Radius ∧
    (0 : ℝ) < 1 / 3 ∧
    (exRay : Ray ℝ).Direction = ((exSphere : Sphere ℝ).Center.Sub (exRay : Ray ℝ).Origin).Mul (1 / 3) ∧
    (Sphere.Hit Real.sqrt exSphere exRay 0 10 exRec).2.T = (3 - 1) / 1 :=
  have hr : 0 < (exSphere : Sphere ℝ).Radius := by simp [exSphere]
  have hout : ((exRay : Ray ℝ).Origin.Sub (exSphere : Sphere ℝ).Center).Length Real.sqrt
      > (exSphere : Sphere ℝ).Radius := by
    rw [exRay_oc_length]; simp [exSphere]
  have hk : (0 : ℝ) < 1 / 3 := by norm_num
  have hdir : (exRay : Ray ℝ).Direction
      = ((exSphere : Sphere ℝ).Center.Sub (exRay : Ray ℝ).Origin).Mul (1 / 3) := by
    simp only [exRay, exSphere, Vec3.Sub, Vec3.Mul]
    ext <;> norm_num
  have hT := ((Sphere_Hit_through_center Real.sqrt isSqrt_real exSphere exRay (1 / 3)
      hr hout hk hdir).2.2 0 10 exRec)
  ⟨isSqrt_real, hr, hout, hk, hdir, by
    rw [exRay_oc_length, exRay_length] at hT
    exact (hT (by simp [exSphere]) (by simp only [exSphere]; norm_num)).2⟩

/-- C6 as stated fails: with refractive index 1, the ray `(3,-4,0)` meeting
the normal `(0,1,0)` and the draw `0` is reflected to `(3,4,0)`, which is no
multiple of `(3,-4,0)`. -/
theorem Dialectric_one_bends :
    NewMaterialDialectric Real.sqrt 1 0 exRayDown exFlatRec exScattered =
      some { attenuation := { R := 1, G := 1, B := 1 }
             ok := true
             scattered := { Origin := { X := 0, Y := 0, Z := 0 }
                            Direction := { X := 3, Y := 4, Z := 0 } } } ∧
    ∀ k : ℝ, ({ X := 3, Y := 4, Z := 0 } : Vec3 ℝ) ≠ (exRayDown : Ray ℝ).Direction.Mul k := by
  have hdot : Dot (exRayDown : Ray ℝ).Direction (exFlatRec : HitRecord ℝ).Normal = -4 := by
    simp only [Dot, exRayDown, exFlatRec]; norm_num
  constructor
  · rw [dialectric_one_eq Real.sqrt isSqrt_real 0 exRayDown exFlatRec exScattered
      (by rw [hdot]; norm_num), hdot, exRayDown_length]
    have hlt : (0 : ℝ) < (1 - |(-4 : ℝ)| / 5) ^ 5 := by
      rw [abs_of_neg (by norm_num)]; norm_num
    rw [if_pos hlt]
    simp only [reflect, hdot, colorWhite]
    simp only [exRayDown, exFlatRec, Vec3.Sub, Vec3.Mul]
    norm_num
  · intro k h
    have hx := congrArg Vec3.X h
    have hy := congrArg Vec3.Y h
    simp only [exRayDown, Vec3.Mul] at hx hy
    linarith

/-- Instance of C6 (amended): with the draw `1/2` the ray `(3,-4,0)` goes
straight on. -/
theorem Dialectric_one_collinear_witness :
    IsSqrt Real.sqrt ∧ (0 : ℝ) ≤ 1 / 2 ∧ (1 / 2 : ℝ) < 1 ∧
    ∃ k : ℝ, 0 < k ∧ NewMaterialDialectric Real.sqrt 1 (1 / 2) exRayDown exFlatRec exScattered =
      some { attenuation := { R := 1, G := 1, B := 1 }
             ok := true
             scattered := { Origin := (exFlatRec : HitRecord ℝ).P
                            Direction := (exRayDown : Ray ℝ).Direction.Mul k } } :=
  ⟨isSqrt_real, by norm_num, by norm_num,
    (Dialectric_one_collinear Real.sqrt isSqrt_real (1 / 2) (by norm_num) (by norm_num)
      exRayDown exFlatRec exScattered).1 (Or.inr (by
        have hdot : Dot (exRayDown : Ray ℝ).Direction (exFlatRec : HitRecord ℝ).Normal = -4 := by
          simp only [Dot, exRayDown, exFlatRec]; norm_num
        rw [hdot, exRayDown_length, abs_of_neg (by norm_num)]
        norm_num))⟩

/-- C7 as stated fails: for the incoming direction `(0,-2,0)` and the normal
`(0,1,0)`, `dot(reflected, normal)` is 1 while `dot(-in.Direction, normal)`
is 2. -/
theorem Metal_mirror_magnitude_fails :
    (exRayTwo : Ray ℝ).Direction ≠ Vec3.zero ∧
    (exFlatRec : HitRecord ℝ).Normal.Length Real.sqrt = 1 ∧
    |Dot (NewMaterialMetal Real.sqrt { R := 1, G := 1, B := 1 } 0 { X := 1 / 2, Y := 0, Z := 0 }
        exRayTwo exFlatRec exScattered).scattered.Direction (exFlatRec : HitRecord ℝ).Normal|
      ≠ |Dot ((exRayTwo : Ray ℝ).Direction.Mul (-1)) (exFlatRec : HitRecord ℝ).Normal| := by
  refine ⟨exRayTwo_direction_ne_zero, exFlatRec_normal_length, ?_⟩
  have hl := exRayTwo_length
  simp only [Vec3.Length] at hl
  simp only [NewMaterialMetal, reflect, Vec3.Unit, Vec3.Length, hl]
  simp only [Dot, Vec3.Add, Vec3.Sub, Vec3.Mul, exRayTwo, exFlatRec]
  norm_num

/-- Instance of C7 (amended). -/
theorem Metal_mirror_unit_witness :
    IsSqrt Real.sqrt ∧ (exRayTwo : Ray ℝ).Direction ≠ Vec3.zero ∧
    (exFlatRec : HitRecord ℝ).Normal.Length Real.sqrt = 1 ∧
    Dot (NewMaterialMetal Real.sqrt { R := 1, G := 1, B := 1 } 0 { X := 1 / 2, Y := 0, Z := 0 }
        exRayTwo exFlatRec exScattered).scattered.Direction (exFlatRec : HitRecord ℝ).Normal
      = Dot (((exRayTwo : Ray ℝ).Direction.Unit Real.sqrt).Mul (-1))
          (exFlatRec : HitRecord ℝ).Normal :=
  ⟨isSqrt_real, exRayTwo_direction_ne_zero, exFlatRec_normal_length,
    (Metal_mirror_unit Real.sqrt isSqrt_real { R := 1, G := 1, B := 1 }
      { X := 1 / 2, Y := 0, Z := 0 } exRayTwo exRayTwo_direction_ne_zero exFlatRec
      exFlatRec_normal_length exScattered).1⟩

/-- Instance of C8: a fuzz of 5 behaves like a fuzz of 1. -/
theorem Metal_scatter_spec_witness :
    (exRayTwo : Ray ℝ).Direction ≠ Vec3.zero ∧
    NewMaterialMetal Real.sqrt { R := 1, G := 1, B := 1 } 5 { X := 1 / 2, Y := 0, Z := 0 }
        exRayTwo exFlatRec exScattered =
      NewMaterialMetal Real.sqrt { R := 1, G := 1, B := 1 } 1 { X := 1 / 2, Y := 0, Z := 0 }
        exRayTwo exFlatRec exScattered :=
  ⟨exRayTwo_direction_ne_zero,
    (Metal_scatter_spec Real.sqrt { R := 1, G := 1, B := 1 } 5 { X := 1 / 2, Y := 0, Z := 0 }
      exRayTwo exRayTwo_direction_ne_zero exFlatRec exScattered).2.2.2.2.1 (by norm_num)⟩

/-- Instance of C9: leaving glass of index 3/2 along `(4,3,0)` through the
normal `(0,1,0)` is a total internal reflection. -/
theorem Dialectric_total_internal_reflection_witness :
    (0 : ℝ) ≤ 1 / 2 ∧ (1 / 2 : ℝ) < 1 ∧
    NewMaterialDialectric Real.sqrt (3 / 2) (1 / 2) exRayUp exFlatRec exScattered =
      some { attenuation := { R := 1, G := 1, B := 1 }
             ok := true
             scattered := { Origin := (exFlatRec : HitRecord ℝ).P
                            Direction := reflect (exRayUp : Ray ℝ).Direction
                              (exFlatRec : HitRecord ℝ).Normal } } :=
  ⟨by norm_num, by norm_num,
    (Dialectric_total_internal_reflection Real.sqrt (3 / 2) (1 / 2) (by norm_num) (by norm_num)
      exRayUp exFlatRec exScattered (by
        have hdot : Dot (exRayUp : Ray ℝ).Direction (exFlatRec : HitRecord ℝ).Normal = 3 := by
          simp only [Dot, exRayUp, exFlatRec]; norm_num
        have hpos : Dot (exRayUp : Ray ℝ).Direction (exFlatRec : HitRecord ℝ).Normal > 0 := by
          rw [hdot]; norm_num
        rw [if_pos hpos, if_pos hpos, dot_unit_neg, hdot, exRayUp_length]
        norm_num)).2⟩

/-! ## Vector algebra -/

/-- C18 (amended): in exact arithmetic (`F` a linearly ordered field), for
all vectors `v` and `w`, `Dot(v, Cross(v, w)) = 0` and
`Dot(w, Cross(v, w)) = 0`, where `Cross(v1, v2) = (y1*z2 - z1*y2,
-(x1*z2 - z1*x2), x1*y2 - y1*x2)`. -/
theorem Dot_Cross_orthogonal (v w : Vec3 F) :
    Dot v (Cross v w) = 0 ∧ Dot w (Cross v w) = 0 ∧
    Cross v w = { X := v.Y * w.Z - v.Z * w.Y
                  Y := -(v.X * w.Z - v.Z * w.X)
                  Z := v.X * w.Y - v.Y * w.X } := by
  refine ⟨?_, ?_, rfl⟩
  · simp only [Dot, Cross]; ring
  · simp only [Dot, Cross]; ring

/-! ## Rejection sampling and the diffuse material -/

/-- A value returned by `randomInUnitSphere` has squared length below 1. -/
theorem randomInUnitSphere_sqlen (fuel : Nat) :
    ∀ (rr : Rand F) (p : Vec3 F) (rr1 : Rand F),
      randomInUnitSphere fuel rr = .ok (p, rr1) → p.SquaredLength < 1 := by
  induction fuel with
  | zero =>
    intro rr p rr1 h
    simp [randomInUnitSphere] at h
  | succ n ih =>
    intro rr p rr1 h
    simp only [randomInUnitSphere] at h
    split_ifs at h with hge
    · exact ih _ p rr1 h
    · simp only [Except.ok.injEq, Prod.mk.injEq] at h
      rw [← h.1]
      exact not_le.mp hge

/-- The dot product of a unit vector with a vector shorter than 1 is above -1. -/
theorem dot_gt_neg_one (n s : Vec3 F) (hn : n.SquaredLength = 1) (hs : s.SquaredLength < 1) :
    -1 < Dot s n := by
  simp only [Vec3.SquaredLength] at hn hs
  simp only [Dot]
  have key : s.X * s.X + s.Y * s.Y + s.Z * s.Z - (s.X * n.X + s.Y * n.Y + s.Z * n.Z) ^ 2
      = (s.X - (s.X * n.X + s.Y * n.Y + s.Z * n.Z) * n.X) ^ 2
        + (s.Y - (s.X * n.X + s.Y * n.Y + s.Z * n.Z) * n.Y) ^ 2
        + (s.Z - (s.X * n.X + s.Y * n.Y + s.Z * n.Z) * n.Z) ^ 2 := by
    linear_combination (-(s.X * n.X + s.Y * n.Y + s.Z * n.Z) ^ 2) * hn
  by_contra hle
  have h1 : s.X * n.X + s.Y * n.Y + s.Z * n.Z ≤ -1 := not_lt.mp hle
  nlinarith [sq_nonneg (s.X - (s.X * n.X + s.Y * n.Y + s.Z * n.Z) * n.X),
    sq_nonneg (s.Y - (s.X * n.X + s.Y * n.Y + s.Z * n.Z) * n.Y),
    sq_nonneg (s.Z - (s.X * n.X + s.Y * n.Y + s.Z * n.Z) * n.Z)]

/-- C20: for a hit record with unit-length normal and a sample `s` with
squared length below 1 (every value `randomInUnitSphere` returns is one),
the Lambertian scatter function returns `ok = true`, the albedo as
attenuation, the hit point as scattered origin and `normal + s` as scattered
direction; that direction is not the zero vector and has a positive dot
product with the normal. -/
theorem Lambertian_scatter_hemisphere (albedo : Color F) (s : Vec3 F) (rin : Ray F)
    (rec : HitRecord F) (scattered : Ray F)
    (hn : rec.Normal.SquaredLength = 1) (hlen : s.SquaredLength < 1) :
    (NewMaterialLambertian albedo s rin rec scattered).ok = true ∧
    (NewMaterialLambertian albedo s rin rec scattered).attenuation = albedo ∧
    (NewMaterialLambertian albedo s rin rec scattered).scattered.Origin = rec.P ∧
    (NewMaterialLambertian albedo s rin rec scattered).scattered.Direction = rec.Normal.Add s ∧
    (NewMaterialLambertian albedo s rin rec scattered).scattered.Direction ≠ Vec3.zero ∧
    Dot (NewMaterialLambertian albedo s rin rec scattered).scattered.Direction rec.Normal > 0 ∧
    (∀ (fuel : Nat) (rr rr1 : Rand F) (p : Vec3 F),
      randomInUnitSphere fuel rr = .ok (p, rr1) → p.SquaredLength < 1) := by
  have hdir : (NewMaterialLambertian albedo s rin rec scattered).scattered.Direction
      = rec.Normal.Add s := by
    simp only [NewMaterialLambertian, Vec3.Add, Vec3.Sub]
    ext <;> simp only <;> ring
  have hdot : Dot (rec.Normal.Add s) rec.Normal > 0 := by
    have h1 := dot_gt_neg_one rec.Normal s hn hlen
    simp only [Vec3.SquaredLength] at hn
    simp only [Dot, Vec3.Add] at h1 ⊢
    nlinarith
  refine ⟨rfl, rfl, rfl, hdir, ?_, ?_, ?_⟩
  · rw [hdir]
    intro hz
    rw [hz] at hdot
    simp [Dot, Vec3.zero] at hdot
  · rw [hdir]; exact hdot
  · intro fuel rr rr1 p h
    exact randomInUnitSphere_sqlen fuel rr p rr1 h

/-! ## The colour integrator -/

/-- The value of `ComputeColor` when the scene reports no hit. -/
theorem ComputeColor_of_miss (sqrt : F → F) (maxFloat64 : F) (fuel calls : Nat) (r : Ray F)
    (h : Hitter F) (depth : Int) (scatterRay : Ray F) (rec : HitRecord F) (rr : Rand F)
    (hmiss : (h.Hit r 0.001 maxFloat64 rec).1 = false) :
    ComputeColor sqrt maxFloat64 fuel calls r h depth scatterRay rec rr =
      .ok { color := (({ R := 1, G := 1, B := 1 } : Color F).Mul
                (1 - 0.5 * ((r.Direction.Unit sqrt).Y + 1.0))).Add
              (({ R := 0.5, G := 0.7, B := 1.0 } : Color F).Mul
                (0.5 * ((r.Direction.Unit sqrt).Y + 1.0)))
            scatterRay := scatterRay
            hitRec := (h.Hit r 0.001 maxFloat64 rec).2
            rr := rr } := by
  unfold ComputeColor
  simp only [hmiss, Bool.false_eq_true, if_false]

/-- Scaling a vector by a positive factor scales its length. -/
theorem length_mul_pos (sqrt : F → F) (hs : IsSqrt sqrt) (v : Vec3 F) (k : F) (hk : 0 < k) :
    (v.Mul k).Length sqrt = k * v.Length sqrt := by
  have h0 : 0 ≤ v.SquaredLength := by
    simp only [Vec3.SquaredLength]
    nlinarith [mul_self_nonneg v.X, mul_self_nonneg v.Y, mul_self_nonneg v.Z]
  obtain ⟨h1, h2⟩ := hs _ h0
  apply hs.sqrt_unique (mul_nonneg hk.le h1)
  simp only [Vec3.SquaredLength, Vec3.Mul, Vec3.Length] at h2 ⊢
  linear_combination (k * k) * h2

/-- Scaling a vector by a positive factor keeps its unit vector. -/
theorem unit_mul_pos (sqrt : F → F) (hs : IsSqrt sqrt) (v : Vec3 F) (k : F) (hk : 0 < k) :
    (v.Mul k).Unit sqrt = v.Unit sqrt := by
  have hl := length_mul_pos sqrt hs v k hk
  simp only [Vec3.Unit, hl]
  simp only [Vec3.Mul]
  ext
  · simp only; rw [mul_comm k, mul_div_mul_right _ _ hk.ne']
  · simp only; rw [mul_comm k, mul_div_mul_right _ _ hk.ne']
  · simp only; rw [mul_comm k, mul_div_mul_right _ _ hk.ne']

/-- The unit vector of a non-zero vector has length 1. -/
theorem unit_length (sqrt : F → F) (hs : IsSqrt sqrt) (v : Vec3 F) (hv : v ≠ Vec3.zero) :
    (v.Unit sqrt).Length sqrt = 1 := by
  have hpos : 0 < v.SquaredLength := by
    have h := dot_self_pos v hv
    simpa only [Dot, Vec3.SquaredLength] using h
  obtain ⟨h1, h2⟩ := hs _ hpos.le
  have hL : sqrt v.SquaredLength ≠ 0 := by
    intro h0
    rw [h0, mul_zero] at h2
    exact hpos.ne h2
  apply hs.sqrt_unique zero_le_one
  simp only [Vec3.Unit, Vec3.Length]
  simp only [Vec3.SquaredLength] at h2 hL ⊢
  field_simp
  linear_combination h2

/-- C11 (amended): in exact arithmetic (`F` a linearly ordered field, `sqrt`
an exact square root), for a ray with non-zero direction, every depth and
every scene whose `Hit` reports no hit for the ray in `(0.001, MaxFloat64)`,
`ComputeColor` returns `(1-t)*(1,1,1) + t*(0.5,0.7,1.0)` with
`t = 0.5*(unit(ray.Direction).Y + 1)`; the same colour is returned at every
other depth, for every other origin and for the direction scaled by any
positive factor, whenever that ray misses too; `unit(ray.Direction)` has
length 1. -/
theorem ComputeColor_miss_gradient (sqrt : F → F) (hs : IsSqrt sqrt) (maxFloat64 : F)
    (fuel calls : Nat) (r : Ray F) (h : Hitter F) (depth : Int) (scatterRay : Ray F)
    (rec : HitRecord F) (rr : Rand F)
    (hd : r.Direction ≠ Vec3.zero)
    (hmiss : (h.Hit r 0.001 maxFloat64 rec).1 = false) :
    ComputeColor sqrt maxFloat64 fuel calls r h depth scatterRay rec rr =
      .ok { color := (({ R := 1, G := 1, B := 1 } : Color F).Mul
                (1 - 0.5 * ((r.Direction.Unit sqrt).Y + 1))).Add
              (({ R := 0.5, G := 0.7, B := 1.0 } : Color F).Mul
                (0.5 * ((r.Direction.Unit sqrt).Y + 1)))
            scatterRay := scatterRay
            hitRec := (h.Hit r 0.001 maxFloat64 rec).2
            rr := rr } ∧
    (∀ (r2 : Ray F) (h2 : Hitter F) (depth2 : Int) (fuel2 calls2 : Nat) (scatterRay2 : Ray F)
        (rec2 : HitRecord F) (rr2 : Rand F) (k : F),
      0 < k → r2.Direction = r.Direction.Mul k →
      (h2.Hit r2 0.001 maxFloat64 rec2).1 = false →
      ∃ res2, ComputeColor sqrt maxFloat64 fuel2 calls2 r2 h2 depth2 scatterRay2 rec2 rr2
          = .ok res2 ∧
        res2.color = (({ R := 1, G := 1, B := 1 } : Color F).Mul
                (1 - 0.5 * ((r.Direction.Unit sqrt).Y + 1))).Add
              (({ R := 0.5, G := 0.7, B := 1.0 } : Color F).Mul
                (0.5 * ((r.Direction.Unit sqrt).Y + 1)))) ∧
    (r.Direction.Unit sqrt).Length sqrt = 1 := by
  refine ⟨?_, ?_, unit_length sqrt hs r.Direction hd⟩
  · rw [ComputeColor_of_miss sqrt maxFloat64 fuel calls r h depth scatterRay rec rr hmiss]
    norm_num
  · intro r2 h2 depth2 fuel2 calls2 scatterRay2 rec2 rr2 k hk hdir hmiss2
    refine ⟨_, ComputeColor_of_miss sqrt maxFloat64 fuel2 calls2 r2 h2 depth2 scatterRay2 rec2
      rr2 hmiss2, ?_⟩
    simp only [hdir, unit_mul_pos sqrt hs _ k hk]
    norm_num

/-! ## The interval of accepted roots and the caller's record -/

/-- C16 (amended): for a ray with non-zero direction, `Sphere.Hit` returns
the smallest root of the intersection quadratic lying in the open interval
`(tMin, tMax)`, or no hit when there is none there: a root equal to `tMax` is
not accepted, and an accepted root is above `tMin`, hence positive when
`tMin >= 0`. -/
theorem Sphere_Hit_open_interval (sqrt : F → F) (hs : IsSqrt sqrt) (s : Sphere F) (r : Ray F)
    (hd : r.Direction ≠ Vec3.zero) (tMin tMax : F) (rec : HitRecord F) :
    ((s.Hit sqrt r tMin tMax rec).1 = true →
      IsLeastRoot s r tMin tMax (s.Hit sqrt r tMin tMax rec).2.T ∧
      (s.Hit sqrt r tMin tMax rec).2.T ≠ tMax ∧
      (0 ≤ tMin → 0 < (s.Hit sqrt r tMin tMax rec).2.T)) ∧
    ((s.Hit sqrt r tMin tMax rec).1 = false →
      ∀ t, hitQuadratic s r t = 0 → ¬ (tMin < t ∧ t < tMax)) ∧
    ((∀ t, hitQuadratic s r t = 0 → ¬ (tMin < t ∧ t < tMax)) →
      (s.Hit sqrt r tMin tMax rec).1 = false) := by
  rcases Sphere.Hit_cases sqrt hs s r hd tMin tMax rec with ⟨h, hno⟩ | ⟨t, h, hl⟩
  · rw [h]
    refine ⟨fun hf => by simp at hf, fun _ t ht hin => hno t ht hin.1 hin.2, fun _ => rfl⟩
  · rw [h]
    refine ⟨fun _ => ⟨hl, ne_of_lt hl.2.2.1, fun h0 => lt_of_le_of_lt h0 hl.2.1⟩,
      fun hf => by simp at hf, fun hno => ?_⟩
    exact absurd ⟨hl.2.1, hl.2.2.1⟩ (hno t hl.1)

/-- The loop of `HitterList.Hit` keeps `hitAnything` once it is set and
leaves the caller's record alone as long as it is not set. -/
theorem HitterList.hitLoop_frame (r : Ray F) (tMin : F) :
    ∀ (l : List (Hitter F)) (st : HitLoopState F),
      (st.hitAnything = true → (HitterList.hitLoop r tMin l st).hitAnything = true) ∧
      ((HitterList.hitLoop r tMin l st).hitAnything = false →
        (HitterList.hitLoop r tMin l st).callerRec = st.callerRec) := by
  intro l
  induction l with
  | nil => intro st; exact ⟨fun h => h, fun _ => rfl⟩
  | cons h rest ih =>
    intro st
    have key : ∀ S : HitLoopState F, S.hitAnything = true →
        (HitterList.hitLoop r tMin rest S).hitAnything = true := fun S hS => (ih S).1 hS
    simp only [HitterList.hitLoop]
    split_ifs with hmiss
    · exact ih { st with tempRec := (h.Hit r tMin st.closest st.tempRec).2 }
    · refine ⟨fun _ => key _ rfl, fun hf => ?_⟩
      rw [key _ rfl] at hf
      simp at hf

/-- A miss of `Sphere.Hit` leaves the record as it was. -/
theorem Sphere.Hit_false_rec (sqrt : F → F) (s : Sphere F) (r : Ray F) (tMin tMax : F)
    (rec : HitRecord F) (hf : (s.Hit sqrt r tMin tMax rec).1 = false) :
    (s.Hit sqrt r tMin tMax rec).2 = rec := by
  rw [Sphere.Hit_eq] at hf ⊢
  simp only at hf ⊢
  split_ifs at hf ⊢ <;> rfl

/-- The `T` of a hit of `Sphere.Hit` lies strictly between the bounds. -/
theorem Sphere.Hit_true_bounds (sqrt : F → F) (s : Sphere F) (r : Ray F) (tMin tMax : F)
    (rec : HitRecord F) (ht : (s.Hit sqrt r tMin tMax rec).1 = true) :
    tMin < (s.Hit sqrt r tMin tMax rec).2.T ∧ (s.Hit sqrt r tMin tMax rec).2.T < tMax := by
  rw [Sphere.Hit_eq] at ht ⊢
  simp only at ht ⊢
  split_ifs at ht ⊢ <;> rename_i hin <;> exact ⟨hin.2, hin.1⟩

/-- C17: when `Sphere.Hit` returns false the caller's record is unchanged;
when `HitterList.Hit` returns false the caller's record is unchanged; and an
iteration of the loop of `HitterList.Hit` on a sphere either finds no hit and
leaves the loop variables as they are, or the sphere reports a hit with `T`
strictly between `tMin` and the closest `T` so far, and that record becomes
the caller's record and its `T` the new closest (the loop starts with
`closest = tMax`, and running it on a list is running it member by member). -/
theorem Hit_record_frame (sqrt : F → F) (r : Ray F) (tMin tMax : F) (rec : HitRecord F) :
    (∀ s : Sphere F, (s.Hit sqrt r tMin tMax rec).1 = false →
      (s.Hit sqrt r tMin tMax rec).2 = rec) ∧
    (∀ hl : HitterList F, (hl.Hit r tMin tMax rec).1 = false →
      (hl.Hit r tMin tMax rec).2.1 = rec) ∧
    (∀ (s : Sphere F) (st : HitLoopState F),
      ((s.Hit sqrt r tMin st.closest st.tempRec).1 = false ∧
        HitterList.hitLoop r tMin [s.toHitter sqrt] st = st) ∨
      ((s.Hit sqrt r tMin st.closest st.tempRec).1 = true ∧
        tMin < (s.Hit sqrt r tMin st.closest st.tempRec).2.T ∧
        (s.Hit sqrt r tMin st.closest st.tempRec).2.T < st.closest ∧
        HitterList.hitLoop r tMin [s.toHitter sqrt] st =
          { hitAnything := true
            closest := (s.Hit sqrt r tMin st.closest st.tempRec).2.T
            tempRec := (s.Hit sqrt r tMin st.closest st.tempRec).2
            callerRec := (s.Hit sqrt r tMin st.closest st.tempRec).2 })) ∧
    (∀ (hl : HitterList F),
      (hl.Hit r tMin tMax rec).2.1 =
        (HitterList.hitLoop r tMin hl.l
          { hitAnything := false, closest := tMax, tempRec := hl.tempRec,
            callerRec := rec }).callerRec) ∧
    (∀ (h : Hitter F) (rest : List (Hitter F)) (st : HitLoopState F),
      HitterList.hitLoop r tMin (h :: rest) st =
        HitterList.hitLoop r tMin rest (HitterList.hitLoop r tMin [h] st)) := by
  refine ⟨?_, ?_, ?_, ?_, ?_⟩
  · intro s hf
    exact Sphere.Hit_false_rec sqrt s r tMin tMax rec hf
  · intro hl hf
    have hfr := HitterList.hitLoop_frame r tMin hl.l
      { hitAnything := false, closest := tMax, tempRec := hl.tempRec, callerRec := rec }
    simp only [HitterList.Hit] at hf ⊢
    split_ifs at hf ⊢ with h1
    simp only [Bool.not_eq_true'] at h1
    exact hfr.2 h1
  · intro s st
    simp only [HitterList.hitLoop, Sphere.toHitter]
    cases hb : (s.Hit sqrt r tMin st.closest st.tempRec).1
    · left
      have he := Sphere.Hit_false_rec sqrt s r tMin st.closest st.tempRec hb
      simp only [Bool.not_false, if_true, he, true_and]
    · right
      have hbd := Sphere.Hit_true_bounds sqrt s r tMin st.closest st.tempRec hb
      simp only [Bool.not_true, Bool.false_eq_true, if_false, true_and]
      exact ⟨hbd.1, hbd.2, trivial⟩
  · intro hl
    simp only [HitterList.Hit]
    split_ifs <;> rfl
  · intro h rest st
    simp only [HitterList.hitLoop]
    split_ifs <;> rfl

/-! ## The render loop -/

/-- A property kept by every iteration is kept by the loop. -/
theorem forEach_invariant {σ : Type} (P : σ → Prop) (body : Nat → σ → Except Fault σ)
    (hbody : ∀ k st st1, P st → body k st = .ok st1 → P st1) :
    ∀ (ks : List Nat) (st st1 : σ), P st → forEach body ks st = .ok st1 → P st1 := by
  intro ks
  induction ks with
  | nil =>
    intro st st1 hP h
    simp only [forEach, Except.ok.injEq] at h
    rw [← h]; exact hP
  | cons k ks ih =>
    intro st st1 hP h
    simp only [forEach] at h
    cases hb : body k st with
    | error e => rw [hb] at h; simp at h
    | ok st2 =>
      rw [hb] at h
      exact ih st2 st1 (hbody k st st2 hP hb) h

/-- The value of `uint8` on an argument whose truncation fits. -/
theorem uint8_of_fits [FloorRing F] (wrap : F → Nat) (x : F) (h0 : 0 ≤ x) (h1 : x < 256) :
    uint8 wrap x = ⌊x⌋.toNat ∧ uint8 wrap x ≤ 255 := by
  have hin : -1 < x ∧ x < 256 := ⟨by linarith, h1⟩
  have hfl : ⌊x⌋ < 256 := by
    rw [Int.floor_lt]; exact_mod_cast h1
  have hfl0 : 0 ≤ ⌊x⌋ := Int.floor_nonneg.mpr h0
  simp only [uint8, if_pos hin, true_and]
  omega

/-- What the body of the pixel loop appends to the image. -/
theorem Render.pixel_ok [FloorRing F] (sqrt : F → F) (maxFloat64 : F) (wrap : F → Nat)
    (fuel calls : Nat) (width height : Nat) (samples : Int)
    (camera : Camera F) (world : Hitter F) (i j : Nat) (st st2 : RenderState F)
    (h : Render.pixel sqrt maxFloat64 wrap fuel calls width height samples camera world i j st
      = .ok st2) :
    ∃ (c : Color F) (st1 : RenderState F),
      forEach (Render.sample sqrt maxFloat64 fuel calls width height camera world i j)
        (List.range samples.toNat) ({ R := 0, G := 0, B := 0 }, st) = .ok (c, st1) ∧
      st1.img = st.img ∧
      st2 = { st1 with img := st1.img ++
        [{ x := j, y := (height - 1) - i, clr := Render.toRGBA wrap (c.Div (samples : F)) }] } := by
  simp only [Render.pixel] at h
  cases hb : forEach (Render.sample sqrt maxFloat64 fuel calls width height camera world i j)
      (List.range samples.toNat) ({ R := 0, G := 0, B := 0 }, st) with
  | error e => rw [hb] at h; simp at h
  | ok res =>
    rw [hb] at h
    obtain ⟨c, st1⟩ := res
    simp only [Except.ok.injEq] at h
    refine ⟨c, st1, rfl, ?_, h.symm⟩
    refine forEach_invariant (fun x : Color F × RenderState F => x.2.img = st.img)
      (Render.sample sqrt maxFloat64 fuel calls width height camera world i j) ?_ _ _ _ rfl hb
    intro k x x1 hx hs
    simp only [Render.sample] at hs
    split at hs
    · simp at hs
    · split at hs
      · simp at hs
      · simp only [Except.ok.injEq] at hs
        rw [← hs]
        exact hx

/-- C13 (amended): the 8-bit value `Render` stores for a channel with averaged
value `c` is `uint8(255.99 * c)`; whenever `0 <= 255.99*c < 256`, in
particular for every `c` in `[0, 1]`, this is the integer part
`floor(255.99 * c)`, at most 255: the factor is 255.99, the fraction is
discarded and nothing is clamped.  The alpha channel is 1. -/
theorem Render_channel_truncates [FloorRing F] (sqrt : F → F) (maxFloat64 : F)
    (wrap : F → Nat) (fuel calls : Nat) (width height : Nat) (samples : Int)
    (camera : Camera F) (world : Hitter F) (i j : Nat) (st : RenderState F) :
    (∀ st2, Render.pixel sqrt maxFloat64 wrap fuel calls width height samples camera world i j st
        = .ok st2 →
      ∃ (c : Color F) (st1 : RenderState F),
        forEach (Render.sample sqrt maxFloat64 fuel calls width height camera world i j)
          (List.range samples.toNat) ({ R := 0, G := 0, B := 0 }, st) = .ok (c, st1) ∧
        st2.img = st.img ++
          [{ x := j, y := (height - 1) - i
             clr := { R := uint8 wrap (255.99 * (c.Div (samples : F)).R)
                      G := uint8 wrap (255.99 * (c.Div (samples : F)).G)
                      B := uint8 wrap (255.99 * (c.Div (samples : F)).B)
                      A := 1 } }]) ∧
    (∀ x : F, 0 ≤ 255.99 * x → 255.99 * x < 256 →
      uint8 wrap (255.99 * x) = ⌊255.99 * x⌋.toNat ∧ uint8 wrap (255.99 * x) ≤ 255) ∧
    (∀ x : F, 0 ≤ x → x ≤ 1 →
      uint8 wrap (255.99 * x) = ⌊255.99 * x⌋.toNat ∧ uint8 wrap (255.99 * x) ≤ 255) := by
  refine ⟨?_, ?_, ?_⟩
  · intro st2 h
    obtain ⟨c, st1, h1, h2, h3⟩ := Render.pixel_ok sqrt maxFloat64 wrap fuel calls width height
      samples camera world i j st st2 h
    refine ⟨c, st1, h1, ?_⟩
    rw [h3, h2]
    rfl
  · intro x h0 h1
    exact uint8_of_fits wrap _ h0 h1
  · intro x h0 h1
    exact uint8_of_fits wrap _ (by positivity) (by norm_num; nlinarith)

/-! ## A render of the empty scene over the reals -/

theorem exEmptyWorld_Hit (r : Ray F) (tMin tMax : F) (rec : HitRecord F) :
    exEmptyWorld.Hit r tMin tMax rec = (false, rec) := by
  rfl

theorem exCamera_GetRay (s t : ℝ) (rd : Vec3 ℝ) :
    (exCamera : Camera ℝ).GetRay s t rd =
      { Origin := { X := 0, Y := 0, Z := 0 }, Direction := { X := 0, Y := 0, Z := -1 } } := by
  simp only [Camera.GetRay, exCamera, Vec3.Add, Vec3.Sub, Vec3.Mul]
  norm_num

theorem exHalf_Float64 : (exHalf : Rand F).Float64 = (1 / 2, exHalf) := by
  rfl

theorem randomInUnitDisk_exHalf (fuel : Nat) :
    randomInUnitDisk (fuel + 1) (exHalf : Rand ℝ) =
      .ok ({ X := 0, Y := 0, Z := 0 }, exHalf) := by
  simp only [randomInUnitDisk, exHalf_Float64, Vec3.Mul, Vec3.Sub, Dot]
  norm_num

/-- The sky colour `ComputeColor` returns in the empty scene for the
direction `(0, 0, -1)`. -/
theorem ComputeColor_exEmptyWorld (maxFloat64 : ℝ) (fuel calls : Nat) (depth : Int)
    (scatterRay : Ray ℝ) (rec : HitRecord ℝ) (rr : Rand ℝ) :
    ComputeColor Real.sqrt maxFloat64 fuel calls
        { Origin := { X := 0, Y := 0, Z := 0 }, Direction := { X := 0, Y := 0, Z := -1 } }
        exEmptyWorld depth scatterRay rec rr =
      .ok { color := { R := 3 / 4, G := 17 / 20, B := 1 }
            scatterRay := scatterRay, hitRec := rec, rr := rr } := by
  rw [ComputeColor_of_miss _ _ _ _ _ _ _ _ _ _ (by rw [exEmptyWorld_Hit])]
  have hl : Real.sqrt (0 * 0 + 0 * 0 + (-1) * (-1)) = 1 :=
    real_sqrt_eq (by norm_num) (by norm_num)
  simp only [exEmptyWorld_Hit, Vec3.Unit, Vec3.Length, Vec3.SquaredLength, hl, Color.Mul,
    Color.Add]
  norm_num

/-- The render of one pixel with one sample of the empty scene. -/
theorem Render_exEmptyWorld (maxFloat64 : ℝ) (wrap : ℝ → Nat) (fuel calls : Nat) :
    Render Real.sqrt maxFloat64 wrap (fuel + 1) calls 1 1 1 exCamera exEmptyWorld exHalf =
      .ok { img := [{ x := 0, y := 0
                      clr := Render.toRGBA wrap { R := 3 / 4, G := 17 / 20, B := 1 } }]
            scatterRay := exScattered, hitRec := exRec, rr := exHalf } := by
  have hr1 : List.range 1 = [0] := rfl
  simp only [Render, hr1, List.reverse_singleton, forEach, Render.pixel,
    Int.toNat_one, Render.sample, Render.sampleUV, exHalf_Float64, randomInUnitDisk_exHalf,
    exCamera_GetRay, ComputeColor_exEmptyWorld, Color.Add, Color.Div]
  simp [exScattered, exRec]

theorem floor_real_eq (x : ℝ) (z : Int) (h0 : (z : ℝ) ≤ x) (h1 : x < z + 1) : ⌊x⌋ = z :=
  Int.floor_eq_iff.mpr ⟨h0, h1⟩

/-- C13 as stated fails: rendering one pixel of the empty scene with one
sample and every draw `1/2` averages to the colour `(3/4, 17/20, 1)`; the
image stores `(191, 217, 255)`, where `round(255.999 * clamp(c, 0, 1))` is
`192`, `218` and `256`. -/
theorem Render_channel_not_rounded :
    Render Real.sqrt 1000 (fun _ => 0) 1 0 1 1 1 exCamera exEmptyWorld exHalf =
      .ok { img := [{ x := 0, y := 0
                      clr := Render.toRGBA (fun _ => 0)
                        ({ R := 3 / 4, G := 17 / 20, B := 1 } : Color ℝ) }]
            scatterRay := exScattered, hitRec := exRec, rr := exHalf } ∧
    Render.toRGBA (fun _ => 0) ({ R := 3 / 4, G := 17 / 20, B := 1 } : Color ℝ)
      = { R := 191, G := 217, B := 255, A := 1 } ∧
    specChannel (3 / 4 : ℝ) = 192 ∧ specChannel (17 / 20 : ℝ) = 218 ∧
    specChannel (1 : ℝ) = 256 := by
  refine ⟨Render_exEmptyWorld 1000 (fun _ => 0) 0 0, ?_, ?_, ?_, ?_⟩
  · have hR : uint8 (fun _ => 0) (255.99 * (3 / 4) : ℝ) = 191 := by
      rw [(uint8_of_fits _ _ (by norm_num) (by norm_num)).1,
        floor_real_eq _ 191 (by norm_num) (by norm_num)]
      rfl
    have hG : uint8 (fun _ => 0) (255.99 * (17 / 20) : ℝ) = 217 := by
      rw [(uint8_of_fits _ _ (by norm_num) (by norm_num)).1,
        floor_real_eq _ 217 (by norm_num) (by norm_num)]
      rfl
    have hB : uint8 (fun _ => 0) (255.99 * 1 : ℝ) = 255 := by
      rw [(uint8_of_fits _ _ (by norm_num) (by norm_num)).1,
        floor_real_eq _ 255 (by norm_num) (by norm_num)]
      rfl
    simp only [Render.toRGBA, hR, hG, hB]
  · simp only [specChannel, round_eq]
    rw [min_eq_right (by norm_num), max_eq_right (by norm_num)]
    exact floor_real_eq _ 192 (by norm_num) (by norm_num)
  · simp only [specChannel, round_eq]
    rw [min_eq_right (by norm_num), max_eq_right (by norm_num)]
    exact floor_real_eq _ 218 (by norm_num) (by norm_num)
  · simp only [specChannel, round_eq]
    rw [min_eq_left (by norm_num), max_eq_right (by norm_num)]
    exact floor_real_eq _ 256 (by norm_num) (by norm_num)

theorem exRay_quadratic (t : ℝ) : hitQuadratic (exSphere : Sphere ℝ) exRay t = (t - 2) * (t - 4) := by
  simp only [hitQuadratic, exSphere, exRay, Dot, Vec3.Sub]
  ring

theorem exRayAway_quadratic (t : ℝ) :
    hitQuadratic (exSphere : Sphere ℝ) exRayAway t = (t + 2) * (t + 4) := by
  simp only [hitQuadratic, exSphere, exRayAway, Dot, Vec3.Sub]
  ring

theorem exRayAway_direction_ne_zero : (exRayAway : Ray ℝ).Direction ≠ Vec3.zero := by
  intro h
  have h1 := congrArg Vec3.Z h
  simp [exRayAway, Vec3.zero] at h1

/-- C16 as stated fails: the ray from `(0,0,-3)` along `+Z` meets the unit
sphere at `t = 2` and `t = 4`; with `tMin = 0` and `tMax = 2` the root 2 lies
in `(tMin, tMax]` but `Sphere.Hit` reports no hit.  And the ray from
`(0,0,3)` along `+Z` with `tMin = -10` is given the negative root `-4`. -/
theorem Sphere_Hit_rejects_tMax :
    hitQuadratic (exSphere : Sphere ℝ) exRay 2 = 0 ∧ (0 : ℝ) < 2 ∧ (2 : ℝ) ≤ 2 ∧
    Sphere.Hit Real.sqrt exSphere exRay 0 2 exRec = (false, exRec) ∧
    (Sphere.Hit Real.sqrt exSphere exRayAway (-10) 10 exRec).1 = true ∧
    (Sphere.Hit Real.sqrt exSphere exRayAway (-10) 10 exRec).2.T = -4 := by
  refine ⟨exRay_root_two, by norm_num, le_refl _, ?_, ?_, ?_⟩
  · rcases Sphere.Hit_cases Real.sqrt isSqrt_real exSphere exRay exRay_direction_ne_zero
      0 2 exRec with ⟨h, _⟩ | ⟨t, _, hl⟩
    · exact h
    · exfalso
      have h0 := hl.1
      rw [exRay_quadratic] at h0
      rcases mul_eq_zero.mp h0 with h1 | h1
      · have := hl.2.2.1; linarith
      · have := hl.2.2.1; linarith
  · have hl : IsLeastRoot (exSphere : Sphere ℝ) exRayAway (-10) 10 (-4) := by
      refine ⟨by rw [exRayAway_quadratic]; norm_num, by norm_num, by norm_num, ?_⟩
      intro u hu _ _
      rw [exRayAway_quadratic] at hu
      rcases mul_eq_zero.mp hu with h1 | h1 <;> linarith
    rw [Sphere.Hit_of_least Real.sqrt isSqrt_real exSphere exRayAway
      exRayAway_direction_ne_zero (-10) 10 exRec (-4) hl]
  · have hl : IsLeastRoot (exSphere : Sphere ℝ) exRayAway (-10) 10 (-4) := by
      refine ⟨by rw [exRayAway_quadratic]; norm_num, by norm_num, by norm_num, ?_⟩
      intro u hu _ _
      rw [exRayAway_quadratic] at hu
      rcases mul_eq_zero.mp hu with h1 | h1 <;> linarith
    rw [Sphere.Hit_of_least Real.sqrt isSqrt_real exSphere exRayAway
      exRayAway_direction_ne_zero (-10) 10 exRec (-4) hl]
    rfl

/-- Instance of C16 (amended): the hit of the unit sphere within `(0, 10)`
is not at `tMax` and is positive. -/
theorem Sphere_Hit_open_interval_witness :
    IsSqrt Real.sqrt ∧ (exRay : Ray ℝ).Direction ≠ Vec3.zero ∧
    (Sphere.Hit Real.sqrt exSphere exRay 0 10 exRec).2.T ≠ 10 ∧
    0 < (Sphere.Hit Real.sqrt exSphere exRay 0 10 exRec).2.T :=
  have hit : (Sphere.Hit Real.sqrt exSphere exRay 0 10 exRec).1 = true :=
    (Sphere.Hit_true_iff Real.sqrt isSqrt_real exSphere exRay exRay_direction_ne_zero
      0 10 exRec).mpr ⟨2, exRay_root_two, by norm_num, by norm_num⟩
  have h := (Sphere_Hit_open_interval Real.sqrt isSqrt_real exSphere exRay
    exRay_direction_ne_zero 0 10 exRec).1 hit
  ⟨isSqrt_real, exRay_direction_ne_zero, h.2.1, h.2.2 (le_refl 0)⟩

/-- Instance of C11: in the empty scene the ray from `(0,0,-3)` along `+Z`
gets the sky colour. -/
theorem ComputeColor_miss_gradient_witness :
    IsSqrt Real.sqrt ∧ (exRay : Ray ℝ).Direction ≠ Vec3.zero ∧
    ((exEmptyWorld : Hitter ℝ).Hit exRay 0.001 1000 exRec).1 = false ∧
    ComputeColor Real.sqrt 1000 1 0 exRay exEmptyWorld 7 exScattered exRec exHalf =
      .ok { color := (({ R := 1, G := 1, B := 1 } : Color ℝ).Mul
                (1 - 0.5 * (((exRay : Ray ℝ).Direction.Unit Real.sqrt).Y + 1))).Add
              (({ R := 0.5, G := 0.7, B := 1.0 } : Color ℝ).Mul
                (0.5 * (((exRay : Ray ℝ).Direction.Unit Real.sqrt).Y + 1)))
            scatterRay := exScattered
            hitRec := ((exEmptyWorld : Hitter ℝ).Hit exRay 0.001 1000 exRec).2
            rr := exHalf } :=
  ⟨isSqrt_real, exRay_direction_ne_zero, rfl,
    (ComputeColor_miss_gradient Real.sqrt isSqrt_real 1000 1 0 exRay exEmptyWorld 7
      exScattered exRec exHalf exRay_direction_ne_zero rfl).1⟩

/-- Instance of C20: the normal `(0,1,0)` and the sample `(1/2, 0, 0)`. -/
theorem Lambertian_scatter_hemisphere_witness :
    (exFlatRec : HitRecord ℝ).Normal.SquaredLength = 1 ∧
    ({ X := 1 / 2, Y := 0, Z := 0 } : Vec3 ℝ).SquaredLength < 1 ∧
    Dot (NewMaterialLambertian ({ R := 1 / 2, G := 1 / 2, B := 1 / 2 } : Color ℝ)
        { X := 1 / 2, Y := 0, Z := 0 } exRayDown exFlatRec exScattered).scattered.Direction
      (exFlatRec : HitRecord ℝ).Normal > 0 :=
  have hn : (exFlatRec : HitRecord ℝ).Normal.SquaredLength = 1 := by
    simp only [Vec3.SquaredLength, exFlatRec]; norm_num
  have hl : ({ X := 1 / 2, Y := 0, Z := 0 } : Vec3 ℝ).SquaredLength < 1 := by
    simp only [Vec3.SquaredLength]; norm_num
  ⟨hn, hl, (Lambertian_scatter_hemisphere ({ R := 1 / 2, G := 1 / 2, B := 1 / 2 } : Color ℝ)
    { X := 1 / 2, Y := 0, Z := 0 } exRayDown exFlatRec exScattered hn hl).2.2.2.2.2.1⟩

/-! ## The depth cutoff -/

theorem randomInUnitSphere_error (fuel : Nat) :
    ∀ (rr : Rand F) (e : Fault), randomInUnitSphere fuel rr = .error e → e = .loop := by
  induction fuel with
  | zero =>
    intro rr e h
    simp only [randomInUnitSphere, Except.error.injEq] at h
    exact h.symm
  | succ n ih =>
    intro rr e h
    simp only [randomInUnitSphere] at h
    split_ifs at h
    exact ih _ e h

/-- A scatter call never reports an exhausted recursion budget. -/
theorem ScatterFunc.call_error (sqrt : F → F) (fuel : Nat) (fn : ScatterFunc F)
    (rin : Ray F) (rec : HitRecord F) (scattered : Ray F) (rr : Rand F) (e : Fault)
    (h : fn.call sqrt fuel rin rec scattered rr = .error e) : e ≠ .calls := by
  cases fn with
  | Lambertian albedo =>
    simp only [ScatterFunc.call] at h
    split at h
    · rename_i e1 he
      simp only [Except.error.injEq] at h
      rw [← h, randomInUnitSphere_error fuel rr e1 he]
      decide
    · simp at h
  | Metal albedo fuzz =>
    simp only [ScatterFunc.call] at h
    split at h
    · rename_i e1 he
      simp only [Except.error.injEq] at h
      rw [← h, randomInUnitSphere_error fuel rr e1 he]
      decide
    · simp at h
  | Dialectric refIndex =>
    simp only [ScatterFunc.call] at h
    split at h
    · simp only [Except.error.injEq] at h
      rw [← h]
      decide
    · simp at h

/-- With a budget of `50 - depth` nested calls `ComputeColor` never runs out
of budget. -/
theorem ComputeColor_budget (sqrt : F → F) (maxFloat64 : F) (fuel : Nat) (h : Hitter F) :
    ∀ (calls : Nat) (r : Ray F) (depth : Int) (scatterRay : Ray F) (rec : HitRecord F)
      (rr : Rand F), (50 - depth).toNat ≤ calls →
      ComputeColor sqrt maxFloat64 fuel calls r h depth scatterRay rec rr ≠ .error .calls := by
  intro calls
  induction calls with
  | zero =>
    intro r depth scatterRay rec rr hc
    unfold ComputeColor
    simp only
    split_ifs with hit
    · split
      · simp
      · split
        · rename_i e he
          intro hh
          simp only [Except.error.injEq] at hh
          exact ScatterFunc.call_error sqrt fuel _ _ _ _ _ e he hh
        · split_ifs with hrec
          · omega
          · simp
    · simp
  | succ n ih =>
    intro r depth scatterRay rec rr hc
    unfold ComputeColor
    simp only
    split_ifs with hit
    · split
      · simp
      · split
        · rename_i e he
          intro hh
          simp only [Except.error.injEq] at hh
          exact ScatterFunc.call_error sqrt fuel _ _ _ _ _ e he hh
        · split_ifs with hrec
          · rename_i sc rr1 hcall
            have hrecur := ih sc.scattered (depth + 1) sc.scattered
              (h.Hit r 0.001 maxFloat64 rec).2 rr1 (by omega)
            split
            · rename_i e he
              intro hh
              simp only [Except.error.injEq] at hh
              rw [hh] at he
              exact hrecur he
            · simp
          · simp
    · simp

theorem Rand.drop_drop (rr : Rand F) (a b : Nat) : (rr.drop a).drop b = rr.drop (a + b) := by
  funext n
  simp only [Rand.drop]
  congr 1
  omega

theorem Rand.InUnit_drop (rr : Rand F) (k : Nat) (h : rr.InUnit) : (rr.drop k).InUnit :=
  fun n => h (n + k)

/-- The state `randomInUnitSphere` leaves is the state it got, some draws on. -/
theorem randomInUnitSphere_drop (fuel : Nat) :
    ∀ (rr : Rand F) (p : Vec3 F) (rr1 : Rand F),
      randomInUnitSphere fuel rr = .ok (p, rr1) → ∃ m, rr1 = rr.drop m := by
  induction fuel with
  | zero =>
    intro rr p rr1 h
    simp [randomInUnitSphere] at h
  | succ n ih =>
    intro rr p rr1 h
    simp only [randomInUnitSphere] at h
    split_ifs at h with hge
    · obtain ⟨m, hm⟩ := ih _ p rr1 h
      refine ⟨3 + m, ?_⟩
      rw [hm, ← Rand.drop_drop]
      rfl
    · simp only [Except.ok.injEq, Prod.mk.injEq] at h
      exact ⟨3, h.2.symm⟩

/-- With a draw below 1 the Dielectric closure returns: it never reaches the
dereference of a nil `refracted`. -/
theorem dialectric_returns (sqrt : F → F) (refIndex draw : F) (h1 : draw < 1)
    (rin : Ray F) (rec : HitRecord F) (scattered : Ray F) :
    ∃ res, NewMaterialDialectric sqrt refIndex draw rin rec scattered = some res ∧
      res.attenuation = colorWhite := by
  simp only [NewMaterialDialectric]
  generalize (if Dot rin.Direction rec.Normal > 0 then
      (rec.Normal.Mul (-1), refIndex,
        refIndex * Dot rin.Direction rec.Normal / rin.Direction.Length sqrt)
    else
      (rec.Normal, 1 / refIndex,
        -1 * Dot rin.Direction rec.Normal / rin.Direction.Length sqrt)) = branch
  generalize refract sqrt rin.Direction branch.1 branch.2.1 = refracted
  cases refracted with
  | none =>
    simp only [Option.isSome_none, Bool.false_eq_true, if_false, if_pos h1]
    exact ⟨_, rfl, rfl⟩
  | some x =>
    simp only [Option.isSome_some, if_true]
    split_ifs
    · exact ⟨_, rfl, rfl⟩
    · exact ⟨_, rfl, rfl⟩

/-- A scatter call returns when its rejection loop does and the next draw is
below 1; the state it leaves is the state it got, some draws on. -/
theorem ScatterFunc.call_returns (sqrt : F → F) (fuel : Nat) (fn : ScatterFunc F)
    (rin : Ray F) (rec : HitRecord F) (scattered : Ray F) (rr : Rand F)
    (hloop : ∃ res, randomInUnitSphere fuel rr = .ok res) (hdraw : rr 0 < 1) :
    ∃ sc m, fn.call sqrt fuel rin rec scattered rr = .ok (sc, rr.drop m) := by
  obtain ⟨⟨p, rr1⟩, hp⟩ := hloop
  obtain ⟨m, hm⟩ := randomInUnitSphere_drop fuel rr p rr1 hp
  cases fn with
  | Lambertian albedo =>
    simp only [ScatterFunc.call, hp, hm]
    exact ⟨_, m, rfl⟩
  | Metal albedo fuzz =>
    simp only [ScatterFunc.call, hp, hm]
    exact ⟨_, m, rfl⟩
  | Dialectric refIndex =>
    obtain ⟨res, hres, _⟩ := dialectric_returns sqrt refIndex (rr 0) hdraw rin rec scattered
    simp only [ScatterFunc.call, Rand.Float64, hres]
    exact ⟨res, 1, rfl⟩

/-- With a budget of `50 - depth` nested calls `ComputeColor` returns,
provided the scene never records a nil `ScatterFn`, every rejection loop
returns within `fuel` iterations and every draw is below 1. -/
theorem ComputeColor_returns (sqrt : F → F) (maxFloat64 : F) (fuel : Nat) (h : Hitter F)
    (hfn : ∀ r1 rec1, (h.Hit r1 0.001 maxFloat64 rec1).1 = true →
      (h.Hit r1 0.001 maxFloat64 rec1).2.ScatterFn ≠ none) :
    ∀ (calls : Nat) (r : Ray F) (depth : Int) (scatterRay : Ray F) (rec : HitRecord F)
      (rr : Rand F), (50 - depth).toNat ≤ calls →
      (∀ k, ∃ res, randomInUnitSphere fuel (rr.drop k) = .ok res) → rr.InUnit →
      ∃ res, ComputeColor sqrt maxFloat64 fuel calls r h depth scatterRay rec rr = .ok res := by
  intro calls
  induction calls with
  | zero =>
    intro r depth scatterRay rec rr hc hloop hunit
    unfold ComputeColor
    simp only
    split_ifs with hit
    · have hsome := hfn r rec hit
      cases hsf : (h.Hit r 0.001 maxFloat64 rec).2.ScatterFn with
      | none => exact absurd hsf hsome
      | some fn =>
        obtain ⟨sc, m, hcall⟩ := ScatterFunc.call_returns sqrt fuel fn r
          (h.Hit r 0.001 maxFloat64 rec).2 scatterRay rr (hloop 0) (hunit 0).2
        simp only [hcall]
        split_ifs with hrec
        · omega
        · exact ⟨_, rfl⟩
    · exact ⟨_, rfl⟩
  | succ n ih =>
    intro r depth scatterRay rec rr hc hloop hunit
    unfold ComputeColor
    simp only
    split_ifs with hit
    · have hsome := hfn r rec hit
      cases hsf : (h.Hit r 0.001 maxFloat64 rec).2.ScatterFn with
      | none => exact absurd hsf hsome
      | some fn =>
        obtain ⟨sc, m, hcall⟩ := ScatterFunc.call_returns sqrt fuel fn r
          (h.Hit r 0.001 maxFloat64 rec).2 scatterRay rr (hloop 0) (hunit 0).2
        simp only [hcall]
        split_ifs with hrec
        · obtain ⟨res, hres⟩ := ih sc.scattered (depth + 1) sc.scattered
            (h.Hit r 0.001 maxFloat64 rec).2 (rr.drop m) (by omega)
            (fun k => by rw [Rand.drop_drop]; exact hloop (m + k))
            (Rand.InUnit_drop rr m hunit)
          simp only [hres]
          exact ⟨_, rfl⟩
        · exact ⟨_, rfl⟩
    · exact ⟨_, rfl⟩

/-- C12: called with depth `d` and allowed `50 - d` nested recursive calls
(50 of them for a call at depth 0), `ComputeColor` never needs more, for
every scene, ray and generator state; it returns whenever its callees do (no
nil `ScatterFn`, rejection loops that return, draws below 1).  When the ray
hits and the scatter call returns, it recurses exactly when `d < 50` and the
material did not absorb, once, on the scattered ray with depth `d + 1`, and
multiplies the result by the attenuation; when `d >= 50` or the material
absorbed it returns black `(0,0,0)` with no recursive call at all. -/
theorem ComputeColor_depth_cutoff (sqrt : F → F) (maxFloat64 : F) (fuel calls : Nat)
    (r : Ray F) (h : Hitter F) (depth : Int) (scatterRay : Ray F) (rec : HitRecord F)
    (rr : Rand F) (hcalls : (50 - depth).toNat ≤ calls) :
    ComputeColor sqrt maxFloat64 fuel calls r h depth scatterRay rec rr ≠ .error .calls ∧
    ((∀ r1 rec1, (h.Hit r1 0.001 maxFloat64 rec1).1 = true →
        (h.Hit r1 0.001 maxFloat64 rec1).2.ScatterFn ≠ none) →
      (∀ k, ∃ res, randomInUnitSphere fuel (rr.drop k) = .ok res) → rr.InUnit →
      ∃ res, ComputeColor sqrt maxFloat64 fuel calls r h depth scatterRay rec rr = .ok res) ∧
    (∀ (fn : ScatterFunc F) (sc : ScatterResult F) (rr1 : Rand F),
      (h.Hit r 0.001 maxFloat64 rec).1 = true →
      (h.Hit r 0.001 maxFloat64 rec).2.ScatterFn = some fn →
      fn.call sqrt fuel r (h.Hit r 0.001 maxFloat64 rec).2 scatterRay rr = .ok (sc, rr1) →
      (depth < 50 ∧ sc.ok = true → ∀ n : Nat,
        ComputeColor sqrt maxFloat64 fuel (n + 1) r h depth scatterRay rec rr =
          match ComputeColor sqrt maxFloat64 fuel n sc.scattered h (depth + 1) sc.scattered
              (h.Hit r 0.001 maxFloat64 rec).2 rr1 with
          | .error e => .error e
          | .ok res => .ok { res with color := res.color.MulColor sc.attenuation }) ∧
      (50 ≤ depth ∨ sc.ok = false → ∀ n : Nat,
        ComputeColor sqrt maxFloat64 fuel n r h depth scatterRay rec rr =
          .ok { color := { R := 0, G := 0, B := 0 }, scatterRay := sc.scattered,
                hitRec := (h.Hit r 0.001 maxFloat64 rec).2, rr := rr1 })) := by
  refine ⟨ComputeColor_budget sqrt maxFloat64 fuel h calls r depth scatterRay rec rr hcalls,
    fun hfn hloop hunit => ComputeColor_returns sqrt maxFloat64 fuel h hfn calls r depth
      scatterRay rec rr hcalls hloop hunit, ?_⟩
  intro fn sc rr1 hit hsf hcall
  constructor
  · intro hrec n
    conv_lhs => unfold ComputeColor
    simp only [hit, hsf, hcall, if_true, hrec, and_self]
  · intro hstop n
    have hno : ¬ (depth < 50 ∧ sc.ok = true) := by
      rintro ⟨h1, h2⟩
      rcases hstop with h3 | h3
      · omega
      · rw [h3] at h2; simp at h2
    unfold ComputeColor
    simp only [hit, hsf, hcall, if_true, if_neg hno]

/-- Instance of C12: a call at depth 0 with 50 nested calls allowed. -/
theorem ComputeColor_depth_cutoff_witness :
    (50 - (0 : Int)).toNat ≤ 50 ∧
    ComputeColor Real.sqrt 1000 1 50 exRay
      (HitterList.ofSpheres Real.sqrt [exSphere, exSphereBehind] exRec).toHitter 0
      exScattered exRec exHalf ≠ .error .calls :=
  ⟨by decide,
    (ComputeColor_depth_cutoff Real.sqrt 1000 1 50 exRay
      (HitterList.ofSpheres Real.sqrt [exSphere, exSphereBehind] exRec).toHitter 0
      exScattered exRec exHalf (by decide)).1⟩

/-! ## Colours stay in the unit cube -/

theorem Sphere.Hit_true_scatterFn (sqrt : F → F) (s : Sphere F) (r : Ray F) (tMin tMax : F)
    (rec : HitRecord F) (ht : (s.Hit sqrt r tMin tMax rec).1 = true) :
    (s.Hit sqrt r tMin tMax rec).2.ScatterFn = s.ScatterFn := by
  rw [Sphere.Hit_eq] at ht ⊢
  simp only at ht ⊢
  split_ifs at ht ⊢ <;> rfl

/-- The record the loop of `HitterList.Hit` hands to the caller carries the
`ScatterFn` of a member. -/
theorem HitterList.hitLoop_scatterFn (sqrt : F → F) (P : Option (ScatterFunc F) → Prop)
    (r : Ray F) (tMin : F) :
    ∀ (l : List (Sphere F)) (st : HitLoopState F), (∀ s ∈ l, P s.ScatterFn) →
      (st.hitAnything = true → P st.callerRec.ScatterFn) →
      (HitterList.hitLoop r tMin (l.map (Sphere.toHitter sqrt)) st).hitAnything = true →
      P (HitterList.hitLoop r tMin (l.map (Sphere.toHitter sqrt)) st).callerRec.ScatterFn := by
  intro l
  induction l with
  | nil =>
    intro st _ hst hh
    exact hst hh
  | cons s rest ih =>
    intro st hP hst
    simp only [List.map, HitterList.hitLoop, Sphere.toHitter]
    have hrest : ∀ s1 ∈ rest, P s1.ScatterFn := fun s1 h1 => hP s1 (List.mem_cons_of_mem _ h1)
    cases hb : (s.Hit sqrt r tMin st.closest st.tempRec).1
    · simp only [Bool.not_false, if_true]
      exact ih { st with tempRec := (s.Hit sqrt r tMin st.closest st.tempRec).2 } hrest hst
    · simp only [Bool.not_true, Bool.false_eq_true, if_false]
      apply ih _ hrest
      intro _
      simp only
      rw [Sphere.Hit_true_scatterFn sqrt s r tMin st.closest st.tempRec hb]
      exact hP s (List.mem_cons_self _ _)

theorem HitterList.Hit_scatterFn (sqrt : F → F) (P : Option (ScatterFunc F) → Prop)
    (ss : List (Sphere F)) (tmp : HitRecord F) (hP : ∀ s ∈ ss, P s.ScatterFn)
    (r : Ray F) (tMin tMax : F) (rec : HitRecord F)
    (ht : ((HitterList.ofSpheres sqrt ss tmp).toHitter.Hit r tMin tMax rec).1 = true) :
    P ((HitterList.ofSpheres sqrt ss tmp).toHitter.Hit r tMin tMax rec).2.ScatterFn := by
  have key := HitterList.hitLoop_scatterFn sqrt P r tMin ss
    { hitAnything := false, closest := tMax, tempRec := tmp, callerRec := rec } hP
    (fun hf => by simp at hf)
  simp only [HitterList.toHitter, HitterList.Hit, HitterList.ofSpheres] at ht ⊢
  split_ifs at ht ⊢ with h1
  simp only [Bool.not_eq_true', Bool.not_eq_false] at h1
  exact key h1

/-- The attenuation a good material returns has its channels in `[0, 1]`. -/
theorem ScatterFunc.call_attenuation (sqrt : F → F) (fuel : Nat) (fn : ScatterFunc F)
    (hgood : GoodMaterial (some fn))
    (rin : Ray F) (rec : HitRecord F) (scattered : Ray F) (rr rr1 : Rand F)
    (sc : ScatterResult F) (h : fn.call sqrt fuel rin rec scattered rr = .ok (sc, rr1)) :
    sc.attenuation.InUnit := by
  cases fn with
  | Lambertian albedo =>
    simp only [ScatterFunc.call] at h
    split at h
    · simp at h
    · simp only [Except.ok.injEq, Prod.mk.injEq] at h
      rw [← h.1]
      exact hgood
  | Metal albedo fuzz =>
    simp only [ScatterFunc.call] at h
    split at h
    · simp at h
    · simp only [Except.ok.injEq, Prod.mk.injEq] at h
      rw [← h.1]
      exact hgood
  | Dialectric refIndex =>
    simp only [ScatterFunc.call] at h
    split at h
    · simp at h
    · rename_i res hres
      simp only [Except.ok.injEq, Prod.mk.injEq] at h
      rw [← h.1]
      have hw : res.attenuation = colorWhite := by
        simp only [NewMaterialDialectric] at hres
        split_ifs at hres
        all_goals first
          | (simp only [Option.some.injEq] at hres; rw [← hres])
          | (split at hres
             · simp at hres
             · simp only [Option.some.injEq] at hres; rw [← hres])
      rw [hw]
      simp [Color.InUnit, colorWhite]

/-- The `Y` component of a unit vector lies in `[-1, 1]`. -/
theorem unit_Y_bounds (sqrt : F → F) (hs : IsSqrt sqrt) (v : Vec3 F) :
    -1 ≤ (v.Unit sqrt).Y ∧ (v.Unit sqrt).Y ≤ 1 := by
  have h0 : 0 ≤ v.SquaredLength := by
    simp only [Vec3.SquaredLength]
    nlinarith [mul_self_nonneg v.X, mul_self_nonneg v.Y, mul_self_nonneg v.Z]
  obtain ⟨h1, h2⟩ := hs _ h0
  simp only [Vec3.Unit, Vec3.Length]
  generalize sqrt v.SquaredLength = L at h1 h2
  simp only [Vec3.SquaredLength] at h2
  rcases h1.lt_or_eq with hpos | hz
  · have hY : v.Y * v.Y ≤ L * L := by
      nlinarith [mul_self_nonneg v.X, mul_self_nonneg v.Z]
    have habs : |v.Y| ≤ L := by
      apply abs_le.mpr
      constructor <;> nlinarith
    rw [abs_le] at habs
    constructor
    · rw [le_div_iff₀ hpos]; linarith
    · rw [div_le_iff₀ hpos]; linarith
  · rw [← hz]
    simp

theorem Color.InUnit_MulColor (a b : Color F) (ha : a.InUnit) (hb : b.InUnit) :
    (a.MulColor b).InUnit := by
  obtain ⟨a1, a2, a3, a4, a5, a6⟩ := ha
  obtain ⟨b1, b2, b3, b4, b5, b6⟩ := hb
  simp only [Color.InUnit, Color.MulColor]
  exact ⟨mul_nonneg a1 b1, mul_le_one₀ a2 b1 b2, mul_nonneg a3 b3, mul_le_one₀ a4 b3 b4,
    mul_nonneg a5 b5, mul_le_one₀ a6 b5 b6⟩

/-- The sky colour has its channels in `[0, 1]`. -/
theorem sky_InUnit (y : F) (h1 : -1 ≤ y) (h2 : y ≤ 1) :
    ((({ R := 1, G := 1, B := 1 } : Color F).Mul (1 - 0.5 * (y + 1.0))).Add
      (({ R := 0.5, G := 0.7, B := 1.0 } : Color F).Mul (0.5 * (y + 1.0)))).InUnit := by
  simp only [Color.InUnit, Color.Mul, Color.Add]
  norm_num
  refine ⟨?_, ?_, ?_, ?_⟩ <;> linarith

/-- Every colour `ComputeColor` returns for a list of spheres with good
materials has its channels in `[0, 1]`. -/
theorem ComputeColor_InUnit (sqrt : F → F) (hs : IsSqrt sqrt) (maxFloat64 : F) (fuel : Nat)
    (ss : List (Sphere F)) (tmp : HitRecord F) (hgood : ∀ s ∈ ss, GoodMaterial s.ScatterFn) :
    ∀ (calls : Nat) (r : Ray F) (depth : Int) (scatterRay : Ray F) (rec : HitRecord F)
      (rr : Rand F) (res : ColorResult F),
      ComputeColor sqrt maxFloat64 fuel calls r (HitterList.ofSpheres sqrt ss tmp).toHitter
        depth scatterRay rec rr = .ok res → res.color.InUnit := by
  have hblack : ({ R := 0, G := 0, B := 0 } : Color F).InUnit := by
    simp [Color.InUnit]
  intro calls
  induction calls with
  | zero =>
    intro r depth scatterRay rec rr res h
    unfold ComputeColor at h
    simp only at h
    split_ifs at h with hit
    · have hg := HitterList.Hit_scatterFn sqrt GoodMaterial ss tmp hgood r 0.001 maxFloat64 rec hit
      split at h
      · simp at h
      · rename_i fn hfn
        rw [hfn] at hg
        split at h
        · simp at h
        · rename_i sc rr1 hcall
          split_ifs at h with hrec
          · simp only [Except.ok.injEq] at h
            rw [← h]
            exact hblack
    · simp only [Except.ok.injEq] at h
      rw [← h]
      exact sky_InUnit _ (unit_Y_bounds sqrt hs _).1 (unit_Y_bounds sqrt hs _).2
  | succ n ih =>
    intro r depth scatterRay rec rr res h
    unfold ComputeColor at h
    simp only at h
    split_ifs at h with hit
    · have hg := HitterList.Hit_scatterFn sqrt GoodMaterial ss tmp hgood r 0.001 maxFloat64 rec hit
      split at h
      · simp at h
      · rename_i fn hfn
        rw [hfn] at hg
        split at h
        · simp at h
        · rename_i sc rr1 hcall
          have hatt := ScatterFunc.call_attenuation sqrt fuel fn hg _ _ _ _ _ sc hcall
          split_ifs at h with hrec
          · split at h
            · simp at h
            · rename_i res1 hres1
              simp only [Except.ok.injEq] at h
              rw [← h]
              exact Color.InUnit_MulColor _ _ (ih _ _ _ _ _ res1 hres1) hatt
          · simp only [Except.ok.injEq] at h
            rw [← h]
            exact hblack
    · simp only [Except.ok.injEq] at h
      rw [← h]
      exact sky_InUnit _ (unit_Y_bounds sqrt hs _).1 (unit_Y_bounds sqrt hs _).2

/-- The sum the sample loop of `Render` accumulates grows by at most 1 per
sample in every channel. -/
theorem Render.sample_sum_bounds (sqrt : F → F) (hs : IsSqrt sqrt) (maxFloat64 : F)
    (fuel calls : Nat) (ss : List (Sphere F)) (tmp : HitRecord F)
    (hgood : ∀ s ∈ ss, GoodMaterial s.ScatterFn) (width height : Nat) (camera : Camera F)
    (i j : Nat) :
    ∀ (ks : List Nat) (c : Color F) (st : RenderState F) (c1 : Color F) (st1 : RenderState F),
      forEach (Render.sample sqrt maxFloat64 fuel calls width height camera
        (HitterList.ofSpheres sqrt ss tmp).toHitter i j) ks (c, st) = .ok (c1, st1) →
      (c.R ≤ c1.R ∧ c1.R ≤ c.R + ks.length) ∧ (c.G ≤ c1.G ∧ c1.G ≤ c.G + ks.length) ∧
      (c.B ≤ c1.B ∧ c1.B ≤ c.B + ks.length) := by
  intro ks
  induction ks with
  | nil =>
    intro c st c1 st1 h
    simp only [forEach, Except.ok.injEq, Prod.mk.injEq] at h
    rw [← h.1]
    simp
  | cons k ks ih =>
    intro c st c1 st1 h
    simp only [forEach] at h
    split at h
    · simp at h
    · rename_i x hx
      obtain ⟨c2, st2⟩ := x
      have hstep : (c.R ≤ c2.R ∧ c2.R ≤ c.R + 1) ∧ (c.G ≤ c2.G ∧ c2.G ≤ c.G + 1) ∧
          (c.B ≤ c2.B ∧ c2.B ≤ c.B + 1) := by
        simp only [Render.sample] at hx
        split at hx
        · simp at hx
        · split at hx
          · simp at hx
          · rename_i res hres
            have hin := ComputeColor_InUnit sqrt hs maxFloat64 fuel ss tmp hgood _ _ _ _ _ _
              res hres
            simp only [Except.ok.injEq, Prod.mk.injEq] at hx
            rw [← hx.1]
            obtain ⟨a1, a2, a3, a4, a5, a6⟩ := hin
            simp only [Color.Add]
            refine ⟨⟨?_, ?_⟩, ⟨?_, ?_⟩, ⟨?_, ?_⟩⟩ <;> linarith
      have hrest := ih c2 st2 c1 st1 h
      simp only [List.length_cons, Nat.cast_add, Nat.cast_one]
      obtain ⟨⟨p1, p2⟩, ⟨p3, p4⟩, ⟨p5, p6⟩⟩ := hstep
      obtain ⟨⟨q1, q2⟩, ⟨q3, q4⟩, ⟨q5, q6⟩⟩ := hrest
      refine ⟨⟨?_, ?_⟩, ⟨?_, ?_⟩, ⟨?_, ?_⟩⟩ <;> linarith

/-- C19 (amended): in exact arithmetic (`F` a linearly ordered field, `sqrt`
an exact square root), for a scene that is a list of spheres of non-zero
radius whose materials are Lambertian or Metal with every albedo channel in
`[0, 1]`, or Dielectric, every ray with non-zero direction, every depth and
every generator state, each channel of the colour `ComputeColor` returns
lies in `[0, 1]`; so `255.99 * channel < 256`, and the average of the
samples of a pixel has its channels in `[0, 1]` as well and stays below 256
after the multiplication. -/
theorem ComputeColor_channels_in_unit (sqrt : F → F) (hs : IsSqrt sqrt) (maxFloat64 : F)
    (fuel calls : Nat) (ss : List (Sphere F)) (tmp : HitRecord F)
    (hgood : ∀ s ∈ ss, GoodMaterial s.ScatterFn)
    (_hrad : ∀ s ∈ ss, s.Radius ≠ 0)
    (r : Ray F) (_hd : r.Direction ≠ Vec3.zero)
    (depth : Int) (scatterRay : Ray F) (rec : HitRecord F) (rr : Rand F)
    (res : ColorResult F)
    (hres : ComputeColor sqrt maxFloat64 fuel calls r
      (HitterList.ofSpheres sqrt ss tmp).toHitter depth scatterRay rec rr = .ok res) :
    res.color.InUnit ∧
    (255.99 * res.color.R < 256 ∧ 255.99 * res.color.G < 256 ∧ 255.99 * res.color.B < 256) ∧
    (∀ (width height : Nat) (camera : Camera F) (i j : Nat) (samples : Int)
        (st st1 : RenderState F) (c1 : Color F), 0 < samples →
      forEach (Render.sample sqrt maxFloat64 fuel calls width height camera
          (HitterList.ofSpheres sqrt ss tmp).toHitter i j)
        (List.range samples.toNat) ({ R := 0, G := 0, B := 0 }, st) = .ok (c1, st1) →
      (c1.Div (samples : F)).InUnit ∧
      255.99 * (c1.Div (samples : F)).R < 256 ∧ 255.99 * (c1.Div (samples : F)).G < 256 ∧
      255.99 * (c1.Div (samples : F)).B < 256) := by
  have hin := ComputeColor_InUnit sqrt hs maxFloat64 fuel ss tmp hgood calls r depth scatterRay
    rec rr res hres
  have hlt : ∀ x : F, x ≤ 1 → 255.99 * x < 256 := by
    intro x hx
    norm_num
    linarith
  refine ⟨hin, ⟨hlt _ hin.2.1, hlt _ hin.2.2.2.1, hlt _ hin.2.2.2.2.2⟩, ?_⟩
  intro width height camera i j samples st st1 c1 hpos hloop
  have hb := Render.sample_sum_bounds sqrt hs maxFloat64 fuel calls ss tmp hgood width height
    camera i j _ _ _ _ _ hloop
  have hcast : ((List.range samples.toNat).length : F) = (samples : F) := by
    rw [List.length_range]
    have h2 : ((samples.toNat : Nat) : F) = ((samples.toNat : Int) : F) :=
      (Int.cast_natCast _).symm
    rw [h2, Int.toNat_of_nonneg hpos.le]
  rw [hcast] at hb
  have hsp : (0 : F) < (samples : F) := by exact_mod_cast hpos
  simp only [zero_add] at hb
  obtain ⟨⟨p1, p2⟩, ⟨p3, p4⟩, ⟨p5, p6⟩⟩ := hb
  have havg : (c1.Div (samples : F)).InUnit := by
    simp only [Color.InUnit, Color.Div]
    exact ⟨div_nonneg p1 hsp.le, (div_le_one hsp).mpr p2, div_nonneg p3 hsp.le,
      (div_le_one hsp).mpr p4, div_nonneg p5 hsp.le, (div_le_one hsp).mpr p6⟩
  exact ⟨havg, hlt _ havg.2.1, hlt _ havg.2.2.2.1, hlt _ havg.2.2.2.2.2⟩

theorem exHalf_InUnit : (exHalf : Rand ℝ).InUnit := by
  intro n
  simp only [exHalf]
  norm_num

theorem randomInUnitSphere_exHalf (fuel : Nat) :
    randomInUnitSphere (fuel + 1) (exHalf : Rand ℝ) =
      .ok ({ X := 0, Y := 0, Z := 0 }, exHalf) := by
  simp only [randomInUnitSphere, exHalf_Float64, Vec3.Mul, Vec3.Sub, Vec3.SquaredLength]
  norm_num

theorem exSpheres_good :
    ∀ s ∈ [(exSphere : Sphere ℝ), exSphereBehind], GoodMaterial s.ScatterFn := by
  intro s hmem
  simp only [List.mem_cons, List.mem_singleton, List.not_mem_nil, or_false] at hmem
  rcases hmem with h | h <;> rw [h]
  · simp only [exSphere, GoodMaterial, Color.InUnit]
    norm_num
  · simp only [exSphereBehind, GoodMaterial]

theorem exSpheres_radius :
    ∀ s ∈ [(exSphere : Sphere ℝ), exSphereBehind], s.Radius ≠ 0 := by
  intro s hmem
  simp only [List.mem_cons, List.mem_singleton, List.not_mem_nil, or_false] at hmem
  rcases hmem with rfl | rfl
  · simp [exSphere]
  · simp [exSphereBehind]

/-- Instance of C19: the two example spheres, the ray along `+Z` and the
generator that always draws `1/2`. -/
theorem ComputeColor_channels_in_unit_witness :
    IsSqrt Real.sqrt ∧
    (∀ s ∈ [(exSphere : Sphere ℝ), exSphereBehind], GoodMaterial s.ScatterFn) ∧
    (∀ s ∈ [(exSphere : Sphere ℝ), exSphereBehind], s.Radius ≠ 0) ∧
    (exRay : Ray ℝ).Direction ≠ Vec3.zero ∧
    ∃ res, ComputeColor Real.sqrt 1000 1 50 exRay
        (HitterList.ofSpheres Real.sqrt [exSphere, exSphereBehind] exRec).toHitter 0
        exScattered exRec exHalf = .ok res ∧ res.color.InUnit := by
  refine ⟨isSqrt_real, exSpheres_good, exSpheres_radius, exRay_direction_ne_zero, ?_⟩
  obtain ⟨res, hres⟩ := ComputeColor_returns Real.sqrt 1000 1
    (HitterList.ofSpheres Real.sqrt [exSphere, exSphereBehind] exRec).toHitter
    (fun r1 rec1 hit => by
      have hg := HitterList.Hit_scatterFn Real.sqrt GoodMaterial _ exRec exSpheres_good
        r1 0.001 1000 rec1 hit
      intro hnone
      rw [hnone] at hg
      exact hg)
    50 exRay 0 exScattered exRec exHalf (by decide)
    (fun k => ⟨_, randomInUnitSphere_exHalf 0⟩) exHalf_InUnit
  exact ⟨res, hres, (ComputeColor_channels_in_unit Real.sqrt isSqrt_real 1000 1 50
    [exSphere, exSphereBehind] exRec exSpheres_good exSpheres_radius exRay
    exRay_direction_ne_zero 0 exScattered exRec exHalf res hres).1⟩

/-! ## The pixels written and the camera samples -/

/-- A loop whose iteration `k` appends `f k` to a list kept in the state
appends the concatenation of the `f k`. -/
theorem forEach_flatMap {σ α : Type} (proj : σ → List α) (f : Nat → List α)
    (body : Nat → σ → Except Fault σ)
    (hbody : ∀ k st st1, body k st = .ok st1 → proj st1 = proj st ++ f k) :
    ∀ (ks : List Nat) (st st1 : σ), forEach body ks st = .ok st1 →
      proj st1 = proj st ++ ks.flatMap f := by
  intro ks
  induction ks with
  | nil =>
    intro st st1 h
    simp only [forEach, Except.ok.injEq] at h
    rw [← h]
    simp
  | cons k ks ih =>
    intro st st1 h
    simp only [forEach] at h
    split at h
    · simp at h
    · rename_i st2 h2
      rw [ih st2 st1 h, hbody k st st2 h2, List.flatMap_cons, List.append_assoc]

/-- The coordinates `Render` writes, in the order of the calls of `Set`. -/
theorem Render_coords [FloorRing F] (sqrt : F → F) (maxFloat64 : F) (wrap : F → Nat)
    (fuel calls : Nat) (width height : Nat) (samples : Int)
    (camera : Camera F) (world : Hitter F) (rr : Rand F) (st : RenderState F)
    (hres : Render sqrt maxFloat64 wrap fuel calls width height samples camera world rr
      = .ok st) :
    st.img.map (fun c => (c.x, c.y)) =
      (List.range height).reverse.flatMap
        (fun i => (List.range width).flatMap (fun j => [(j, (height - 1) - i)])) := by
  have hpix : ∀ (i k : Nat) (s1 s2 : RenderState F),
      Render.pixel sqrt maxFloat64 wrap fuel calls width height samples camera world i k s1
        = .ok s2 →
      s2.img.map (fun c => (c.x, c.y)) =
        s1.img.map (fun c => (c.x, c.y)) ++ [(k, (height - 1) - i)] := by
    intro i k s1 s2 h
    obtain ⟨c, s3, _, h2, h3⟩ := Render.pixel_ok sqrt maxFloat64 wrap fuel calls width height
      samples camera world i k s1 s2 h
    rw [h3, h2]
    simp
  have hrow : ∀ (i : Nat) (s1 s2 : RenderState F),
      forEach (Render.pixel sqrt maxFloat64 wrap fuel calls width height samples camera world i)
        (List.range width) s1 = .ok s2 →
      s2.img.map (fun c => (c.x, c.y)) =
        s1.img.map (fun c => (c.x, c.y)) ++
          (List.range width).flatMap (fun j => [(j, (height - 1) - i)]) := by
    intro i s1 s2 h
    exact forEach_flatMap (fun s : RenderState F => s.img.map (fun c => (c.x, c.y)))
      (fun j => [(j, (height - 1) - i)]) _ (hpix i) _ s1 s2 h
  have hall := forEach_flatMap (fun s : RenderState F => s.img.map (fun c => (c.x, c.y)))
    (fun i => (List.range width).flatMap (fun j => [(j, (height - 1) - i)])) _ hrow _ _ st hres
  simpa using hall

/-- Every pixel of the grid occurs among the coordinates, and no coordinate
occurs twice. -/
theorem grid_nodup_mem (width height : Nat) :
    ((List.range height).reverse.flatMap
        (fun i => (List.range width).flatMap (fun j => [(j, (height - 1) - i)]))).Nodup ∧
    ∀ x y, x < width → y < height →
      (x, y) ∈ (List.range height).reverse.flatMap
        (fun i => (List.range width).flatMap (fun j => [(j, (height - 1) - i)])) := by
  constructor
  · rw [List.nodup_flatMap]
    constructor
    · intro i _
      rw [List.nodup_flatMap]
      constructor
      · intro j _
        exact List.nodup_singleton _
      · apply List.Nodup.pairwise_of_forall_ne (List.nodup_range width)
        intro a _ b _ hab
        simp only [Function.onFun]
        intro p hp1 hp2
        rw [List.mem_singleton] at hp1 hp2
        rw [hp1] at hp2
        simp only [Prod.mk.injEq] at hp2
        exact hab hp2.1
    · apply List.Nodup.pairwise_of_forall_ne (List.nodup_reverse.mpr (List.nodup_range height))
      intro a ha b hb hab
      rw [List.mem_reverse, List.mem_range] at ha hb
      simp only [Function.onFun]
      intro p hp1 hp2
      simp only [List.mem_flatMap, List.mem_range, List.mem_singleton] at hp1 hp2
      obtain ⟨j1, _, e1⟩ := hp1
      obtain ⟨j2, _, e2⟩ := hp2
      rw [e1] at e2
      simp only [Prod.mk.injEq] at e2
      omega
  · intro x y hx hy
    simp only [List.mem_flatMap, List.mem_reverse, List.mem_range, List.mem_singleton,
      Prod.mk.injEq]
    exact ⟨height - 1 - y, by omega, x, hx, rfl, by omega⟩

/-- The camera sample of loop indices `(i, j)` lies in the cell of the pixel. -/
theorem Render.sampleUV_bounds (width height i j : Nat) (rr : Rand F) (hw : j < width)
    (hh : i < height) (hu : rr.InUnit) :
    (j : F) / width ≤ (Render.sampleUV width height i j rr).1.1 ∧
    (Render.sampleUV width height i j rr).1.1 < ((j : F) + 1) / width ∧
    (i : F) / height ≤ (Render.sampleUV width height i j rr).1.2 ∧
    (Render.sampleUV width height i j rr).1.2 < ((i : F) + 1) / height := by
  have hwp : (0 : F) < (width : F) := by
    have : 0 < width := by omega
    exact_mod_cast this
  have hhp : (0 : F) < (height : F) := by
    have : 0 < height := by omega
    exact_mod_cast this
  have h0 := hu 0
  have h1 := hu 1
  simp only [Render.sampleUV, Rand.Float64, zero_add]
  refine ⟨?_, ?_, ?_, ?_⟩
  · exact div_le_div_of_nonneg_right (by linarith) hwp.le
  · exact div_lt_div_of_pos_right (by linarith) hwp
  · exact div_le_div_of_nonneg_right (by linarith) hhp.le
  · exact div_lt_div_of_pos_right (by linarith) hhp

/-- C14: for `width > 0` and `height > 0`, a render that returns has written
every pixel `(x, y)` of the grid, no pixel twice and nothing outside the
grid.  The pixel `(x, y)` is written in the iteration `i = height-1-y`,
`j = x`, and every camera sample `(u, v)` of that iteration, drawn from a
generator whose draws lie in `[0,1)`, satisfies
`x/width <= u < (x+1)/width` and `(height-1-y)/height <= v < (height-y)/height`,
so `u` and `v` lie in `[0,1)` and a lower image row gets a smaller `v`. -/
theorem Render_pixels_once [FloorRing F] (sqrt : F → F) (maxFloat64 : F) (wrap : F → Nat)
    (fuel calls : Nat) (width height : Nat) (samples : Int)
    (camera : Camera F) (world : Hitter F) (rr : Rand F) (st : RenderState F)
    (hw : 0 < width) (hh : 0 < height)
    (hres : Render sqrt maxFloat64 wrap fuel calls width height samples camera world rr
      = .ok st) :
    (st.img.map (fun c => (c.x, c.y))).Nodup ∧
    (∀ x y, x < width → y < height → (x, y) ∈ st.img.map (fun c => (c.x, c.y))) ∧
    (∀ c ∈ st.img, c.x < width ∧ c.y < height) ∧
    (∀ (i j : Nat) (s1 s2 : RenderState F),
      Render.pixel sqrt maxFloat64 wrap fuel calls width height samples camera world i j s1
        = .ok s2 →
      ∃ clr, s2.img = s1.img ++ [{ x := j, y := (height - 1) - i, clr := clr }]) ∧
    (∀ (x y : Nat) (rr1 : Rand F), x < width → y < height → rr1.InUnit →
      (x : F) / width ≤ (Render.sampleUV width height (height - 1 - y) x rr1).1.1 ∧
      (Render.sampleUV width height (height - 1 - y) x rr1).1.1 < ((x : F) + 1) / width ∧
      (((height - 1 - y : Nat) : F)) / height
        ≤ (Render.sampleUV width height (height - 1 - y) x rr1).1.2 ∧
      (Render.sampleUV width height (height - 1 - y) x rr1).1.2
        < (((height - y : Nat) : F)) / height ∧
      0 ≤ (Render.sampleUV width height (height - 1 - y) x rr1).1.1 ∧
      (Render.sampleUV width height (height - 1 - y) x rr1).1.1 < 1 ∧
      0 ≤ (Render.sampleUV width height (height - 1 - y) x rr1).1.2 ∧
      (Render.sampleUV width height (height - 1 - y) x rr1).1.2 < 1) ∧
    (∀ (x1 x2 y1 y2 : Nat) (rr1 rr2 : Rand F), y1 < y2 → y2 < height →
      x1 < width → x2 < width → rr1.InUnit → rr2.InUnit →
      (Render.sampleUV width height (height - 1 - y2) x2 rr2).1.2
        < (Render.sampleUV width height (height - 1 - y1) x1 rr1).1.2) := by
  have hwp : (0 : F) < (width : F) := by exact_mod_cast hw
  have hhp : (0 : F) < (height : F) := by exact_mod_cast hh
  have hco := Render_coords sqrt maxFloat64 wrap fuel calls width height samples camera world
    rr st hres
  have hgrid := grid_nodup_mem width height
  have hcell : ∀ (x y : Nat) (rr1 : Rand F), x < width → y < height → rr1.InUnit →
      (x : F) / width ≤ (Render.sampleUV width height (height - 1 - y) x rr1).1.1 ∧
      (Render.sampleUV width height (height - 1 - y) x rr1).1.1 < ((x : F) + 1) / width ∧
      (((height - 1 - y : Nat) : F)) / height
        ≤ (Render.sampleUV width height (height - 1 - y) x rr1).1.2 ∧
      (Render.sampleUV width height (height - 1 - y) x rr1).1.2
        < (((height - y : Nat) : F)) / height := by
    intro x y rr1 hx hy hu
    have hb := Render.sampleUV_bounds width height (height - 1 - y) x rr1 hx (by omega) hu
    have hc : (((height - y : Nat) : F)) = ((height - 1 - y : Nat) : F) + 1 := by
      have : height - y = (height - 1 - y) + 1 := by omega
      rw [this]
      push_cast
      ring
    rw [hc]
    exact hb
  refine ⟨?_, ?_, ?_, ?_, ?_, ?_⟩
  · rw [hco]; exact hgrid.1
  · intro x y hx hy
    rw [hco]; exact hgrid.2 x y hx hy
  · intro c hc
    have hmem : (c.x, c.y) ∈ st.img.map (fun c => (c.x, c.y)) :=
      List.mem_map.mpr ⟨c, hc, rfl⟩
    rw [hco] at hmem
    simp only [List.mem_flatMap, List.mem_reverse, List.mem_range, List.mem_singleton,
      Prod.mk.injEq] at hmem
    obtain ⟨i, hi, j, hj, e1, e2⟩ := hmem
    constructor <;> omega
  · intro i j s1 s2 h
    obtain ⟨c, s3, _, h2, h3⟩ := Render.pixel_ok sqrt maxFloat64 wrap fuel calls width height
      samples camera world i j s1 s2 h
    refine ⟨Render.toRGBA wrap (c.Div (samples : F)), ?_⟩
    rw [h3, h2]
  · intro x y rr1 hx hy hu
    obtain ⟨b1, b2, b3, b4⟩ := hcell x y rr1 hx hy hu
    have hx1 : ((x : F) + 1) / width ≤ 1 := by
      rw [div_le_one hwp]
      have : x + 1 ≤ width := by omega
      exact_mod_cast this
    have hy1 : (((height - y : Nat) : F)) / height ≤ 1 := by
      rw [div_le_one hhp]
      have : height - y ≤ height := by omega
      exact_mod_cast this
    have hx0 : (0 : F) ≤ (x : F) / width := by positivity
    have hy0 : (0 : F) ≤ (((height - 1 - y : Nat) : F)) / height := by positivity
    exact ⟨b1, b2, b3, b4, le_trans hx0 b1, lt_of_lt_of_le b2 hx1, le_trans hy0 b3,
      lt_of_lt_of_le b4 hy1⟩
  · intro x1 x2 y1 y2 rr1 rr2 hy hy2 hx1 hx2 hu1 hu2
    obtain ⟨_, _, b3, _⟩ := hcell x1 y1 rr1 hx1 (by omega) hu1
    obtain ⟨_, _, _, c4⟩ := hcell x2 y2 rr2 hx2 hy2 hu2
    have hle : (((height - y2 : Nat) : F)) / height ≤ (((height - 1 - y1 : Nat) : F)) / height := by
      apply div_le_div_of_nonneg_right _ hhp.le
      have : height - y2 ≤ height - 1 - y1 := by omega
      exact_mod_cast this
    exact lt_of_lt_of_le c4 (le_trans hle b3)

/-- Instance of C14: the render of one pixel of the empty scene. -/
theorem Render_pixels_once_witness :
    0 < 1 ∧
    Render Real.sqrt 1000 (fun _ => 0) 1 0 1 1 1 exCamera exEmptyWorld exHalf =
      .ok { img := [{ x := 0, y := 0
                      clr := Render.toRGBA (fun _ => 0)
                        ({ R := 3 / 4, G := 17 / 20, B := 1 } : Color ℝ) }]
            scatterRay := exScattered, hitRec := exRec, rr := exHalf } ∧
    ∀ x y, x < 1 → y < 1 →
      (x, y) ∈ ([{ x := 0, y := 0
                   clr := Render.toRGBA (fun _ => 0)
                     ({ R := 3 / 4, G := 17 / 20, B := 1 } : Color ℝ) }] : List SetCall).map
        (fun c => (c.x, c.y)) :=
  ⟨Nat.zero_lt_one, Render_exEmptyWorld 1000 (fun _ => 0) 0 0,
    (Render_pixels_once Real.sqrt 1000 (fun _ => 0) 1 0 1 1 1 exCamera exEmptyWorld exHalf _
      Nat.zero_lt_one Nat.zero_lt_one (Render_exEmptyWorld 1000 (fun _ => 0) 0 0)).2.1⟩

/-! ## Determinism -/

/-- A rejection loop that returns within `fuel` iterations returns the same
with any larger cut-off. -/
theorem randomInUnitSphere_mono (fuel : Nat) :
    ∀ (rr : Rand F) (a : Vec3 F × Rand F), randomInUnitSphere fuel rr = .ok a →
      ∀ fuel2, fuel ≤ fuel2 → randomInUnitSphere fuel2 rr = .ok a := by
  induction fuel with
  | zero =>
    intro rr a h
    simp [randomInUnitSphere] at h
  | succ n ih =>
    intro rr a h fuel2 hle
    obtain ⟨m, rfl⟩ : ∃ m, fuel2 = m + 1 := ⟨fuel2 - 1, by omega⟩
    simp only [randomInUnitSphere] at h ⊢
    split_ifs at h ⊢ with hge
    · exact ih _ a h m (by omega)
    · exact h

theorem randomInUnitDisk_mono (fuel : Nat) :
    ∀ (rr : Rand F) (a : Vec3 F × Rand F), randomInUnitDisk fuel rr = .ok a →
      ∀ fuel2, fuel ≤ fuel2 → randomInUnitDisk fuel2 rr = .ok a := by
  induction fuel with
  | zero =>
    intro rr a h
    simp [randomInUnitDisk] at h
  | succ n ih =>
    intro rr a h fuel2 hle
    obtain ⟨m, rfl⟩ : ∃ m, fuel2 = m + 1 := ⟨fuel2 - 1, by omega⟩
    simp only [randomInUnitDisk] at h ⊢
    split_ifs at h ⊢ with hge
    · exact ih _ a h m (by omega)
    · exact h

theorem ScatterFunc.call_mono (sqrt : F → F) (fuel fuel2 : Nat) (hle : fuel ≤ fuel2)
    (fn : ScatterFunc F) (rin : Ray F) (rec : HitRecord F) (scattered : Ray F) (rr : Rand F)
    (a : ScatterResult F × Rand F)
    (h : fn.call sqrt fuel rin rec scattered rr = .ok a) :
    fn.call sqrt fuel2 rin rec scattered rr = .ok a := by
  cases fn with
  | Lambertian albedo =>
    simp only [ScatterFunc.call] at h ⊢
    split at h
    · simp at h
    · rename_i sample rr1 hs
      rw [randomInUnitSphere_mono fuel rr _ hs fuel2 hle]
      exact h
  | Metal albedo fuzz =>
    simp only [ScatterFunc.call] at h ⊢
    split at h
    · simp at h
    · rename_i sample rr1 hs
      rw [randomInUnitSphere_mono fuel rr _ hs fuel2 hle]
      exact h
  | Dialectric refIndex =>
    exact h

/-- A call of `ComputeColor` that returns within the cut-offs returns the
same with any larger cut-offs. -/
theorem ComputeColor_mono (sqrt : F → F) (maxFloat64 : F) (fuel fuel2 : Nat)
    (hle : fuel ≤ fuel2) (h : Hitter F) :
    ∀ (calls : Nat) (r : Ray F) (depth : Int) (scatterRay : Ray F) (rec : HitRecord F)
      (rr : Rand F) (res : ColorResult F),
      ComputeColor sqrt maxFloat64 fuel calls r h depth scatterRay rec rr = .ok res →
      ∀ calls2, calls ≤ calls2 →
        ComputeColor sqrt maxFloat64 fuel2 calls2 r h depth scatterRay rec rr = .ok res := by
  intro calls
  induction calls with
  | zero =>
    intro r depth scatterRay rec rr res hres calls2 _
    unfold ComputeColor at hres ⊢
    simp only at hres ⊢
    split_ifs at hres ⊢ with hit
    · split at hres
      · simp at hres
      · rename_i fn hfn
        split at hres
        · simp at hres
        · rename_i sc rr1 hcall
          simp only [ScatterFunc.call_mono sqrt fuel fuel2 hle fn _ _ _ _ _ hcall]
          split_ifs at hres ⊢ with hrec
          exact hres
    · exact hres
  | succ n ih =>
    intro r depth scatterRay rec rr res hres calls2 hc
    obtain ⟨m, rfl⟩ : ∃ m, calls2 = m + 1 := ⟨calls2 - 1, by omega⟩
    unfold ComputeColor at hres ⊢
    simp only at hres ⊢
    split_ifs at hres ⊢ with hit
    · split at hres
      · simp at hres
      · rename_i fn hfn
        split at hres
        · simp at hres
        · rename_i sc rr1 hcall
          simp only [ScatterFunc.call_mono sqrt fuel fuel2 hle fn _ _ _ _ _ hcall]
          split_ifs at hres ⊢ with hrec
          · split at hres
            · simp at hres
            · rename_i res1 hres1
              simp only [ih _ _ _ _ _ res1 hres1 m (by omega)]
              exact hres
          · exact hres
    · exact hres

/-- A loop that returns keeps its result when every iteration keeps its own. -/
theorem forEach_mono {σ : Type} (body1 body2 : Nat → σ → Except Fault σ)
    (hbody : ∀ k st st1, body1 k st = .ok st1 → body2 k st = .ok st1) :
    ∀ (ks : List Nat) (st st1 : σ), forEach body1 ks st = .ok st1 →
      forEach body2 ks st = .ok st1 := by
  intro ks
  induction ks with
  | nil =>
    intro st st1 h
    exact h
  | cons k ks ih =>
    intro st st1 h
    simp only [forEach] at h ⊢
    split at h
    · simp at h
    · rename_i st2 h2
      rw [hbody k st st2 h2]
      exact ih st2 st1 h

/-- A render that returns within the cut-offs returns the same with any
larger cut-offs. -/
theorem Render_mono [FloorRing F] (sqrt : F → F) (maxFloat64 : F) (wrap : F → Nat)
    (fuel fuel2 calls calls2 : Nat) (hf : fuel ≤ fuel2) (hc : calls ≤ calls2)
    (width height : Nat) (samples : Int) (camera : Camera F) (world : Hitter F)
    (rr : Rand F) (st : RenderState F)
    (h : Render sqrt maxFloat64 wrap fuel calls width height samples camera world rr = .ok st) :
    Render sqrt maxFloat64 wrap fuel2 calls2 width height samples camera world rr = .ok st := by
  have hsample : ∀ (i j k : Nat) (x x1 : Color F × RenderState F),
      Render.sample sqrt maxFloat64 fuel calls width height camera world i j k x = .ok x1 →
      Render.sample sqrt maxFloat64 fuel2 calls2 width height camera world i j k x = .ok x1 := by
    intro i j k x x1 hx
    simp only [Render.sample] at hx ⊢
    split at hx
    · simp at hx
    · rename_i rd rr1 hd
      rw [randomInUnitDisk_mono fuel _ _ hd fuel2 hf]
      simp only
      split at hx
      · simp at hx
      · rename_i res hres
        rw [ComputeColor_mono sqrt maxFloat64 fuel fuel2 hf world calls _ _ _ _ _ res hres
          calls2 hc]
        exact hx
  have hpixel : ∀ (i j : Nat) (s1 s2 : RenderState F),
      Render.pixel sqrt maxFloat64 wrap fuel calls width height samples camera world i j s1
        = .ok s2 →
      Render.pixel sqrt maxFloat64 wrap fuel2 calls2 width height samples camera world i j s1
        = .ok s2 := by
    intro i j s1 s2 hp
    simp only [Render.pixel] at hp ⊢
    split at hp
    · simp at hp
    · rename_i c s3 hloop
      rw [forEach_mono _ _ (hsample i j) _ _ _ hloop]
      exact hp
  simp only [Render] at h ⊢
  exact forEach_mono _ _
    (fun i s1 s2 hrow => forEach_mono _ _ (hpixel i) _ s1 s2 hrow) _ _ _ h

/-- C15: the result of `Render` is a function of its arguments and the state
of the generator it starts from: two renders of the same scene, camera,
width, height and sample count that start from generator states with the same
draws and both return (whatever the cut-offs of the model are) produce the
same sequence of `Set` calls, hence the same colour at every pixel, and leave
the generator in the same state. -/
theorem Render_deterministic [FloorRing F] (sqrt : F → F) (maxFloat64 : F) (wrap : F → Nat)
    (fuel1 fuel2 calls1 calls2 : Nat) (width height : Nat) (samples : Int)
    (camera : Camera F) (world : Hitter F) (rr1 rr2 : Rand F) (st1 st2 : RenderState F)
    (hrr : ∀ n, rr1 n = rr2 n)
    (h1 : Render sqrt maxFloat64 wrap fuel1 calls1 width height samples camera world rr1
      = .ok st1)
    (h2 : Render sqrt maxFloat64 wrap fuel2 calls2 width height samples camera world rr2
      = .ok st2) :
    st1.img = st2.img ∧ (∀ x y, imageAt st1.img x y = imageAt st2.img x y) ∧
    st1.rr = st2.rr := by
  have e : rr1 = rr2 := funext hrr
  subst e
  have g1 := Render_mono sqrt maxFloat64 wrap fuel1 (max fuel1 fuel2) calls1 (max calls1 calls2)
    (le_max_left _ _) (le_max_left _ _) width height samples camera world rr1 st1 h1
  have g2 := Render_mono sqrt maxFloat64 wrap fuel2 (max fuel1 fuel2) calls2 (max calls1 calls2)
    (le_max_right _ _) (le_max_right _ _) width height samples camera world rr1 st2 h2
  rw [g1] at g2
  simp only [Except.ok.injEq] at g2
  rw [g2]
  exact ⟨rfl, fun _ _ => rfl, rfl⟩

/-- Instance of C15: two renders of the empty scene from the generator that
always draws `1/2`, with different cut-offs. -/
theorem Render_deterministic_witness :
    (∀ n, (exHalf : Rand ℝ) n = (exHalf : Rand ℝ) n) ∧
    ∃ st1 st2,
      Render Real.sqrt 1000 (fun _ => 0) 1 0 1 1 1 exCamera exEmptyWorld exHalf = .ok st1 ∧
      Render Real.sqrt 1000 (fun _ => 0) 3 50 1 1 1 exCamera exEmptyWorld exHalf = .ok st2 ∧
      st1.img = st2.img ∧ st1.rr = st2.rr :=
  ⟨fun _ => rfl, _, _, Render_exEmptyWorld 1000 (fun _ => 0) 0 0,
    Render_exEmptyWorld 1000 (fun _ => 0) 2 50,
    (Render_deterministic Real.sqrt 1000 (fun _ => 0) 1 3 0 50 1 1 1 exCamera exEmptyWorld
      exHalf exHalf _ _ (fun _ => rfl) (Render_exEmptyWorld 1000 (fun _ => 0) 0 0)
      (Render_exEmptyWorld 1000 (fun _ => 0) 2 50)).1,
    (Render_deterministic Real.sqrt 1000 (fun _ => 0) 1 3 0 50 1 1 1 exCamera exEmptyWorld
      exHalf exHalf _ _ (fun _ => rfl) (Render_exEmptyWorld 1000 (fun _ => 0) 0 0)
      (Render_exEmptyWorld 1000 (fun _ => 0) 2 50)).2.2⟩

/-! ## The scratch record of a list of spheres -/

/-- Whether a sphere is hit, and the record of the hit, do not depend on the
record passed in. -/
theorem Sphere.Hit_rec_indep (sqrt : F → F) (s : Sphere F) (r : Ray F) (tMin tMax : F)
    (rec1 rec2 : HitRecord F) :
    (s.Hit sqrt r tMin tMax rec1).1 = (s.Hit sqrt r tMin tMax rec2).1 ∧
    ((s.Hit sqrt r tMin tMax rec1).1 = true →
      (s.Hit sqrt r tMin tMax rec1).2 = (s.Hit sqrt r tMin tMax rec2).2) := by
  rw [Sphere.Hit_eq, Sphere.Hit_eq]
  simp only
  split_ifs <;> simp

theorem HitterList.hitLoop_tempRec_irrelevant (sqrt : F → F) (r : Ray F) (tMin : F) :
    ∀ (l : List (Sphere F)) (st1 st2 : HitLoopState F),
      st1.hitAnything = st2.hitAnything → st1.closest = st2.closest →
      st1.callerRec = st2.callerRec →
      (HitterList.hitLoop r tMin (l.map (Sphere.toHitter sqrt)) st1).hitAnything =
        (HitterList.hitLoop r tMin (l.map (Sphere.toHitter sqrt)) st2).hitAnything ∧
      (HitterList.hitLoop r tMin (l.map (Sphere.toHitter sqrt)) st1).callerRec =
        (HitterList.hitLoop r tMin (l.map (Sphere.toHitter sqrt)) st2).callerRec := by
  intro l
  induction l with
  | nil =>
    intro st1 st2 h1 _ h3
    exact ⟨h1, h3⟩
  | cons s rest ih =>
    intro st1 st2 h1 h2 h3
    simp only [List.map, HitterList.hitLoop, Sphere.toHitter]
    rw [h2]
    have hind := Sphere.Hit_rec_indep sqrt s r tMin st2.closest st1.tempRec st2.tempRec
    cases hb : (s.Hit sqrt r tMin st2.closest st1.tempRec).1
    · have hb2 : (s.Hit sqrt r tMin st2.closest st2.tempRec).1 = false := by
        rw [← hind.1]; exact hb
      simp only [hb2, Bool.not_false, if_true]
      exact ih _ _ h1 rfl h3
    · have hb2 : (s.Hit sqrt r tMin st2.closest st2.tempRec).1 = true := by
        rw [← hind.1]; exact hb
      simp only [hb2, Bool.not_true, Bool.false_eq_true, if_false]
      have he := hind.2 hb
      exact ih _ _ rfl (by simp only [he]) (by simp only [he])

/-- The result of `HitterList.Hit` on a list of spheres does not depend on
the content of the scratch record `hl.tempRec`. -/
theorem HitterList.Hit_tempRec_irrelevant (sqrt : F → F) (ss : List (Sphere F))
    (tmp1 tmp2 : HitRecord F) (r : Ray F) (tMin tMax : F) (rec : HitRecord F) :
    (HitterList.ofSpheres sqrt ss tmp1).toHitter.Hit r tMin tMax rec =
      (HitterList.ofSpheres sqrt ss tmp2).toHitter.Hit r tMin tMax rec := by
  have key := HitterList.hitLoop_tempRec_irrelevant sqrt r tMin ss
    { hitAnything := false, closest := tMax, tempRec := tmp1, callerRec := rec }
    { hitAnything := false, closest := tMax, tempRec := tmp2, callerRec := rec } rfl rfl rfl
  simp only [HitterList.toHitter, HitterList.Hit, HitterList.ofSpheres]
  rw [key.1, key.2]
  split_ifs <;> rfl

/-! ## The code on `float64`

The definitions evaluated on IEEE 754 binary64 at concrete inputs. -/

theorem exRayFast_oc_length :
    ((exRayFast : Ray ℝ).Origin.Sub (exSphere : Sphere ℝ).Center).Length Real.sqrt = 3 := by
  simp only [Vec3.Length, Vec3.SquaredLength, Vec3.Sub, exRayFast, exSphere]
  exact real_sqrt_eq (by norm_num) (by norm_num)

theorem exRayFast_length : (exRayFast : Ray ℝ).Direction.Length Real.sqrt = 2 ^ 600 := by
  simp only [Vec3.Length, Vec3.SquaredLength, exRayFast]
  exact real_sqrt_eq (by positivity) (by simp only [Nat.cast_pow, Nat.cast_ofNat]; ring)

/-- C1 as stated fails on `float64`: for the sphere of radius `0.7` at the
origin and the ray from `(0.7, 0, -0.5)` along `+Z`, the quadratic over the
exact values of these inputs has the root `1/2`, which lies in `(0, 10)`;
the code computes the discriminant `-(2^52 * 2^-106) = -2^-54` and reports
no hit. -/
theorem Sphere_Hit_tangent_rounds :
    hitQuadratic (exSphereOf (float64.toRat 0.7)) (exRayTangent (float64.toRat 0.7)) (1 / 2) = 0 ∧
    (0 : ℚ) < 1 / 2 ∧ (1 / 2 : ℚ) < 10 ∧
    Dot ((exRayTangent (0.7 : float64)).Origin.Sub (exSphereOf (0.7 : float64)).Center)
        (exRayTangent (0.7 : float64)).Direction
      * Dot ((exRayTangent (0.7 : float64)).Origin.Sub (exSphereOf (0.7 : float64)).Center)
        (exRayTangent (0.7 : float64)).Direction
      - Dot (exRayTangent (0.7 : float64)).Direction (exRayTangent (0.7 : float64)).Direction
        * (Dot ((exRayTangent (0.7 : float64)).Origin.Sub (exSphereOf (0.7 : float64)).Center)
            ((exRayTangent (0.7 : float64)).Origin.Sub (exSphereOf (0.7 : float64)).Center)
          - (exSphereOf (0.7 : float64)).Radius * (exSphereOf (0.7 : float64)).Radius)
      = float64.fin true (2 ^ 52) (-106) ∧
    (Sphere.Hit float64.sqrt (exSphereOf 0.7) (exRayTangent 0.7) 0 10 exRec).1 = false := by
  refine ⟨?_, by norm_num, by norm_num, by decide!, by decide!⟩
  simp only [hitQuadratic, exSphereOf, exRayTangent, Dot, Vec3.Sub]
  ring

/-- C3 as stated fails on `float64`: the ray from `(2, 3, -10)` along `+Z`
hits the sphere of radius 7 at the origin at `T = 4` in the point
`(2, 3, -6)`; the recorded normal `(2/7, 3/7, -6/7)`, each quotient rounded,
has squared length and length `(2^53 - 1) * 2^-53 = 1 - 2^-53`, below 1. -/
theorem Sphere_Hit_normal_rounds :
    (Sphere.Hit float64.sqrt (exSphereOf 7) exRaySkew 0 10 exRec).1 = true ∧
    (Sphere.Hit float64.sqrt (exSphereOf 7) exRaySkew 0 10 exRec).2.T = 4 ∧
    (Sphere.Hit float64.sqrt (exSphereOf 7) exRaySkew 0 10 exRec).2.P.X = 2 ∧
    (Sphere.Hit float64.sqrt (exSphereOf 7) exRaySkew 0 10 exRec).2.P.Y = 3 ∧
    (Sphere.Hit float64.sqrt (exSphereOf 7) exRaySkew 0 10 exRec).2.P.Z = -6 ∧
    (Sphere.Hit float64.sqrt (exSphereOf 7) exRaySkew 0 10 exRec).2.Normal.SquaredLength
      = float64.fin false (2 ^ 53 - 1) (-53) ∧
    (Sphere.Hit float64.sqrt (exSphereOf 7) exRaySkew 0 10 exRec).2.Normal.Length float64.sqrt
      = float64.fin false (2 ^ 53 - 1) (-53) ∧
    (Sphere.Hit float64.sqrt (exSphereOf 7) exRaySkew 0 10 exRec).2.Normal.Length float64.sqrt
      < 1 := by decide!

/-- C4 as stated fails on `float64`: for the sphere of radius `1 - 2^-53` at
the origin and the ray from `(1, 0, -3)` along `+Z`, the squared distance of
the line to the centre is 1 and exceeds the squared radius, on the exact
values and as `float64` computes both sides; the code computes the
discriminant 0 and reports a hit with `T = 3`. -/
theorem Sphere_Hit_far_hits :
    Dot ((exRayOffset : Ray ℚ).Origin.Sub (exSphereOf (float64.toRat exThinRadius)).Center)
        ((exRayOffset : Ray ℚ).Origin.Sub (exSphereOf (float64.toRat exThinRadius)).Center)
      - Dot ((exRayOffset : Ray ℚ).Origin.Sub (exSphereOf (float64.toRat exThinRadius)).Center)
          (exRayOffset : Ray ℚ).Direction ^ 2
        / Dot (exRayOffset : Ray ℚ).Direction (exRayOffset : Ray ℚ).Direction
      > (exSphereOf (float64.toRat exThinRadius)).Radius ^ 2 ∧
    Dot ((exRayOffset : Ray float64).Origin.Sub (exSphereOf exThinRadius).Center)
        ((exRayOffset : Ray float64).Origin.Sub (exSphereOf exThinRadius).Center)
      - Dot ((exRayOffset : Ray float64).Origin.Sub (exSphereOf exThinRadius).Center)
            (exRayOffset : Ray float64).Direction
          * Dot ((exRayOffset : Ray float64).Origin.Sub (exSphereOf exThinRadius).Center)
            (exRayOffset : Ray float64).Direction
        / Dot (exRayOffset : Ray float64).Direction (exRayOffset : Ray float64).Direction
      > (exSphereOf exThinRadius).Radius * (exSphereOf exThinRadius).Radius ∧
    (Sphere.Hit float64.sqrt (exSphereOf exThinRadius) exRayOffset 0 10 exRec).1 = true ∧
    (Sphere.Hit float64.sqrt (exSphereOf exThinRadius) exRayOffset 0 10 exRec).2.T = 3 := by
  refine ⟨?_, by decide!, by decide!, by decide!⟩
  simp only [exSphereOf, exRayOffset, Dot, Vec3.Sub, float64.toRat, exThinRadius]
  norm_num

/-- C5 as stated fails on `float64`: the ray from `(0, 0, -3)` with
direction `(0, 0, 2^600)` points at the centre of the unit sphere, and the
near root `(3 - 1) / 2^600` lies in `(0, 10)`; in the code `dot(d, d)`
overflows, the discriminant is not a number and no hit is reported. -/
theorem Sphere_Hit_center_overflows :
    0 < (exSphere : Sphere ℝ).Radius ∧
    ((exRayFast : Ray ℝ).Origin.Sub (exSphere : Sphere ℝ).Center).Length Real.sqrt
      > (exSphere : Sphere ℝ).Radius ∧
    (0 : ℝ) < 2 ^ 600 / 3 ∧
    (exRayFast : Ray ℝ).Direction
      = ((exSphere : Sphere ℝ).Center.Sub (exRayFast : Ray ℝ).Origin).Mul (2 ^ 600 / 3) ∧
    (0 : ℝ) < (((exRayFast : Ray ℝ).Origin.Sub (exSphere : Sphere ℝ).Center).Length Real.sqrt
        - (exSphere : Sphere ℝ).Radius) / (exRayFast : Ray ℝ).Direction.Length Real.sqrt ∧
    (((exRayFast : Ray ℝ).Origin.Sub (exSphere : Sphere ℝ).Center).Length Real.sqrt
        - (exSphere : Sphere ℝ).Radius) / (exRayFast : Ray ℝ).Direction.Length Real.sqrt < 10 ∧
    Dot (exRayFast : Ray float64).Direction (exRayFast : Ray float64).Direction
      = float64.inf false ∧
    (Sphere.Hit float64.sqrt exSphere exRayFast 0 10 exRec).1 = false := by
  refine ⟨by simp [exSphere], ?_, by positivity, ?_, ?_, ?_, by decide!, by decide!⟩
  · rw [exRayFast_oc_length]; simp [exSphere]
  · simp only [exRayFast, exSphere, Vec3.Sub, Vec3.Mul]
    ext <;> norm_num
  · rw [exRayFast_oc_length, exRayFast_length]
    simp only [exSphere]
    positivity
  · rw [exRayFast_oc_length, exRayFast_length]
    simp only [exSphere]
    rw [div_lt_iff₀ (by positivity)]
    have h : (1 : ℝ) ≤ 2 ^ 600 := one_le_pow₀ (by norm_num)
    linarith

/-- A call whose colour channels are known returned a result with them. -/
theorem ComputeColor_channels {F : Type} (x : Except Fault (ColorResult F)) (c : F × F × F)
    (h : x.toOption.map (fun res => (res.color.R, res.color.G, res.color.B)) = some c) :
    ∃ res, x = .ok res ∧ res.color = { R := c.1, G := c.2.1, B := c.2.2 } := by
  cases x with
  | error e => simp [Except.toOption] at h
  | ok res =>
    simp only [Except.toOption, Option.map_some', Option.some.injEq] at h
    exact ⟨res, rfl, by rw [← h]⟩

/-- C11 as stated fails on `float64`: in the scene without members the ray
with direction `(0, 1, 0)` gets the colour `(0.5, 0.7, 1.0)`; the ray with
that direction scaled by `2^52 * 2^-652 = 2^-600` misses too, but the squared
length of its direction underflows to 0, `Unit` divides by 0 and every
channel of the colour returned is not a number. -/
theorem ComputeColor_miss_underflows :
    (((exRayVertical : Ray float64).Direction.Mul (float64.fin false (2 ^ 52) (-652))).X,
      ((exRayVertical : Ray float64).Direction.Mul (float64.fin false (2 ^ 52) (-652))).Y,
      ((exRayVertical : Ray float64).Direction.Mul (float64.fin false (2 ^ 52) (-652))).Z)
      = ((exRayFaint : Ray float64).Direction.X, (exRayFaint : Ray float64).Direction.Y,
        (exRayFaint : Ray float64).Direction.Z) ∧
    (exRayFaint : Ray float64).Direction.Y = float64.fin false (2 ^ 52) (-652) ∧
    ((exEmptyWorld : Hitter float64).Hit exRayVertical 0.001 float64.maxFloat64 exRec).1 = false ∧
    ((exEmptyWorld : Hitter float64).Hit exRayFaint 0.001 float64.maxFloat64 exRec).1 = false ∧
    (∃ res, ComputeColor float64.sqrt float64.maxFloat64 0 0 exRayVertical exEmptyWorld 0
        exScattered exRec exHalf = .ok res ∧
      res.color = { R := 0.5, G := 0.7, B := 1.0 }) ∧
    (exRayFaint : Ray float64).Direction.SquaredLength = 0 ∧
    ((exRayFaint : Ray float64).Direction.Unit float64.sqrt).Y = float64.inf false ∧
    (∃ res, ComputeColor float64.sqrt float64.maxFloat64 0 0 exRayFaint exEmptyWorld 0
        exScattered exRec exHalf = .ok res ∧
      res.color = { R := float64.nan, G := float64.nan, B := float64.nan }) :=
  ⟨by decide!, by decide!, by decide!, by decide!,
    ComputeColor_channels _ (0.5, 0.7, 1.0) (by decide!), by decide!, by decide!,
    ComputeColor_channels _ (float64.nan, float64.nan, float64.nan) (by decide!)⟩

/-- A colour whose red channel is not a number is not in `[0, 1]`. -/
theorem Color.not_InUnit_nan (g b : float64) :
    ¬ ({ R := float64.nan, G := g, B := b } : Color float64).InUnit := by
  intro h
  have h0 : ¬ ((0 : float64) ≤ float64.nan) := by decide
  exact h0 h.1

/-- C19 as stated fails on `float64`, and on three kinds of input.  In the
scene without spheres the ray with direction `(0, 2^-600, 0)` gets a colour
whose channels are not numbers (the squared length of the direction
underflows), and so does the ray with the zero direction (`Unit` divides 0
by 0).  The ray from `(0, 0, -3)` along `+Z` hits the diffuse sphere of
radius 0 at its centre, the normal is `0 / 0`, and the colour returned has
channels that are not numbers either. -/
theorem ComputeColor_channel_not_in_unit :
    (∃ res, ComputeColor float64.sqrt float64.maxFloat64 0 0 exRayFaint
        (HitterList.ofSpheres float64.sqrt [] exRec).toHitter 0 exScattered exRec exHalf
        = .ok res ∧ ¬ res.color.InUnit) ∧
    (∃ res, ComputeColor float64.sqrt float64.maxFloat64 0 0 exScattered
        (HitterList.ofSpheres float64.sqrt [] exRec).toHitter 0 exScattered exRec exHalf
        = .ok res ∧ ¬ res.color.InUnit) ∧
    (∀ s ∈ [(exSpherePoint : Sphere float64)], GoodMaterial s.ScatterFn) ∧
    (∃ res, ComputeColor float64.sqrt float64.maxFloat64 1 1 exRay
        (HitterList.ofSpheres float64.sqrt [exSpherePoint] exRec).toHitter 0 exScattered exRec
        exHalf = .ok res ∧ ¬ res.color.InUnit) := by
  refine ⟨?_, ?_, ?_, ?_⟩
  · obtain ⟨res, h1, h2⟩ := ComputeColor_channels (ComputeColor float64.sqrt
      float64.maxFloat64 0 0 exRayFaint (HitterList.ofSpheres float64.sqrt [] exRec).toHitter 0
      exScattered exRec exHalf) (float64.nan, float64.nan, float64.nan) (by decide!)
    exact ⟨res, h1, by rw [h2]; exact Color.not_InUnit_nan _ _⟩
  · obtain ⟨res, h1, h2⟩ := ComputeColor_channels (ComputeColor float64.sqrt
      float64.maxFloat64 0 0 exScattered (HitterList.ofSpheres float64.sqrt [] exRec).toHitter 0
      exScattered exRec exHalf) (float64.nan, float64.nan, float64.nan) (by decide!)
    exact ⟨res, h1, by rw [h2]; exact Color.not_InUnit_nan _ _⟩
  · intro s hmem
    simp only [List.mem_singleton] at hmem
    rw [hmem]
    simp only [exSpherePoint, GoodMaterial, Color.InUnit]
    decide!
  · obtain ⟨res, h1, h2⟩ := ComputeColor_channels (ComputeColor float64.sqrt
      float64.maxFloat64 1 1 exRay (HitterList.ofSpheres float64.sqrt [exSpherePoint]
      exRec).toHitter 0 exScattered exRec exHalf)
      (float64.nan, float64.nan, float64.nan) (by decide!)
    exact ⟨res, h1, by rw [h2]; exact Color.not_InUnit_nan _ _⟩

/-- C18 as stated fails on `float64`: for `v = (0.1, 0.2, 0.3)` and
`w = (0.4, 0.5, 0.7)`, each literal the nearest `float64`, the code's
`Dot(v, Cross(v, w))` is `-(2^52 * 2^-111) = -2^-59`. -/
theorem Dot_Cross_rounds :
    Dot (exV : Vec3 float64) (Cross exV exW) = float64.fin true (2 ^ 52) (-111) ∧
    Dot (exV : Vec3 float64) (Cross exV exW) ≠ 0 ∧
    Dot (exV : Vec3 float64) (Cross exV exW) < 0 := by decide!


end ray
